import Mathlib

/-!
# TMC decoder: embedding of the reconstruction pipeline

Shallow embedding of `TVMUtil.cpp`, `TVMDecoder.cpp`, `MatrixIO.cpp`, `SimpleMeshIO.cpp`,
`SimpleMesh.cpp` and `PlaybackManager.cpp` (Unity plugin back end).

Conventions of the embedding.
* A C++ `double` is an exact rational; the one operation of the code that can leave the
  finite values, the division by `anchorCount - 1.0`, returns an `Option`.
* An `Eigen::MatrixXd` / `Eigen::SparseMatrix<double>` is its shape and its coefficient
  function; only coefficients inside the shape are meaningful.
* Container sizes (`size_t`, `Eigen::Index`) are natural numbers, signed `int` values that may
  be negative are integers.
* A C++ exception is a value of `Exception`; a violated range precondition of an Eigen
  expression (`eigen_assert`) is the value `Exception.eigen_assert`.
* Member functions that mutate the decoder return the decoder they leave behind together
  with their result.
* The file system is a value of `Disk`; the playback manager is run sequentially (its mutex
  is not modelled), and its `shared_ptr` decoders are the elements of a list.
* A Euclidean norm is compared with a threshold through its square, and a
  `std::unordered_map` is the list of its entries in insertion order.
* A `std::istringstream` is the list of its unread characters and its fail bit.
-/

namespace Eigen

/-- The type `Eigen::Vector3d`. -/
structure Vector3d where
  x : ℚ
  y : ℚ
  z : ℚ
deriving DecidableEq

instance : Add Vector3d := ⟨fun a b => ⟨a.x + b.x, a.y + b.y, a.z + b.z⟩⟩

instance : Inhabited Vector3d := ⟨⟨0, 0, 0⟩⟩

/-- The component `p[c]` of a `Vector3d`, for `c` in 0, 1, 2. -/
def Vector3d.coeff (p : Vector3d) (c : ℕ) : ℚ :=
  match c with
  | 0 => p.x
  | 1 => p.y
  | _ => p.z

/-- The type `Eigen::MatrixXd`: a dense matrix of run-time shape. -/
structure MatrixXd where
  rows : ℕ
  cols : ℕ
  coeff : ℕ → ℕ → ℚ

/-- The type `Eigen::SparseMatrix<double>`. -/
structure SparseMatrix where
  rows : ℕ
  cols : ℕ
  coeff : ℕ → ℕ → ℚ

/-- The type `Eigen::Triplet<double>`: one `(row, col, value)` contribution. -/
structure Triplet where
  row : ℤ
  col : ℤ
  value : ℚ

end Eigen

/-- How a call can end other than by returning: one of the standard exceptions the code
throws or lets through, the failure of an Eigen range assertion, or behaviour the language
leaves undefined. -/
inductive Exception where
  | runtime_error (what : String)
  | out_of_range (what : String)
  | eigen_assert (what : String)
  | invalid_argument (what : String)
  | undefined (what : String)
deriving DecidableEq

namespace Eigen

/-- The default-constructed `MatrixXd()`, of shape 0 x 0. -/
def MatrixXd.empty : MatrixXd := ⟨0, 0, fun _ _ => 0⟩

/-- The default-constructed `SparseMatrix<double>()`. -/
def SparseMatrix.empty : SparseMatrix := ⟨0, 0, fun _ _ => 0⟩

/-- The expression `m.topRows(n)`; Eigen asserts that the block lies inside `m`. -/
def MatrixXd.topRows (m : MatrixXd) (n : ℤ) : Except Exception MatrixXd :=
  if 0 ≤ n ∧ n ≤ m.rows then
    .ok ⟨n.toNat, m.cols, m.coeff⟩
  else
    .error (.eigen_assert "topRows: block outside the matrix")

/-- The expression `m.bottomRows(n)`; Eigen asserts that the block lies inside `m`. -/
def MatrixXd.bottomRows (m : MatrixXd) (n : ℤ) : Except Exception MatrixXd :=
  if 0 ≤ n ∧ n ≤ m.rows then
    .ok ⟨n.toNat, m.cols, fun r c => m.coeff (m.rows - n.toNat + r) c⟩
  else
    .error (.eigen_assert "bottomRows: block outside the matrix")

/-- The expression `m.block(startRow, startCol, blockRows, blockCols)`. -/
def MatrixXd.block (m : MatrixXd) (startRow startCol blockRows blockCols : ℕ) :
    Except Exception MatrixXd :=
  if startRow + blockRows ≤ m.rows ∧ startCol + blockCols ≤ m.cols then
    .ok ⟨blockRows, blockCols, fun r c => m.coeff (startRow + r) (startCol + c)⟩
  else
    .error (.eigen_assert "block: block outside the matrix")

/-- The assignment `m.topRows(n) = src`; the block must lie inside `m` and have the shape of
`src`. -/
def MatrixXd.assignTopRows (m : MatrixXd) (n : ℤ) (src : MatrixXd) : Except Exception MatrixXd :=
  if 0 ≤ n ∧ n ≤ m.rows ∧ src.rows = n.toNat ∧ src.cols = m.cols then
    .ok ⟨m.rows, m.cols, fun r c => if r < n.toNat then src.coeff r c else m.coeff r c⟩
  else
    .error (.eigen_assert "topRows assignment: shapes differ")

/-- The assignment `m.bottomRows(n) = src`. -/
def MatrixXd.assignBottomRows (m : MatrixXd) (n : ℤ) (src : MatrixXd) :
    Except Exception MatrixXd :=
  if 0 ≤ n ∧ n ≤ m.rows ∧ src.rows = n.toNat ∧ src.cols = m.cols then
    .ok ⟨m.rows, m.cols, fun r c =>
      if m.rows - n.toNat ≤ r then src.coeff (r - (m.rows - n.toNat)) c else m.coeff r c⟩
  else
    .error (.eigen_assert "bottomRows assignment: shapes differ")

/-- The dense product `a * b`; Eigen asserts `a.cols() == b.rows()`. -/
def MatrixXd.mul (a b : MatrixXd) : Except Exception MatrixXd :=
  if a.cols = b.rows then
    .ok ⟨a.rows, b.cols, fun r c => ((List.range a.cols).map fun k => a.coeff r k * b.coeff k c).sum⟩
  else
    .error (.eigen_assert "product: inner dimensions differ")

/-- The statement `m(r, c) += x` on a dense matrix. -/
def MatrixXd.addAt (m : MatrixXd) (r c : ℕ) (x : ℚ) : MatrixXd :=
  ⟨m.rows, m.cols, fun i j => if i = r ∧ j = c then m.coeff i j + x else m.coeff i j⟩

/-- The call `M.setFromTriplets(...)` on a fresh `rows x cols` sparse matrix: the coefficient
at `(r, c)` is the sum of the values of the triplets placed there. -/
def SparseMatrix.setFromTriplets (rows cols : ℕ) (ts : List Triplet) : SparseMatrix :=
  ⟨rows, cols, fun r c =>
    ((ts.filter fun t => t.row = (r : ℤ) ∧ t.col = (c : ℤ)).map Triplet.value).sum⟩

/-- The assignment `X.col(i) = x`. -/
def MatrixXd.setCol (X : MatrixXd) (i : ℕ) (x : ℕ → ℚ) : MatrixXd :=
  ⟨X.rows, X.cols, fun r c => if c = i then x r else X.coeff r c⟩

/-- The solver `Eigen::LeastSquaresConjugateGradient<SparseMatrix<double>>`, which the
repository takes from the Eigen library: whether `compute` leaves `info() == Success`, and the
vector `solve` returns for a right-hand side (with the iteration cap and tolerance set on the
solver), `none` when `info() != Success` afterwards. -/
structure LeastSquaresConjugateGradient where
  compute : SparseMatrix → Bool
  solve : SparseMatrix → ℕ → ℚ → (ℕ → ℚ) → Option (ℕ → ℚ)

/-- The sparse product `a * b`. -/
def SparseMatrix.mul (a b : SparseMatrix) : SparseMatrix :=
  ⟨a.rows, b.cols, fun r c => ((List.range a.cols).map fun k => a.coeff r k * b.coeff k c).sum⟩

/-- The sparse difference `a - b`. -/
def SparseMatrix.sub (a b : SparseMatrix) : SparseMatrix :=
  ⟨a.rows, a.cols, fun r c => a.coeff r c - b.coeff r c⟩

/-- The matrix left by `I.setIdentity()` on an `n x n` sparse matrix. -/
def SparseMatrix.identity (n : ℕ) : SparseMatrix :=
  ⟨n, n, fun r c => if r = c then 1 else 0⟩

end Eigen

namespace SimpleMesh

/-- The class `SimpleMesh::Mesh`. A triangle is its three corner indices; each
`unordered_set<int>` of the adjacency list is the list of its elements in iteration order. -/
structure Mesh where
  vertices : List Eigen.Vector3d
  triangles : List (ℤ × ℤ × ℤ)
  adjacency_list : List (List ℤ)

/-- The mesh with all three containers cleared. -/
def Mesh.empty : Mesh := ⟨[], [], []⟩

end SimpleMesh

namespace TVMUtil

open Eigen

/-- The loop body of `SolveLeastSquares` for column `i`. -/
def solveColumn (solver : LeastSquaresConjugateGradient) (L_star : SparseMatrix)
    (D_hat : MatrixXd) (maxIter : ℕ) (tol : ℚ) (X : MatrixXd) (i : ℕ) :
    Except Exception MatrixXd :=
  if solver.compute L_star = false then
    .error (.runtime_error ("LSCG failed to initialize on column " ++ toString i))
  else if L_star.rows ≠ D_hat.rows then
    .error (.eigen_assert "solve(): invalid number of rows of the right hand side matrix b")
  else
    match solver.solve L_star maxIter tol (fun r => D_hat.coeff r i) with
    | none => .error (.runtime_error ("LSCG solve failed on column " ++ toString i))
    | some x => .ok (X.setCol i x)

/-- The function `TVMUtil::SolveLeastSquares`: one least-squares solve per column of `D_hat`. -/
def SolveLeastSquares (solver : LeastSquaresConjugateGradient) (L_star : SparseMatrix)
    (D_hat : MatrixXd) (maxIter : ℕ) (tol : ℚ) : Except Exception MatrixXd :=
  let numCols := D_hat.cols
  let numVars := L_star.cols
  (List.range numCols).foldlM (solveColumn solver L_star D_hat maxIter tol)
    ⟨numVars, numCols, fun _ _ => 0⟩

/-- Element `i` of a vertex array, for an `int` index. -/
def vertexAt (vertices : List Vector3d) (i : ℤ) : Vector3d :=
  if 0 ≤ i then vertices.getD i.toNat default else default

/-- The function `TVMUtil::ComputeMeanValueWeights`. The weight of a neighbour is
`(tan(angle1 / 2) + tan(angle2 / 2)) / norm`, a function of the vertex, the neighbour and the
neighbours before and after it; it is passed in as `weight`, which returns `none` when the
value is not finite. An index outside a container (undefined in C++, excluded by a
well-formed mesh) reads a default value. -/
def ComputeMeanValueWeights
    (weight : Vector3d → Vector3d → Vector3d → Vector3d → Option ℚ)
    (vertices : List Vector3d) (adjacency_list : List (List ℤ)) : SparseMatrix :=
  let n := vertices.length
  let triplets : List Triplet := ((List.range n).map fun i =>
    let neighbors := adjacency_list.getD i []
    let degree := neighbors.length
    if degree < 2 then []
    else (List.range degree).filterMap fun j =>
      let curr := neighbors.getD j 0
      let prev := neighbors.getD ((j + degree - 1) % degree) 0
      let next := neighbors.getD ((j + 1) % degree) 0
      (weight (vertices.getD i default) (vertexAt vertices curr) (vertexAt vertices prev)
        (vertexAt vertices next)).map fun w => (⟨i, curr, w⟩ : Triplet)).flatten
  SparseMatrix.setFromTriplets n n triplets

/-- The `float` literal `1e-8f` as the `double` it is compared with: 11258999 * 2^(-50). -/
def rowSumThreshold : ℚ := 11258999 / 2 ^ 50

/-- The function `TVMUtil::BuildLaplacianMatrix`: the normalised Laplacian `I - D_inv * W`
with one row per anchor stacked below it. -/
def BuildLaplacianMatrix
    (weight : Vector3d → Vector3d → Vector3d → Vector3d → Option ℚ)
    (mesh : SimpleMesh.Mesh) (anchorIndices : List ℤ) : SparseMatrix :=
  let numVertices := mesh.vertices.length
  let W := ComputeMeanValueWeights weight mesh.vertices mesh.adjacency_list
  let rowSums : ℕ → ℚ := fun i => ((List.range numVertices).map fun j => W.coeff i j * 1).sum
  let dTriplets : List Triplet := (List.range numVertices).filterMap fun i =>
    if rowSums i > rowSumThreshold then some ⟨i, i, 1 / rowSums i⟩ else none
  let D_inv := SparseMatrix.setFromTriplets numVertices numVertices dTriplets
  let I := SparseMatrix.identity numVertices
  let L := I.sub (D_inv.mul W)
  let anchorTriplets : List Triplet := (List.range anchorIndices.length).filterMap fun i =>
    let idx := anchorIndices.getD i 0
    if 0 ≤ idx ∧ idx < numVertices then some ⟨i, idx, 1⟩ else none
  let A := SparseMatrix.setFromTriplets anchorIndices.length numVertices anchorTriplets
  let totalRows := L.rows + A.rows
  ⟨totalRows, numVertices, fun r c =>
    if r < L.rows then L.coeff r c else A.coeff (r - L.rows) c⟩

/-- The innermost loop body of `ApplyTMatrixOffset`: the three `+=` on row `v`. -/
def addOffsetToRow (colStart : ℕ) (offset : Vector3d) (result : MatrixXd) (v : ℕ) : MatrixXd :=
  ((result.addAt v (colStart + 0) offset.x).addAt v (colStart + 1) offset.y).addAt v
    (colStart + 2) offset.z

/-- The outer loop body of `ApplyTMatrixOffset` for one frame. -/
def addFrameOffset (frameTranslations : MatrixXd) (numVertices : ℕ) (result : MatrixXd)
    (frame : ℕ) : MatrixXd :=
  let colStart := frame * 3
  let offset : Vector3d :=
    ⟨frameTranslations.coeff 0 (colStart + 0), frameTranslations.coeff 0 (colStart + 1),
      frameTranslations.coeff 0 (colStart + 2)⟩
  (List.range numVertices).foldl (addOffsetToRow colStart offset) result

/-- The function `TVMUtil::ApplyTMatrixOffset`. -/
def ApplyTMatrixOffset (vertexDisplacements frameTranslations : MatrixXd) :
    Except Exception MatrixXd :=
  let result := vertexDisplacements
  let numFrames := frameTranslations.cols / 3
  let numVertices := vertexDisplacements.rows
  if frameTranslations.rows ≠ 1 ∨ frameTranslations.cols ≠ vertexDisplacements.cols then
    .error (.runtime_error "T_matrix must be shape (1, 3 * numFrames)")
  else
    .ok ((List.range numFrames).foldl (addFrameOffset frameTranslations numVertices) result)

end TVMUtil

namespace TVMDecoder

open Eigen

/-- The data members of the class `TVMDecoder::Decoder`. -/
structure Decoder where
  decoderName : String
  decodedReferenceMesh : SimpleMesh.Mesh
  dHat : MatrixXd
  bMatrix : MatrixXd
  tMatrix : MatrixXd
  S_hat : MatrixXd
  T_hat : MatrixXd
  tMean : MatrixXd
  l_star : SparseMatrix
  decodedFrames : List (List Vector3d)
  decodedVertexBuffer : List ℚ
  referenceVertexBuffer : List ℚ
  triangleIndicesFlat : List ℤ
  anchor_indices : List ℤ
  totalFrames : ℕ
  verticesPerFrame : ℕ
  isDecoded : Bool

/-- What decoding takes from outside the repository: the value the platform gives to the
conversion of a non-finite `double` to `int` (which C++ leaves undefined), the mean-value
weight formula (trigonometric, see `TVMUtil.ComputeMeanValueWeights`), and Eigen's solver. -/
structure Host where
  nanToInt : ℤ
  weight : Vector3d → Vector3d → Vector3d → Vector3d → Option ℚ
  solver : LeastSquaresConjugateGradient

/-- The constructor `Decoder::Decoder(name)`: the Empty state. -/
def Decoder.new (name : String) : Decoder where
  decoderName := name
  decodedReferenceMesh := SimpleMesh.Mesh.empty
  dHat := MatrixXd.empty
  bMatrix := MatrixXd.empty
  tMatrix := MatrixXd.empty
  S_hat := MatrixXd.empty
  T_hat := MatrixXd.empty
  tMean := MatrixXd.empty
  l_star := SparseMatrix.empty
  decodedFrames := []
  decodedVertexBuffer := []
  referenceVertexBuffer := []
  triangleIndicesFlat := []
  anchor_indices := []
  totalFrames := 0
  verticesPerFrame := 0
  isDecoded := false

/-- The member function `Decoder::Clear`. -/
def Decoder.Clear (d : Decoder) : Decoder :=
  { d with
    decodedFrames := []
    decodedVertexBuffer := []
    referenceVertexBuffer := []
    triangleIndicesFlat := []
    anchor_indices := []
    dHat := MatrixXd.empty
    bMatrix := MatrixXd.empty
    tMatrix := MatrixXd.empty
    S_hat := MatrixXd.empty
    T_hat := MatrixXd.empty
    tMean := MatrixXd.empty
    l_star := SparseMatrix.empty
    decodedReferenceMesh := SimpleMesh.Mesh.empty
    totalFrames := 0
    verticesPerFrame := 0
    isDecoded := false }

/-- The `double` quotient `x / y`: `none` when it is not a finite number (`y` is zero). -/
def divDouble (x y : ℚ) : Option ℚ :=
  if y = 0 then none else some (x / y)

/-- The function `std::round`: nearest integer, halfway cases away from zero. -/
def std_round (q : ℚ) : ℤ :=
  if 0 ≤ q then ⌊q + 1 / 2⌋ else ⌈q - 1 / 2⌉

/-- The value pushed onto `anchor_indices` for loop index `i`:
`std::round(i * (vertices.size() - 1.0) / (anchorCount - 1.0))` converted to `int`. -/
def anchorIndex (nanToInt : ℤ) (vertexCount : ℕ) (anchorCount : ℤ) (i : ℕ) : ℤ :=
  match divDouble ((i : ℚ) * ((vertexCount : ℚ) - 1)) ((anchorCount : ℚ) - 1) with
  | some q => std_round q
  | none => nanToInt

/-- The anchor list built by the loop `for (int i = 0; i < anchorCount; ++i)` of
`DecodeSequence`. -/
def computeAnchorIndices (nanToInt : ℤ) (vertexCount : ℕ) (anchorCount : ℤ) : List ℤ :=
  (List.range anchorCount.toNat).map (anchorIndex nanToInt vertexCount anchorCount)

/-- The call `v.resize(n)` on a `vector<double>`. -/
def resize (v : List ℚ) (n : ℕ) : List ℚ :=
  v.take n ++ List.replicate (n - v.length) 0

/-- The vector `frameDisplacements` filled by the inner loop of `ProcessLoadedData`. -/
def frameDisplacementsOf (disp : MatrixXd) (verticesPerFrame : ℕ) : List Vector3d :=
  (List.range verticesPerFrame).map fun v => ⟨disp.coeff v 0, disp.coeff v 1, disp.coeff v 2⟩

/-- The three writes of the inner loop of `ProcessLoadedData` into `decodedVertexBuffer`. -/
def writeDisplacement (i verticesPerFrame : ℕ) (disp : MatrixXd) (buffer : List ℚ) (v : ℕ) :
    List ℚ :=
  let offset := (i * verticesPerFrame + v) * 3
  ((buffer.set (offset + 0) (disp.coeff v 0)).set (offset + 1) (disp.coeff v 1)).set
    (offset + 2) (disp.coeff v 2)

/-- The loop "cache all frame displacements" of `ProcessLoadedData`, run over the frame
indices still to do. -/
def cacheFrames : Decoder → List ℕ → Decoder × Except Exception Unit
  | d, [] => (d, .ok ())
  | d, i :: rest =>
    let colStart := i * 3
    match d.T_hat.block 0 colStart d.verticesPerFrame 3 with
    | .error e => (d, .error e)
    | .ok disp =>
      cacheFrames
        { d with
          decodedVertexBuffer :=
            (List.range d.verticesPerFrame).foldl (writeDisplacement i d.verticesPerFrame disp)
              d.decodedVertexBuffer
          decodedFrames := d.decodedFrames ++ [frameDisplacementsOf disp d.verticesPerFrame] }
        rest

/-- The member function `Decoder::ProcessLoadedData`. -/
def Decoder.ProcessLoadedData (d : Decoder) : Decoder × Except Exception Bool :=
  match d.S_hat.mul d.bMatrix with
  | .error e => (d, .error e)
  | .ok sb =>
    match TVMUtil.ApplyTMatrixOffset sb d.tMatrix with
    | .error e => (d, .error e)
    | .ok T_hat =>
      let totalFrames := d.bMatrix.cols / 3
      let verticesPerFrame := d.decodedReferenceMesh.vertices.length
      let d1 : Decoder :=
        { d with
          T_hat := T_hat
          totalFrames := totalFrames
          verticesPerFrame := verticesPerFrame
          decodedVertexBuffer := resize d.decodedVertexBuffer (totalFrames * verticesPerFrame * 3)
          decodedFrames := [] }
      match cacheFrames d1 (List.range totalFrames) with
      | (d2, .error e) => (d2, .error e)
      | (d2, .ok _) =>
        ({ d2 with
            referenceVertexBuffer :=
              (d2.decodedReferenceMesh.vertices.map fun v => [v.x, v.y, v.z]).flatten
            isDecoded := true },
          .ok true)

/-- The member function `Decoder::DecodeSequence`. -/
def Decoder.DecodeSequence (host : Host) (d : Decoder) : Decoder × Except Exception Bool :=
  let refCount : ℤ := d.decodedReferenceMesh.vertices.length
  let totalRows : ℤ := d.dHat.rows
  let anchorCount : ℤ := totalRows - refCount
  let d1 : Decoder :=
    { d with
      anchor_indices :=
        computeAnchorIndices host.nanToInt d.decodedReferenceMesh.vertices.length anchorCount }
  match d1.dHat.topRows refCount with
  | .error e => (d1, .error e)
  | .ok D_regular =>
    match d1.dHat.bottomRows anchorCount with
    | .error e => (d1, .error e)
    | .ok D_anchor =>
      let d2 : Decoder :=
        { d1 with
          l_star :=
            TVMUtil.BuildLaplacianMatrix host.weight d1.decodedReferenceMesh d1.anchor_indices }
      let rhs : MatrixXd := ⟨d2.l_star.rows, d2.dHat.cols, fun _ _ => 0⟩
      match rhs.assignTopRows refCount D_regular with
      | .error e => (d2, .error e)
      | .ok rhs1 =>
        match rhs1.assignBottomRows anchorCount D_anchor with
        | .error e => (d2, .error e)
        | .ok rhs2 =>
          match TVMUtil.SolveLeastSquares host.solver d2.l_star rhs2 500 (1 / 1000000) with
          | .error e => (d2, .error e)
          | .ok X => Decoder.ProcessLoadedData { d2 with S_hat := X }

/-- The member function `Decoder::ApplyDisplacementToFrame`. It is declared `const`: the
decoder it leaves is the one it was called on. -/
def Decoder.ApplyDisplacementToFrame (d : Decoder) (frameIndex : ℤ) :
    Decoder × Except Exception (List Vector3d) :=
  if d.isDecoded = false then
    (d, .error (.runtime_error "Sequence hasn't been loaded yet."))
  else if frameIndex < 0 ∨ (d.decodedFrames.length : ℤ) ≤ frameIndex then
    (d, .error (.out_of_range "Invalid frame index in ApplyDisplacementToFrame"))
  else
    let baseVerts := d.decodedReferenceMesh.vertices
    let displacements := d.decodedFrames.getD frameIndex.toNat []
    if baseVerts.length ≠ displacements.length then
      (d, .error (.runtime_error "Mismatch in base and displacement vector sizes."))
    else
      (d, .ok ((List.range baseVerts.length).map fun i =>
        baseVerts.getD i default + displacements.getD i default))

/-- The accessor `Decoder::GetTotalFrames`. -/
def Decoder.GetTotalFrames (d : Decoder) : ℕ := d.totalFrames

/-- The accessor `Decoder::GetVertexCount`. -/
def Decoder.GetVertexCount (d : Decoder) : ℕ := d.verticesPerFrame

/-- The accessor `Decoder::IsDecoded`. -/
def Decoder.IsDecoded (d : Decoder) : Bool := d.isDecoded

/-- A solver for the examples: it reports success and answers every right-hand side with
the zero vector. -/
def exampleSolver : LeastSquaresConjugateGradient :=
  ⟨fun _ => true, fun _ _ _ _ => some fun _ => 0⟩

/-- A host for the examples: the x86-64 conversion of NaN (`INT_MIN`), no finite weight. -/
def exampleHost : Host :=
  ⟨-2147483648, fun _ _ _ _ => none, exampleSolver⟩

/-- A loaded decoder: two vertices, no triangle, `D_hat` of shape 2 x 1 (no anchor), `B` of
shape 1 x 6 and `T` of shape 1 x 6 (two frames). -/
def exampleLoaded : Decoder :=
  { Decoder.new "1" with
    decodedReferenceMesh := ⟨[⟨1, 2, 3⟩, ⟨4, 5, 6⟩], [], [[], []]⟩
    dHat := ⟨2, 1, fun _ _ => 0⟩
    bMatrix := ⟨1, 6, fun _ c => c⟩
    tMatrix := ⟨1, 6, fun _ c => 10 * c⟩ }

/-- The decoder `exampleLoaded` after `DecodeSequence`. -/
def exampleDecoded : Decoder :=
  (exampleLoaded.DecodeSequence exampleHost).1

/-- The decoder `exampleLoaded` with `B` and `T` of shape 1 x 4: a column count that is not a
multiple of 3. -/
def exampleFourColumns : Decoder :=
  { exampleLoaded with
    bMatrix := ⟨1, 4, fun _ c => c⟩
    tMatrix := ⟨1, 4, fun _ _ => 1⟩ }

/-- The decoder `exampleLoaded` with a `D_hat` of one row only, fewer than its two vertices. -/
def exampleShortDHat : Decoder :=
  { exampleLoaded with dHat := ⟨1, 1, fun _ _ => 0⟩ }

/-- The Empty state: the decoder is as `Clear` leaves it. -/
def Decoder.IsEmpty (d : Decoder) : Prop :=
  d.Clear = d

end TVMDecoder

namespace Storage

/-- The file system as the loaders see it: the number of immediate subdirectories of a
directory (0 when the path is no directory), the lines `std::getline` yields for a text file,
and the bytes of a binary file; `none` when the file cannot be opened. -/
structure Disk where
  subdirectories : String → ℕ
  lines : String → Option (List String)
  binary : String → Option (List ℕ)

/-- What the mesh and matrix functions take from the C++ library and the platform:
`std::stod`, the stream extraction `iss >> v >> x >> y >> z` of a vertex line as the vertex the
variables hold afterwards, the value read from an `int` that was never assigned, the `double`
whose object representation is a given list of 8 bytes, and the characters `out << x` writes
for a `double` (they hold no line break). -/
structure Library where
  stod : String → Except Exception ℚ
  extractVertex : String → Eigen.Vector3d
  indeterminate : ℤ
  doubleOfBytes : List ℕ → ℚ
  formatDouble : ℚ → String

/-- The function `std::isspace` in the "C" locale. -/
def isspace (c : Char) : Bool :=
  c = ' ' || c.toNat = 9 || c.toNat = 10 || c.toNat = 11 || c.toNat = 12 || c.toNat = 13

/-- The whitespace-separated tokens of a line, as successive `iss >> token` yield them. -/
def tokens (line : String) : List String :=
  ((line.toList.splitOnP isspace).filter fun t => t ≠ []).map String.mk

/-- The function `std::stoi` (base 10): leading whitespace, an optional sign, then the longest
run of digits; `invalid_argument` without a digit, `out_of_range` outside `int`. -/
def stoi (s : String) : Except Exception ℤ :=
  let cs := s.toList.dropWhile isspace
  let negative := cs.head? = some '-'
  let body := if cs.head? = some '-' ∨ cs.head? = some '+' then cs.tail else cs
  let digits := body.takeWhile Char.isDigit
  if digits = [] then .error (.invalid_argument "stoi")
  else
    let magnitude : ℤ := digits.foldl (fun acc c => 10 * acc + ((c.toNat : ℤ) - 48)) 0
    let value : ℤ := if negative then -magnitude else magnitude
    if value < -2147483648 ∨ 2147483647 < value then .error (.out_of_range "stoi")
    else .ok value

/-- The function `std::to_string(int)`. -/
def to_string (n : ℤ) : String := toString n

/-- The path `dir / name` of `std::filesystem`. -/
def joinPath (dir name : String) : String := dir ++ "/" ++ name

/-- The `int32_t` whose object representation starts with the given bytes (least significant
first, as on the little-endian targets of the plugin); bytes not given are zero, as in the
zero-initialised variable a short `read` leaves partly untouched. -/
def int32OfBytes (b : List ℕ) : ℤ :=
  let u : ℤ := (b.getD 0 0 + 256 * b.getD 1 0 + 65536 * b.getD 2 0 + 16777216 * b.getD 3 0 : ℕ)
  if u < 2147483648 then u else u - 4294967296

end Storage

namespace MatrixIO

open Eigen Storage

/-- Element `k` of the zero-initialised `buffer` after `file.read` stored `payload` into it. -/
def bufferAt (lib : Library) (payload : List ℕ) (k : ℕ) : ℚ :=
  let chunk := (payload.drop (8 * k)).take 8
  if chunk = [] then 0 else lib.doubleOfBytes (chunk ++ List.replicate (8 - chunk.length) 0)

/-- The function `MatrixIO::LoadDeltaTrajectories`. A `read` that meets the end of the file
stores the bytes it got and leaves the stream failed, so that later reads store nothing. -/
def LoadDeltaTrajectories (lib : Library) (disk : Disk) (bin_file_path : String) :
    Except Exception MatrixXd :=
  match disk.binary bin_file_path with
  | none => .error (.runtime_error "Failed to open binary displacement file.")
  | some bytes =>
    let rowBytes := bytes.take 4
    let numRows := int32OfBytes rowBytes
    let colBytes := if rowBytes.length < 4 then [] else (bytes.drop 4).take 4
    let numCols := int32OfBytes colBytes
    if numRows ≤ 0 ∨ numCols ≤ 0 ∨ numCols > 1000 ∨ numRows > 1000000 then
      .error (.runtime_error "Corrupt BIN: invalid dimensions")
    else
      let totalValues := numRows.toNat * numCols.toNat
      let byteCount := totalValues * 8
      let payload := if colBytes.length < 4 then [] else (bytes.drop 8).take byteCount
      .ok ⟨numRows.toNat, numCols.toNat, fun r c => bufferAt lib payload (r * numCols.toNat + c)⟩

/-- The `try` statement of `loadtxt` for one token: the value of `std::stod`, its two
exceptions rethrown as `runtime_error`. -/
def parseToken (lib : Library) (filename token : String) : Except Exception ℚ :=
  match lib.stod token with
  | .ok val => .ok val
  | .error (.out_of_range _) =>
    .error (.runtime_error ("Number out of range in " ++ filename ++ ": " ++ token))
  | .error _ =>
    .error (.runtime_error ("Invalid double in " ++ filename ++ ": " ++ token))

/-- The body of the `while (std::getline(file, line))` loop of `loadtxt`: the rows read so
far, extended by the numbers of one line. -/
def loadtxtLine (lib : Library) (filename : String) (rows : List (List ℚ)) (line : String) :
    Except Exception (List (List ℚ)) :=
  let line := if line.toList.getLast? = some '\r' then String.mk line.toList.dropLast else line
  match (tokens line).mapM (parseToken lib filename) with
  | .error e => .error e
  | .ok row =>
    if row = [] then .ok rows
    else if rows ≠ [] ∧ row.length ≠ (rows.headD []).length then
      .error (.runtime_error ("Inconsistent column count in: " ++ filename))
    else .ok (rows ++ [row])

/-- The function `MatrixIO::loadtxt`. -/
def loadtxt (lib : Library) (disk : Disk) (filename : String) : Except Exception MatrixXd :=
  match disk.lines filename with
  | none => .error (.runtime_error ("Failed to open file: " ++ filename))
  | some ls =>
    match ls.foldlM (loadtxtLine lib filename) [] with
    | .error e => .error e
    | .ok rows =>
      if rows = [] then .error (.runtime_error ("No data found in: " ++ filename))
      else
        .ok ⟨rows.length, (rows.headD []).length, fun i j => (rows.getD i []).getD j 0⟩

end MatrixIO

namespace SimpleMesh

/-- The statement `adjacency_list[i].insert(x)`, the set being the list of its elements in
the order they were inserted. An index outside the list (undefined in C++) changes nothing. -/
def insertNeighbor (adjacency_list : List (List ℤ)) (i x : ℤ) : List (List ℤ) :=
  if 0 ≤ i then
    adjacency_list.modify (fun s => if x ∈ s then s else s ++ [x]) i.toNat
  else adjacency_list

/-- The loop body of `ComputeAdjacencyList` for one triangle. -/
def addTriangle (adjacency_list : List (List ℤ)) (tri : ℤ × ℤ × ℤ) : List (List ℤ) :=
  let i0 := tri.1
  let i1 := tri.2.1
  let i2 := tri.2.2
  insertNeighbor (insertNeighbor (insertNeighbor (insertNeighbor (insertNeighbor
    (insertNeighbor adjacency_list i0 i1) i0 i2) i1 i0) i1 i2) i2 i0) i2 i1

/-- The member function `Mesh::ComputeAdjacencyList`. -/
def Mesh.ComputeAdjacencyList (mesh : Mesh) : Mesh :=
  { mesh with
    adjacency_list := mesh.triangles.foldl addTriangle (List.replicate mesh.vertices.length []) }

end SimpleMesh

namespace SimpleMeshIO

open Eigen Storage

/-- The state of a `std::istringstream`: the characters not yet read, and whether the fail
bit is set. -/
structure istringstream where
  rest : List Char
  failed : Bool

/-- The extraction `iss >> c` of a `char`: whitespace is skipped and one character is read;
at the end of the input the stream fails. -/
def extractChar (iss : istringstream) : istringstream :=
  if iss.failed then iss
  else
    match iss.rest.dropWhile isspace with
    | [] => ⟨[], true⟩
    | _ :: cs => ⟨cs, false⟩

/-- The extraction `iss >> v` of an `int`, with the value `v` has afterwards. On a failed stream,
or when only whitespace is left, nothing is stored. Otherwise an optional sign and the longest
run of digits are read: without a digit the stream fails and 0 is stored, outside `int` the
stream fails and the nearest bound is stored. -/
def extractInt (iss : istringstream) (v : ℤ) : istringstream × ℤ :=
  if iss.failed then (iss, v)
  else
    match iss.rest.dropWhile isspace with
    | [] => (⟨[], true⟩, v)
    | c :: cs =>
      let body := if c = '-' ∨ c = '+' then cs else c :: cs
      let digits := body.takeWhile Char.isDigit
      let rest := body.dropWhile Char.isDigit
      if digits = [] then (⟨rest, true⟩, 0)
      else
        let magnitude : ℤ := digits.foldl (fun acc d => 10 * acc + ((d.toNat : ℤ) - 48)) 0
        let value : ℤ := if c = '-' then -magnitude else magnitude
        if value < -2147483648 then (⟨rest, true⟩, -2147483648)
        else if 2147483647 < value then (⟨rest, true⟩, 2147483647)
        else (⟨rest, false⟩, value)

/-- The statements `char f; int v1, v2, v3; iss >> f >> v1 >> v2 >> v3;` of `ReadOBJ`: the
values of `v1`, `v2`, `v3` afterwards. -/
def extractFace (lib : Library) (line : String) : ℤ × ℤ × ℤ :=
  let iss := extractChar ⟨line.toList, false⟩
  let r1 := extractInt iss lib.indeterminate
  let r2 := extractInt r1.1 lib.indeterminate
  let r3 := extractInt r2.1 lib.indeterminate
  (r1.2, r2.2, r3.2)

/-- The loop body of `ReadOBJ` for one line. -/
def readLine (lib : Library) (mesh : SimpleMesh.Mesh) (line : String) : SimpleMesh.Mesh :=
  if line.toList.take 2 = ['v', ' '] then
    { mesh with vertices := mesh.vertices ++ [lib.extractVertex line] }
  else if line.toList.take 2 = ['f', ' '] then
    let v := extractFace lib line
    { mesh with triangles := mesh.triangles ++ [(v.1 - 1, v.2.1 - 1, v.2.2 - 1)] }
  else mesh

/-- The function `SimpleMeshIO::ReadOBJ`: the mesh it leaves (vertices and triangles are
appended to those already there) and the value it returns. -/
def ReadOBJ (lib : Library) (disk : Disk) (filename : String) (mesh : SimpleMesh.Mesh) :
    SimpleMesh.Mesh × Bool :=
  match disk.lines filename with
  | none => (mesh, false)
  | some ls => (ls.foldl (readLine lib) mesh, true)

/-- The lambda `parseIndex` of `LoadTriangleIndicesFlat`. -/
def parseIndex (token : String) : Except Exception ℤ :=
  match stoi (String.mk (token.toList.takeWhile fun c => c ≠ '/')) with
  | .error e => .error e
  | .ok i => .ok (i - 1)

/-- The loop body of `LoadTriangleIndicesFlat` for one line. -/
def flatLine (triangleIndices : List ℤ) (line : String) : Except Exception (List ℤ) :=
  if line.toList.take 2 = ['f', ' '] then
    match tokens line with
    | _ :: v1 :: v2 :: v3 :: _ =>
      match parseIndex v1 with
      | .error e => .error e
      | .ok i1 =>
        match parseIndex v2 with
        | .error e => .error e
        | .ok i2 =>
          match parseIndex v3 with
          | .error e => .error e
          | .ok i3 => .ok (triangleIndices ++ [i1, i2, i3])
    | _ => .ok triangleIndices
  else .ok triangleIndices

/-- The function `SimpleMeshIO::LoadTriangleIndicesFlat`. -/
def LoadTriangleIndicesFlat (disk : Disk) (path : String) : Except Exception (List ℤ) :=
  match disk.lines path with
  | none => .ok []
  | some ls => ls.foldlM flatLine []

end SimpleMeshIO

namespace Eigen

/-- The expression `m(r, c)`; Eigen asserts that the indices lie inside `m`. -/
def MatrixXd.at (m : MatrixXd) (r c : ℕ) : Except Exception ℚ :=
  if r < m.rows ∧ c < m.cols then .ok (m.coeff r c)
  else .error (.eigen_assert "operator(): index outside the matrix")

end Eigen

namespace TVMDecoder

open Eigen Storage

/-- Whether `catch (const std::exception&)` catches the value. -/
def isStdException : Exception → Bool
  | .runtime_error _ => true
  | .out_of_range _ => true
  | .invalid_argument _ => true
  | .eigen_assert _ => false
  | .undefined _ => false

/-- The six element reads `dHat(0,0) .. dHat(0,2)`, `dHat(100,0) .. dHat(100,2)` that
`LoadSequence` makes for its two debug messages. -/
def debugReads (dHat : MatrixXd) : Except Exception Unit :=
  match dHat.at 0 0, dHat.at 0 1, dHat.at 0 2, dHat.at 100 0, dHat.at 100 1, dHat.at 100 2 with
  | .ok _, .ok _, .ok _, .ok _, .ok _, .ok _ => .ok ()
  | _, _, _, _, _, _ => .error (.eigen_assert "operator(): index outside the matrix")

/-- The `try` block of `Decoder::LoadSequence`: the decoder as it stands when the block is
left, and the exception that left it, if any. -/
def Decoder.loadBlock (lib : Library) (disk : Disk) (d : Decoder) (directoryPath : String) :
    Decoder × Except Exception Unit :=
  let meshFile := joinPath directoryPath "decoded_decimated_reference_mesh_subdivided.obj"
  let dHatFile := joinPath directoryPath "delta_trajectories.bin"
  let tMatrixFile := joinPath directoryPath "T_matrix.txt"
  let bMatrixFile := joinPath directoryPath "B_matrix.txt"
  let d1 : Decoder :=
    { d with
      decodedReferenceMesh := ( SimpleMeshIO.ReadOBJ lib disk meshFile d.decodedReferenceMesh).1 }
  match SimpleMeshIO.LoadTriangleIndicesFlat disk meshFile with
  | .error e => (d1, .error e)
  | .ok flat =>
    let d2 : Decoder :=
      { d1 with
        triangleIndicesFlat := flat
        decodedReferenceMesh := d1.decodedReferenceMesh.ComputeAdjacencyList }
    match MatrixIO.LoadDeltaTrajectories lib disk dHatFile with
    | .error e => (d2, .error e)
    | .ok D =>
      let d3 : Decoder := { d2 with dHat := D }
      match debugReads d3.dHat with
      | .error e => (d3, .error e)
      | .ok _ =>
        match MatrixIO.loadtxt lib disk bMatrixFile with
        | .error e => (d3, .error e)
        | .ok B =>
          let d4 : Decoder := { d3 with bMatrix := B }
          match MatrixIO.loadtxt lib disk tMatrixFile with
          | .error e => (d4, .error e)
          | .ok T => ({ d4 with tMatrix := T }, .ok ())

/-- The member function `Decoder::LoadSequence`: the `try` block, with every `std::exception`
caught (and logged) by its handler. -/
def Decoder.LoadSequence (lib : Library) (disk : Disk) (d : Decoder) (directoryPath : String) :
    Decoder × Except Exception Unit :=
  match Decoder.loadBlock lib disk d directoryPath with
  | (d', .error e) => if isStdException e then (d', .ok ()) else (d', .error e)
  | (d', .ok _) => (d', .ok ())

/-- The accessor `Decoder::GetName`. -/
def Decoder.GetName (d : Decoder) : String := d.decoderName

end TVMDecoder

namespace Playback

open Eigen Storage TVMDecoder

/-- Everything outside the manager that its member functions use. -/
structure World where
  host : Host
  lib : Library
  disk : Disk

/-- The data members of the class `PlaybackManager` (the mutex apart). -/
structure PlaybackManager where
  sequenceDirectory : String
  activeDecoders : List Decoder
  currentSubSequence : ℤ
  subSequenceCount : ℤ
  preLoad : ℤ
  subSequenceLength : ℤ

/-- The search loop of `AdvanceSubSequence`, `DecodeSubSequence`, `fetchFrame`: the first
active decoder whose name is the given one. -/
def findDecoder (activeDecoders : List Decoder) (name : String) : Option Decoder :=
  activeDecoders.find? fun d => d.GetName = name

/-- The loop `for (int y = 0; y < preLoad; y++)` of `AdvanceSubSequence`: whether
`decoderNum` is one of the numbers `currentSubSequence + y`, reduced by `subSequenceCount`
once when larger than it. -/
def shouldKeep (m : PlaybackManager) (decoderNum : ℤ) : Bool :=
  (List.range m.preLoad.toNat).any fun y =>
    let checkNum : ℤ := m.currentSubSequence + y
    let checkNum := if checkNum > m.subSequenceCount then checkNum - m.subSequenceCount else checkNum
    decoderNum = checkNum

/-- The loop `while (it != activeDecoders.end())` of `AdvanceSubSequence`, run on the part of
the list from `it` on: the list it leaves there. After `it = activeDecoders.erase(it)` the
iterator already stands on the element after the erased one, and `++it` steps over it; when
the erased element was the last one, `++it` increments the end iterator. -/
def evictScan (m : PlaybackManager) : List Decoder → List Decoder × Except Exception Unit
  | [] => ([], .ok ())
  | [d] =>
    match stoi d.GetName with
    | .error e => ([d], .error e)
    | .ok decoderNum =>
      if shouldKeep m decoderNum then ([d], .ok ())
      else ([], .error (.undefined "increment of the end iterator"))
  | d :: next :: rest =>
    match stoi d.GetName with
    | .error e => (d :: next :: rest, .error e)
    | .ok decoderNum =>
      if shouldKeep m decoderNum then
        ((d :: (evictScan m (next :: rest)).1), (evictScan m (next :: rest)).2)
      else
        ((next :: (evictScan m rest).1), (evictScan m rest).2)

/-- The member function `PlaybackManager::AdvanceSubSequence`. -/
def PlaybackManager.AdvanceSubSequence (m : PlaybackManager) :
    PlaybackManager × Except Exception Bool :=
  if m.activeDecoders.isEmpty then (m, .ok false)
  else
    let nextSubSequence : ℤ :=
      if m.currentSubSequence + 1 > m.subSequenceCount then 1 else m.currentSubSequence + 1
    match findDecoder m.activeDecoders (to_string nextSubSequence) with
    | none => (m, .ok false)
    | some d =>
      if d.IsDecoded = false then (m, .ok false)
      else
        let m1 : PlaybackManager := { m with currentSubSequence := nextSubSequence }
        match evictScan m1 m1.activeDecoders with
        | (kept, .error e) => ({ m1 with activeDecoders := kept }, .error e)
        | (kept, .ok _) => ({ m1 with activeDecoders := kept }, .ok true)

/-- The folder name `"subsequence_" << std::setw(3) << std::setfill('0') << subSequence`. -/
def subFolderName (subSequence : ℤ) : String :=
  "subsequence_" ++
    String.mk (List.replicate (3 - (to_string subSequence).length) '0') ++ to_string subSequence

/-- The member function `PlaybackManager::LoadSubSequence`. -/
def PlaybackManager.LoadSubSequence (w : World) (m : PlaybackManager) (subSequence : ℤ) :
    PlaybackManager × Except Exception Unit :=
  if subSequence > m.subSequenceCount then (m, .ok ())
  else if (m.activeDecoders.any fun d => d.GetName = to_string subSequence) then (m, .ok ())
  else
    let subFolder := joinPath m.sequenceDirectory (subFolderName subSequence)
    let newDecoder := Decoder.new (to_string subSequence)
    let loaded := newDecoder.LoadSequence w.lib w.disk subFolder
    ({ m with activeDecoders := m.activeDecoders ++ [loaded.1] }, loaded.2)

/-- The loop of `DecodeSubSequence`: `DecodeSequence` on the first decoder of the given name. -/
def decodeFirst (host : Host) (name : String) : List Decoder → List Decoder × Except Exception Unit
  | [] => ([], .ok ())
  | d :: rest =>
    if d.GetName = name then
      match d.DecodeSequence host with
      | (d', .error e) => (d' :: rest, .error e)
      | (d', .ok _) => (d' :: rest, .ok ())
    else ((d :: (decodeFirst host name rest).1), (decodeFirst host name rest).2)

/-- The member function `PlaybackManager::DecodeSubSequence`. Its range test only logs. -/
def PlaybackManager.DecodeSubSequence (w : World) (m : PlaybackManager) (subSequence : ℤ) :
    PlaybackManager × Except Exception Unit :=
  let r := decodeFirst w.host (to_string subSequence) m.activeDecoders
  ({ m with activeDecoders := r.1 }, r.2)

/-- The member function `PlaybackManager::fetchFrame`. -/
def PlaybackManager.fetchFrame (m : PlaybackManager) (frame : ℤ) :
    PlaybackManager × Except Exception (List Vector3d) :=
  if m.activeDecoders.isEmpty then (m, .error (.runtime_error "No active decoders"))
  else
    match findDecoder m.activeDecoders (to_string m.currentSubSequence) with
    | some decoder => (m, (decoder.ApplyDisplacementToFrame frame).2)
    | none => (m, .ok [])

/-- The loop `for (int i = 1; i <= memLoad && i <= subSequenceCount; i++)` of the
constructor, run over the indices still to do. -/
def constructLoop (w : World) (decodeLoad : ℤ) :
    PlaybackManager → List ℤ → PlaybackManager × Except Exception Unit
  | m, [] => (m, .ok ())
  | m, i :: rest =>
    match m.LoadSubSequence w i with
    | (m1, .error e) => (m1, .error e)
    | (m1, .ok _) =>
      if i ≤ decodeLoad then
        match m1.DecodeSubSequence w i with
        | (m2, .error e) => (m2, .error e)
        | (m2, .ok _) => constructLoop w decodeLoad m2 rest
      else constructLoop w decodeLoad m1 rest

/-- The constructor `PlaybackManager::PlaybackManager(path, memLoad, decodeLoad, _)`. The
members `preLoad` and `subSequenceLength` have no initialiser; they are 0 until assigned. -/
def PlaybackManager.new (w : World) (path : String) (memLoad decodeLoad : ℤ) :
    PlaybackManager × Except Exception Unit :=
  let m0 : PlaybackManager :=
    { sequenceDirectory := path
      activeDecoders := []
      currentSubSequence := 0
      subSequenceCount := w.disk.subdirectories path
      preLoad := 0
      subSequenceLength := 0 }
  let count := (min memLoad m0.subSequenceCount).toNat
  match constructLoop w decodeLoad m0 ((List.range count).map fun k : ℕ => (k : ℤ) + 1) with
  | (m1, .error e) => (m1, .error e)
  | (m1, .ok _) =>
    let m2 : PlaybackManager := { m1 with currentSubSequence := 1 }
    let m3 : PlaybackManager :=
      match m2.activeDecoders.head? with
      | none => m2
      | some front => { m2 with subSequenceLength := front.GetTotalFrames }
    ({ m3 with preLoad := memLoad }, .ok ())

/-- The accessor `PlaybackManager::getSubSequenceCount`. -/
def PlaybackManager.getSubSequenceCount (m : PlaybackManager) : ℤ := m.subSequenceCount

end Playback

namespace Playback

open Eigen Storage TVMDecoder

/-- A public call on the manager that returns normally and is not a successful
`AdvanceSubSequence`. -/
inductive OtherCall (w : World) : PlaybackManager → PlaybackManager → Prop where
  | advanceFalse (m m' : PlaybackManager) :
      m.AdvanceSubSequence = (m', .ok false) → OtherCall w m m'
  | load (m m' : PlaybackManager) (i : ℤ) :
      m.LoadSubSequence w i = (m', .ok ()) → OtherCall w m m'
  | decode (m m' : PlaybackManager) (i : ℤ) :
      m.DecodeSubSequence w i = (m', .ok ()) → OtherCall w m m'
  | fetch (m m' : PlaybackManager) (t : ℤ) (r : Except Exception (List Vector3d)) :
      m.fetchFrame t = (m', r) → OtherCall w m m'

/-- A run of public calls, from the manager `m` to the last argument, that holds exactly
`k` successful `AdvanceSubSequence` calls. -/
inductive Advances (w : World) (m : PlaybackManager) : ℕ → PlaybackManager → Prop where
  | start : Advances w m 0 m
  | advance (k : ℕ) (m1 m2 : PlaybackManager) :
      Advances w m k m1 → m1.AdvanceSubSequence = (m2, .ok true) → Advances w m (k + 1) m2
  | other (k : ℕ) (m1 m2 : PlaybackManager) :
      Advances w m k m1 → OtherCall w m1 m2 → Advances w m k m2

/-- The manager states reachable from the constructor by public calls that return. -/
inductive Reachable (w : World) : PlaybackManager → Prop where
  | construct (path : String) (memLoad decodeLoad : ℤ) (m : PlaybackManager) :
      PlaybackManager.new w path memLoad decodeLoad = (m, .ok ()) → Reachable w m
  | advance (m m' : PlaybackManager) :
      Reachable w m → m.AdvanceSubSequence = (m', .ok true) → Reachable w m'
  | other (m m' : PlaybackManager) : Reachable w m → OtherCall w m m' → Reachable w m'

/-- A library for the examples: every number read is 0, and written as `0`. -/
def exampleLibrary : Library :=
  ⟨fun _ => .ok 0, fun _ => ⟨0, 0, 0⟩, 0, fun _ => 0, fun _ => "0"⟩

/-- A disk with two subdirectories under every path and no file that can be opened. -/
def exampleEmptyDisk : Disk :=
  ⟨fun _ => 2, fun _ => none, fun _ => none⟩

/-- The world of `exampleEmptyDisk`. -/
def exampleEmptyWorld : World :=
  ⟨exampleHost, exampleLibrary, exampleEmptyDisk⟩

/-- The manager constructed on `exampleEmptyDisk` with `memLoad = 1`, `decodeLoad = 0`. -/
def exampleConstructed : PlaybackManager :=
  (PlaybackManager.new exampleEmptyWorld "root" 1 0).1

/-- The manager `exampleConstructed` after `LoadSubSequence(2)`. -/
def exampleTwoLoads : PlaybackManager :=
  (exampleConstructed.LoadSubSequence exampleEmptyWorld 2).1

/-- A disk whose folder `seq` holds a reference OBJ of one vertex line and a delta file whose
header reads `numRows = 1`, `numCols = 5000`. -/
def exampleBadDeltaDisk : Disk :=
  ⟨fun _ => 0,
    fun p =>
      if p = "seq/decoded_decimated_reference_mesh_subdivided.obj" then some ["v 0 0 0"]
      else none,
    fun p => if p = "seq/delta_trajectories.bin" then some [1, 0, 0, 0, 136, 19, 0, 0] else none⟩

/-- A disk whose folder `root` has the one subdirectory `subsequence_000`, holding a one-vertex
OBJ, a delta file with header 101 x 3 (and no payload), a 3 x 3 `B` and a 1 x 3 `T`. -/
def exampleZeroDisk : Disk :=
  ⟨fun p => if p = "root" then 1 else 0,
    fun p =>
      if p = "root/subsequence_000/decoded_decimated_reference_mesh_subdivided.obj" then
        some ["v 0 0 0"]
      else if p = "root/subsequence_000/B_matrix.txt" then some ["0 0 0", "0 0 0", "0 0 0"]
      else if p = "root/subsequence_000/T_matrix.txt" then some ["0 0 0"]
      else none,
    fun p =>
      if p = "root/subsequence_000/delta_trajectories.bin" then some [101, 0, 0, 0, 3, 0, 0, 0]
      else none⟩

/-- The world of `exampleZeroDisk`. -/
def exampleZeroWorld : World :=
  ⟨exampleHost, exampleLibrary, exampleZeroDisk⟩

/-- The manager constructed on `exampleZeroDisk` with nothing preloaded, after
`LoadSubSequence(0)`. -/
def exampleZeroLoaded : PlaybackManager :=
  ((PlaybackManager.new exampleZeroWorld "root" 0 0).1.LoadSubSequence exampleZeroWorld 0).1

/-- A disk whose folder `root` has two subdirectories, of which `subsequence_002` holds a
one-vertex OBJ, a delta file with header 101 x 3 (and no payload), a 3 x 3 `B` and a 1 x 3
`T`. -/
def exampleSecondDisk : Disk :=
  ⟨fun _ => 2,
    fun p =>
      if p = "root/subsequence_002/decoded_decimated_reference_mesh_subdivided.obj" then
        some ["v 0 0 0"]
      else if p = "root/subsequence_002/B_matrix.txt" then some ["0 0 0", "0 0 0", "0 0 0"]
      else if p = "root/subsequence_002/T_matrix.txt" then some ["0 0 0"]
      else none,
    fun p =>
      if p = "root/subsequence_002/delta_trajectories.bin" then some [101, 0, 0, 0, 3, 0, 0, 0]
      else none⟩

/-- The world of `exampleSecondDisk`. -/
def exampleSecondWorld : World :=
  ⟨exampleHost, exampleLibrary, exampleSecondDisk⟩

/-- A manager at subsequence 1 of 5 with `preLoad = 1` and three active decoders: number 2,
decoded, and numbers 3 and 4. -/
def exampleThreeActive : PlaybackManager :=
  ⟨"root", [{ exampleDecoded with decoderName := "2" }, Decoder.new "3", Decoder.new "4"],
    1, 5, 1, 2⟩

/-- A manager over a single subsequence whose active list holds a loaded decoder named 2. -/
def exampleBeyondCount : PlaybackManager :=
  ⟨"root", [{ exampleLoaded with decoderName := "2" }], 1, 1, 1, 2⟩

/-- A manager over a single subsequence, which is active and decoded. -/
def exampleSingle : PlaybackManager :=
  ⟨"root", [exampleDecoded], 1, 1, 1, 2⟩

end Playback
namespace MatrixIO
open Eigen Storage

/-- The tokens of a line of the file once `loadtxt` has dropped a final carriage return. -/
def rowTokens (line : String) : List String :=
  tokens (if line.toList.getLast? = some '\r' then String.mk line.toList.dropLast else line)

/-- The number `loadtxt` stores for a token: the value of `std::stod`, 0 standing for a token
on which it throws. -/
def tokenValue (lib : Library) (token : String) : ℚ :=
  match lib.stod token with
  | .ok val => val
  | .error _ => 0

/-- A disk with the text file `m.txt` of three lines: two rows of two numbers, the first
ending in a carriage return, with a blank line between them. -/
def exampleTextDisk : Disk :=
  ⟨fun _ => 0, fun p => if p = "m.txt" then some ["1 2\r", "", "3 4"] else none, fun _ => none⟩

/-- The function `std::stod` on the tokens of the examples: a token of decimal digits is read as
its number, any other token throws `invalid_argument`. -/
def exampleStod (token : String) : Except Exception ℚ :=
  if token.toList ≠ [] ∧ token.toList.all Char.isDigit = true then
    .ok ((token.toList.foldl (fun acc c => 10 * acc + (c.toNat - 48)) 0 : ℕ) : ℚ)
  else .error (.invalid_argument "stod")

/-- A library whose `std::stod` is `exampleStod`. -/
def exampleStrictLibrary : Library :=
  ⟨exampleStod, fun _ => ⟨0, 0, 0⟩, 0, fun _ => 0, fun _ => "0"⟩

/-- A disk with the text file `m.txt` of two lines of two tokens each, one of them the letter
`x`. -/
def exampleLetterDisk : Disk :=
  ⟨fun _ => 0, fun p => if p = "m.txt" then some ["1 2", "3 x"] else none, fun _ => none⟩

end MatrixIO

namespace SimpleMesh
open Eigen

/-- The six insertions of one iteration of the loop of `ComputeAdjacencyList`: `y` is inserted
into the set of vertex `k` when `k` is a corner of the triangle and `y` one of its other two
corners. -/
def inserts (tri : ℤ × ℤ × ℤ) (k y : ℤ) : Prop :=
  (tri.1 = k ∧ (y = tri.2.1 ∨ y = tri.2.2)) ∨
  (tri.2.1 = k ∧ (y = tri.1 ∨ y = tri.2.2)) ∨
  (tri.2.2 = k ∧ (y = tri.1 ∨ y = tri.2.1))

/-- A square of four vertices cut into the triangles (0, 1, 2) and (0, 2, 3). -/
def exampleSquare : Mesh :=
  ⟨[⟨0, 0, 0⟩, ⟨1, 0, 0⟩, ⟨1, 1, 0⟩, ⟨0, 1, 0⟩], [(0, 1, 2), (0, 2, 3)], []⟩

/-- A mesh of two vertices with the degenerate triangle (0, 0, 1). -/
def exampleDegenerate : Mesh :=
  ⟨[⟨0, 0, 0⟩, ⟨1, 0, 0⟩], [(0, 0, 1)], []⟩

end SimpleMesh

namespace SimpleMesh
open Eigen

/-- The test `(a - b).norm() < threshold` in exact arithmetic: a norm is below a threshold
when the threshold is positive and the squared norm is below its square. -/
def normBelow (a b : Vector3d) (threshold : ℚ) : Bool :=
  0 < threshold ∧ (a.x - b.x) ^ 2 + (a.y - b.y) ^ 2 + (a.z - b.z) ^ 2 < threshold ^ 2

/-- The body of the loop `for (size_t i = 0; i < vertices.size(); ++i)` of
`RemoveDuplicatedVertices`, on the pair of `old_to_new` (its entries for the vertices scanned
so far) and `unique_vertices`: the inner loop finds the first unique vertex within the
threshold. -/
def scanVertex (threshold : ℚ) (state : List ℤ × List Vector3d) (v : Vector3d) :
    List ℤ × List Vector3d :=
  let j := state.2.findIdx fun u => normBelow v u threshold
  if j < state.2.length then (state.1 ++ [(j : ℤ)], state.2)
  else (state.1 ++ [(state.2.length : ℤ)], state.2 ++ [v])

/-- The first loop of `RemoveDuplicatedVertices`: `old_to_new` and `unique_vertices`. -/
def scanVertices (vertices : List Vector3d) (threshold : ℚ) : List ℤ × List Vector3d :=
  vertices.foldl (scanVertex threshold) ([], [])

/-- The read `old_to_new[k]` for an `int` index. An index outside the vector (undefined in
C++) is left as it is. -/
def remapIndex (old_to_new : List ℤ) (k : ℤ) : ℤ :=
  if 0 ≤ k then old_to_new.getD k.toNat k else k

/-- The member function `Mesh::RemoveDuplicatedVertices`. -/
def Mesh.RemoveDuplicatedVertices (mesh : Mesh) (threshold : ℚ) : Mesh :=
  let r := scanVertices mesh.vertices threshold
  { mesh with
    triangles := mesh.triangles.map fun tri =>
      (remapIndex r.1 tri.1, remapIndex r.1 tri.2.1, remapIndex r.1 tri.2.2)
    vertices := r.2 }

/-- The element `tri[c]` of a triangle, for `c` in 0, 1, 2. -/
def corner (tri : ℤ × ℤ × ℤ) (c : ℕ) : ℤ :=
  match c with
  | 0 => tri.1
  | 1 => tri.2.1
  | _ => tri.2.2

/-- The default argument `1e-6f` of `RemoveDuplicatedVertices`: the `float` nearest to
`1e-6`, converted to `double`. -/
def defaultThreshold : ℚ := 8796093 / 8796093022208

/-- Three vertices on a line, 6 apart, and one triangle. -/
def exampleChain : Mesh :=
  ⟨[⟨0, 0, 0⟩, ⟨6, 0, 0⟩, ⟨12, 0, 0⟩], [(0, 1, 2)], []⟩

end SimpleMesh

namespace SimpleMesh
open Eigen

/-- The local struct `Edge` of `SubdivideMidpoint`. -/
structure Edge where
  v0 : ℤ
  v1 : ℤ
deriving DecidableEq

/-- The constructor `Edge(int a, int b)`, which orders the two ends. -/
def Edge.new (a b : ℤ) : Edge := ⟨min a b, max a b⟩

/-- The locals `edge_to_midpoint` (the entries of the map in the order they were inserted),
`new_vertices` and `new_triangles` of `SubdivideMidpoint`. -/
structure Subdivision where
  edge_to_midpoint : List (Edge × ℤ)
  new_vertices : List Vector3d
  new_triangles : List (ℤ × ℤ × ℤ)

/-- The expression `0.5 * (p + q)`. -/
def midpointOf (p q : Vector3d) : Vector3d :=
  ⟨(1 / 2) * (p.x + q.x), (1 / 2) * (p.y + q.y), (1 / 2) * (p.z + q.z)⟩

/-- The lambda `get_midpoint` of `SubdivideMidpoint`: the locals it leaves and the index it
returns. An index outside `new_vertices` (undefined in C++) reads the zero vector. -/
def get_midpoint (s : Subdivision) (a b : ℤ) : Subdivision × ℤ :=
  let edge := Edge.new a b
  match s.edge_to_midpoint.find? fun it => it.1 = edge with
  | some it => (s, it.2)
  | none =>
    let midpoint := midpointOf (TVMUtil.vertexAt s.new_vertices a) (TVMUtil.vertexAt s.new_vertices b)
    let new_index : ℤ := s.new_vertices.length
    ({ s with
        new_vertices := s.new_vertices ++ [midpoint]
        edge_to_midpoint := s.edge_to_midpoint ++ [(edge, new_index)] },
      new_index)

/-- The body of the loop `for (const auto& tri : triangles)` of `SubdivideMidpoint`. -/
def subdivideTriangle (s : Subdivision) (tri : ℤ × ℤ × ℤ) : Subdivision :=
  let v0 := tri.1
  let v1 := tri.2.1
  let v2 := tri.2.2
  let r01 := get_midpoint s v0 v1
  let r12 := get_midpoint r01.1 v1 v2
  let r20 := get_midpoint r12.1 v2 v0
  let m01 := r01.2
  let m12 := r12.2
  let m20 := r20.2
  { r20.1 with
    new_triangles := r20.1.new_triangles ++
      [(v0, m01, m20), (v1, m12, m01), (v2, m20, m12), (m01, m12, m20)] }

/-- The loop of `SubdivideMidpoint`: its locals when it ends. -/
def subdivideTriangles (mesh : Mesh) : Subdivision :=
  mesh.triangles.foldl subdivideTriangle ⟨[], mesh.vertices, []⟩

/-- The member function `Mesh::SubdivideMidpoint`. -/
def Mesh.SubdivideMidpoint (mesh : Mesh) : Mesh :=
  let s := subdivideTriangles mesh
  Mesh.RemoveDuplicatedVertices
    { mesh with vertices := s.new_vertices, triangles := s.new_triangles } defaultThreshold

/-- The index `edge_to_midpoint` holds for the edge between `a` and `b` (0 when it holds
none). -/
def midIndex (s : Subdivision) (a b : ℤ) : ℤ :=
  match s.edge_to_midpoint.find? fun it => it.1 = Edge.new a b with
  | some it => it.2
  | none => 0

/-- The four triangles `SubdivideMidpoint` emits for a triangle, given the midpoint index of
every edge. -/
def fourTriangles (mid : ℤ → ℤ → ℤ) (tri : ℤ × ℤ × ℤ) : List (ℤ × ℤ × ℤ) :=
  [(tri.1, mid tri.1 tri.2.1, mid tri.2.2 tri.1),
    (tri.2.1, mid tri.2.1 tri.2.2, mid tri.1 tri.2.1),
    (tri.2.2, mid tri.2.2 tri.1, mid tri.2.1 tri.2.2),
    (mid tri.1 tri.2.1, mid tri.2.1 tri.2.2, mid tri.2.2 tri.1)]

/-- What holds of the locals of `SubdivideMidpoint` throughout its loop, `V` being the
vertices of the mesh: `new_vertices` is `V` followed by one midpoint per map entry, entry `p`
holding the index `|V| + p` of the midpoint of its edge, and no edge is entered twice. -/
def Subdivision.Consistent (V : List Vector3d) (s : Subdivision) : Prop :=
  s.new_vertices.length = V.length + s.edge_to_midpoint.length ∧
  (∀ (i : ℕ) v, V[i]? = some v → s.new_vertices[i]? = some v) ∧
  (∀ (p : ℕ) e m, s.edge_to_midpoint[p]? = some (e, m) →
    m = ((V.length + p : ℕ) : ℤ) ∧
    s.new_vertices[V.length + p]? =
      some (midpointOf (TVMUtil.vertexAt V e.v0) (TVMUtil.vertexAt V e.v1))) ∧
  (s.edge_to_midpoint.map Prod.fst).Nodup

/-- The three edges of a triangle, as `SubdivideMidpoint` looks them up. -/
def edgesOf (tri : ℤ × ℤ × ℤ) : List Edge :=
  [Edge.new tri.1 tri.2.1, Edge.new tri.2.1 tri.2.2, Edge.new tri.2.2 tri.1]

/-- One triangle with corners 2 apart. -/
def exampleTriangle : Mesh :=
  ⟨[⟨0, 0, 0⟩, ⟨2, 0, 0⟩, ⟨0, 2, 0⟩], [(0, 1, 2)], []⟩

end SimpleMesh

namespace SimpleMeshIO
open Eigen Storage

/-- The line `"v " << v.x() << " " << v.y() << " " << v.z()` of `WriteOBJ`. -/
def vertexLine (lib : Library) (v : Vector3d) : String :=
  "v " ++ lib.formatDouble v.x ++ " " ++ lib.formatDouble v.y ++ " " ++ lib.formatDouble v.z

/-- The line `"f " << (tri[0] + 1) << " " << (tri[1] + 1) << " " << (tri[2] + 1)` of
`WriteOBJ`. The sums are taken in `ℤ`: a corner equal to the largest `int`, whose successor
overflows, is not modelled. -/
def faceLine (tri : ℤ × ℤ × ℤ) : String :=
  "f " ++ to_string (tri.1 + 1) ++ " " ++ to_string (tri.2.1 + 1) ++ " " ++
    to_string (tri.2.2 + 1)

/-- The function `SimpleMeshIO::WriteOBJ`: the disk it leaves and the value it returns.
`opened` tells whether `std::ofstream out(filename)` could open the file. Each statement
`out << ... << "\n"` writes one line. -/
def WriteOBJ (lib : Library) (disk : Disk) (opened : Bool) (filename : String)
    (mesh : SimpleMesh.Mesh) : Disk × Bool :=
  if opened then
    let written := mesh.vertices.map (vertexLine lib) ++ mesh.triangles.map faceLine
    ({ disk with
        lines := fun p => if p = filename then some written else disk.lines p
        binary := fun p =>
          if p = filename then
            some ((String.join (written.map fun l => l ++ "\n")).toUTF8.toList.map
              fun b => b.toNat)
          else disk.binary p },
      true)
  else (disk, false)

/-- A disk with the file `m.obj`: three vertex lines and a face line whose tokens carry a
texture index. -/
def exampleSlashDisk : Disk :=
  ⟨fun _ => 0,
    fun p =>
      if p = "m.obj" then some ["v 0 0 0", "v 1 0 0", "v 0 1 0", "f 1/1 2/2 3/3"] else none,
    fun _ => none⟩

end SimpleMeshIO

namespace Playback
open Eigen Storage TVMDecoder

/-- The decoder the constructor leaves for subsequence `i`: the decoder named `i` after
`LoadSequence` on the folder of `i`, and after `DecodeSequence` as well when
`i <= decodeLoad`. -/
def preloaded (w : World) (path : String) (decodeLoad i : ℤ) : Decoder :=
  let loaded := ((Decoder.new (to_string i)).LoadSequence w.lib w.disk
    (joinPath path (subFolderName i))).1
  if i ≤ decodeLoad then (loaded.DecodeSequence w.host).1 else loaded

/-- A disk whose folder `root` has the one subdirectory `subsequence_001`, holding a
one-vertex OBJ, a delta file with header 101 x 3 (and no payload), a 3 x 3 `B` and a 1 x 3
`T`. -/
def exampleFirstDisk : Disk :=
  ⟨fun p => if p = "root" then 1 else 0,
    fun p =>
      if p = "root/subsequence_001/decoded_decimated_reference_mesh_subdivided.obj" then
        some ["v 0 0 0"]
      else if p = "root/subsequence_001/B_matrix.txt" then some ["0 0 0", "0 0 0", "0 0 0"]
      else if p = "root/subsequence_001/T_matrix.txt" then some ["0 0 0"]
      else none,
    fun p =>
      if p = "root/subsequence_001/delta_trajectories.bin" then some [101, 0, 0, 0, 3, 0, 0, 0]
      else none⟩

/-- The world of `exampleFirstDisk`. -/
def exampleFirstWorld : World :=
  ⟨exampleHost, exampleLibrary, exampleFirstDisk⟩

end Playback

namespace TVMUtil
open Eigen

/-- A mesh of one vertex without neighbours. -/
def exampleIsolated : SimpleMesh.Mesh :=
  ⟨[⟨0, 0, 0⟩], [], [[]]⟩

/-- A weight for the examples: every neighbour weighs 1. -/
def exampleWeight : Vector3d → Vector3d → Vector3d → Vector3d → Option ℚ :=
  fun _ _ _ _ => some 1

/-- A triangle of three vertices, each adjacent to the other two. -/
def exampleRing : SimpleMesh.Mesh :=
  ⟨[⟨0, 0, 0⟩, ⟨1, 0, 0⟩, ⟨0, 1, 0⟩], [(0, 1, 2)], [[1, 2], [0, 2], [0, 1]]⟩

end TVMUtil

namespace Playback
open Eigen Storage TVMDecoder

/-- A manager at subsequence 1 of 5 with `preLoad = 1` and the active decoders 1, 2 (decoded)
and 3, in this order. -/
def exampleLastEvicted : PlaybackManager :=
  ⟨"root", [Decoder.new "1", { exampleDecoded with decoderName := "2" }, Decoder.new "3"],
    1, 5, 1, 2⟩

end Playback
namespace Playback

open Eigen Storage TVMDecoder

/-- A disk whose folder `seq` holds a reference OBJ of one vertex line and a complete delta
file of 2 x 3 zeros: the header `numRows = 2`, `numCols = 3`, then 48 payload bytes. -/
def exampleSmallDeltaDisk : Disk :=
  ⟨fun _ => 0,
    fun p =>
      if p = "seq/decoded_decimated_reference_mesh_subdivided.obj" then some ["v 0 0 0"]
      else none,
    fun p =>
      if p = "seq/delta_trajectories.bin" then
        some ([2, 0, 0, 0, 3, 0, 0, 0] ++ List.replicate 48 0)
      else none⟩

end Playback

namespace TVMUtil
open Eigen

theorem foldl_addOffsetToRow (colStart : ℕ) (offset : Vector3d) (m : MatrixXd) (n : ℕ) :
    ((List.range n).foldl (addOffsetToRow colStart offset) m).rows = m.rows ∧
    ((List.range n).foldl (addOffsetToRow colStart offset) m).cols = m.cols ∧
    ∀ v j, ((List.range n).foldl (addOffsetToRow colStart offset) m).coeff v j =
      if v < n then
        (if j = colStart then m.coeff v j + offset.x
         else if j = colStart + 1 then m.coeff v j + offset.y
         else if j = colStart + 2 then m.coeff v j + offset.z
         else m.coeff v j)
      else m.coeff v j := by
  induction n with
  | zero => simp
  | succ n ih =>
    obtain ⟨hr, hc, hco⟩ := ih
    rw [List.range_succ, List.foldl_append]
    simp only [List.foldl_cons, List.foldl_nil]
    refine ⟨?_, ?_, ?_⟩
    · simpa [addOffsetToRow, MatrixXd.addAt] using hr
    · simpa [addOffsetToRow, MatrixXd.addAt] using hc
    · intro v j
      simp only [addOffsetToRow, MatrixXd.addAt, hco, Nat.add_zero]
      by_cases hv : v = n
      · subst hv
        by_cases h0 : j = colStart
        · subst h0; simp
        · by_cases h1 : j = colStart + 1
          · subst h1; simp
          · by_cases h2 : j = colStart + 2
            · subst h2; simp
            · simp [h0, h1, h2]
      · by_cases hlt : v < n
        · have : v < n + 1 := by omega
          simp [hv, hlt, this]
        · have : ¬ v < n + 1 := by omega
          simp [hv, hlt, this]

theorem addFrameOffset_spec (T : MatrixXd) (nv : ℕ) (m : MatrixXd) (frame : ℕ) :
    (addFrameOffset T nv m frame).rows = m.rows ∧
    (addFrameOffset T nv m frame).cols = m.cols ∧
    ∀ v j, (addFrameOffset T nv m frame).coeff v j =
      if v < nv ∧ j / 3 = frame then m.coeff v j + T.coeff 0 j else m.coeff v j := by
  obtain ⟨hr, hc, hco⟩ := foldl_addOffsetToRow (frame * 3)
    ⟨T.coeff 0 (frame * 3 + 0), T.coeff 0 (frame * 3 + 1), T.coeff 0 (frame * 3 + 2)⟩ m nv
  refine ⟨hr, hc, ?_⟩
  intro v j
  show ((List.range nv).foldl (addOffsetToRow (frame * 3) _) m).coeff v j = _
  rw [hco]
  by_cases hv : v < nv
  · by_cases h0 : j = frame * 3
    · have : j / 3 = frame := by omega
      subst h0; simp [hv, this]
    · by_cases h1 : j = frame * 3 + 1
      · have : j / 3 = frame := by omega
        subst h1; simp [hv, this]
      · by_cases h2 : j = frame * 3 + 2
        · have : j / 3 = frame := by omega
          subst h2; simp [hv, this]
        · have : ¬ j / 3 = frame := by omega
          simp [hv, h0, h1, h2, this]
  · simp [hv]

theorem foldl_addFrameOffset (T : MatrixXd) (nv : ℕ) (m : MatrixXd) (nf : ℕ) :
    ((List.range nf).foldl (addFrameOffset T nv) m).rows = m.rows ∧
    ((List.range nf).foldl (addFrameOffset T nv) m).cols = m.cols ∧
    ∀ v j, ((List.range nf).foldl (addFrameOffset T nv) m).coeff v j =
      if v < nv ∧ j / 3 < nf then m.coeff v j + T.coeff 0 j else m.coeff v j := by
  induction nf with
  | zero => simp
  | succ n ih =>
    obtain ⟨hr, hc, hco⟩ := ih
    rw [List.range_succ, List.foldl_append]
    simp only [List.foldl_cons, List.foldl_nil]
    obtain ⟨hr1, hc1, hco1⟩ := addFrameOffset_spec T nv ((List.range n).foldl (addFrameOffset T nv) m) n
    refine ⟨hr1.trans hr, hc1.trans hc, ?_⟩
    intro v j
    rw [hco1, hco]
    by_cases hv : v < nv
    · by_cases hj : j / 3 = n
      · have h1 : ¬ j / 3 < n := by omega
        have h2 : j / 3 < n + 1 := by omega
        simp [hv, hj]
      · by_cases hlt : j / 3 < n
        · have h2 : j / 3 < n + 1 := by omega
          simp [hv, hj, hlt, h2]
        · have h2 : ¬ j / 3 < n + 1 := by omega
          simp [hv, hj, hlt, h2]
    · simp [hv]

/-- Closed form of `ApplyTMatrixOffset` when its shape check passes. -/
theorem ApplyTMatrixOffset_ok (S T : MatrixXd) (hT : T.rows = 1) (hc : T.cols = S.cols) :
    ∃ R, ApplyTMatrixOffset S T = .ok R ∧ R.rows = S.rows ∧ R.cols = S.cols ∧
      ∀ v j, R.coeff v j =
        if v < S.rows ∧ j / 3 < T.cols / 3 then S.coeff v j + T.coeff 0 j else S.coeff v j := by
  obtain ⟨hr, hcc, hco⟩ := foldl_addFrameOffset T S.rows S (T.cols / 3)
  refine ⟨_, ?_, hr, hcc, hco⟩
  simp [ApplyTMatrixOffset, hT, hc]

theorem ApplyTMatrixOffset_eq_ok (S T R : MatrixXd) (h : ApplyTMatrixOffset S T = .ok R) :
    T.rows = 1 ∧ T.cols = S.cols := by
  unfold ApplyTMatrixOffset at h
  by_contra hne
  have : T.rows ≠ 1 ∨ T.cols ≠ S.cols := by
    by_contra h2
    push_neg at h2
    exact hne h2
  simp [this] at h

end TVMUtil

namespace TVMDecoder
open Eigen

/-- The displacement of one frame read off the columns `3 i .. 3 i + 2` of `T_hat`. -/
theorem block_frame (m : MatrixXd) (i n : ℕ) (disp : MatrixXd)
    (h : m.block 0 (i * 3) n 3 = .ok disp) :
    n ≤ m.rows ∧ i * 3 + 3 ≤ m.cols ∧
    frameDisplacementsOf disp n = (List.range n).map fun v =>
      (⟨m.coeff v (i * 3), m.coeff v (i * 3 + 1), m.coeff v (i * 3 + 2)⟩ : Vector3d) := by
  unfold MatrixXd.block at h
  split at h
  · rename_i hb
    injection h with h
    subst h
    refine ⟨by omega, hb.2, ?_⟩
    simp [frameDisplacementsOf]
  · exact absurd h (by simp)

theorem cacheFrames_cons_error (d : Decoder) (i : ℕ) (rest : List ℕ) (e : Exception)
    (h : d.T_hat.block 0 (i * 3) d.verticesPerFrame 3 = .error e) :
    cacheFrames d (i :: rest) = (d, .error e) := by
  simp [cacheFrames, h]

theorem cacheFrames_cons_ok (d : Decoder) (i : ℕ) (rest : List ℕ) (disp : MatrixXd)
    (h : d.T_hat.block 0 (i * 3) d.verticesPerFrame 3 = .ok disp) :
    cacheFrames d (i :: rest) =
      cacheFrames
        { d with
          decodedVertexBuffer :=
            (List.range d.verticesPerFrame).foldl (writeDisplacement i d.verticesPerFrame disp)
              d.decodedVertexBuffer
          decodedFrames := d.decodedFrames ++ [frameDisplacementsOf disp d.verticesPerFrame] }
        rest := by
  simp [cacheFrames, h]

theorem cacheFrames_fields (l : List ℕ) : ∀ d : Decoder,
    (cacheFrames d l).1 =
      { d with
        decodedVertexBuffer := (cacheFrames d l).1.decodedVertexBuffer
        decodedFrames := (cacheFrames d l).1.decodedFrames } := by
  induction l with
  | nil => intro d; rfl
  | cons i rest ih =>
    intro d
    cases hb : d.T_hat.block 0 (i * 3) d.verticesPerFrame 3 with
    | error e => rw [cacheFrames_cons_error d i rest e hb]
    | ok disp =>
      rw [cacheFrames_cons_ok d i rest disp hb]
      exact ih _

theorem cacheFrames_ok (l : List ℕ) : ∀ d : Decoder, (cacheFrames d l).2 = .ok () →
    (cacheFrames d l).1.decodedFrames = d.decodedFrames ++ l.map (fun i =>
      (List.range d.verticesPerFrame).map fun v =>
        (⟨d.T_hat.coeff v (i * 3), d.T_hat.coeff v (i * 3 + 1),
          d.T_hat.coeff v (i * 3 + 2)⟩ : Vector3d)) := by
  induction l with
  | nil => intro d _; simp [cacheFrames]
  | cons i rest ih =>
    intro d h
    cases hb : d.T_hat.block 0 (i * 3) d.verticesPerFrame 3 with
    | error e =>
      rw [cacheFrames_cons_error d i rest e hb] at h
      simp at h
    | ok disp =>
      rw [cacheFrames_cons_ok d i rest disp hb] at h ⊢
      rw [ih _ h]
      simp [(block_frame _ _ _ _ hb).2.2]

end TVMDecoder

namespace TVMUtil
open Eigen

theorem solveColumn_ok (solver : LeastSquaresConjugateGradient) (L : SparseMatrix)
    (D : MatrixXd) (maxIter : ℕ) (tol : ℚ) (X Y : MatrixXd) (i : ℕ)
    (h : solveColumn solver L D maxIter tol X i = .ok Y) :
    ∃ x, solver.solve L maxIter tol (fun r => D.coeff r i) = some x ∧ Y = X.setCol i x := by
  unfold solveColumn at h
  split at h
  · simp at h
  · split at h
    · simp at h
    · split at h
      · simp at h
      · rename_i x hx
        injection h with h
        exact ⟨x, hx, h.symm⟩

theorem foldlM_solveColumn (solver : LeastSquaresConjugateGradient) (L : SparseMatrix)
    (D : MatrixXd) (maxIter : ℕ) (tol : ℚ) (X0 : MatrixXd) (n : ℕ) :
    ∀ X, (List.range n).foldlM (solveColumn solver L D maxIter tol) X0 = .ok X →
      X.rows = X0.rows ∧ X.cols = X0.cols ∧
      ∀ c, c < n → ∃ x, solver.solve L maxIter tol (fun r => D.coeff r c) = some x ∧
        ∀ r, X.coeff r c = x r := by
  induction n with
  | zero =>
    intro X h
    simp only [List.range_zero, List.foldlM_nil] at h
    injection h with h
    subst h
    exact ⟨rfl, rfl, fun c hc => absurd hc (by omega)⟩
  | succ n ih =>
    intro X h
    rw [List.range_succ, List.foldlM_append] at h
    cases hX1 : (List.range n).foldlM (solveColumn solver L D maxIter tol) X0 with
    | error e =>
      rw [hX1] at h
      exact absurd h (by simp [bind, Except.bind])
    | ok X1 =>
      rw [hX1] at h
      have h2 : solveColumn solver L D maxIter tol X1 n = .ok X := by
        cases hs : solveColumn solver L D maxIter tol X1 n with
        | error e => simp [bind, Except.bind, pure, Except.pure, hs] at h
        | ok v =>
          simp only [bind, Except.bind, pure, Except.pure, hs, List.foldlM_cons,
            List.foldlM_nil] at h
          exact h
      obtain ⟨x, hx, hY⟩ := solveColumn_ok _ _ _ _ _ _ _ _ h2
      obtain ⟨hr, hc, hco⟩ := ih X1 hX1
      subst hY
      refine ⟨hr, hc, ?_⟩
      intro c hcn
      by_cases hcn2 : c = n
      · subst hcn2
        exact ⟨x, hx, fun r => by simp [MatrixXd.setCol]⟩
      · obtain ⟨y, hy, hyc⟩ := hco c (by omega)
        exact ⟨y, hy, fun r => by simp [MatrixXd.setCol, hcn2, hyc]⟩

/-- What a successful `SolveLeastSquares` returns: a `cols(L_star) x cols(D_hat)` matrix whose
column `c` is the solver's answer for column `c` of `D_hat`. -/
theorem SolveLeastSquares_ok (solver : LeastSquaresConjugateGradient) (L : SparseMatrix)
    (D : MatrixXd) (maxIter : ℕ) (tol : ℚ) (X : MatrixXd)
    (h : SolveLeastSquares solver L D maxIter tol = .ok X) :
    X.rows = L.cols ∧ X.cols = D.cols ∧
    ∀ c, c < D.cols → ∃ x, solver.solve L maxIter tol (fun r => D.coeff r c) = some x ∧
      ∀ r, X.coeff r c = x r :=
  foldlM_solveColumn solver L D maxIter tol _ D.cols X h

theorem BuildLaplacianMatrix_shape
    (weight : Vector3d → Vector3d → Vector3d → Vector3d → Option ℚ)
    (mesh : SimpleMesh.Mesh) (anchorIndices : List ℤ) :
    (BuildLaplacianMatrix weight mesh anchorIndices).rows =
        mesh.vertices.length + anchorIndices.length ∧
      (BuildLaplacianMatrix weight mesh anchorIndices).cols = mesh.vertices.length := by
  simp [BuildLaplacianMatrix, SparseMatrix.sub, SparseMatrix.identity,
    SparseMatrix.setFromTriplets]

end TVMUtil

namespace TVMDecoder
open Eigen

/-- The decoder a successful `ProcessLoadedData` leaves. -/
theorem ProcessLoadedData_ok (d : Decoder) (b : Bool) (h : (d.ProcessLoadedData).2 = .ok b) :
    ∃ sb T_hat, d.S_hat.mul d.bMatrix = .ok sb ∧
      TVMUtil.ApplyTMatrixOffset sb d.tMatrix = .ok T_hat ∧ b = true ∧
      (d.ProcessLoadedData).1 =
        { d with
          T_hat := T_hat
          totalFrames := d.bMatrix.cols / 3
          verticesPerFrame := d.decodedReferenceMesh.vertices.length
          decodedVertexBuffer := (d.ProcessLoadedData).1.decodedVertexBuffer
          decodedFrames := (List.range (d.bMatrix.cols / 3)).map fun i =>
            (List.range d.decodedReferenceMesh.vertices.length).map fun v =>
              (⟨T_hat.coeff v (i * 3), T_hat.coeff v (i * 3 + 1),
                T_hat.coeff v (i * 3 + 2)⟩ : Vector3d)
          referenceVertexBuffer :=
            (d.decodedReferenceMesh.vertices.map fun v => [v.x, v.y, v.z]).flatten
          isDecoded := true } := by
  cases h1 : d.S_hat.mul d.bMatrix with
  | error e => simp [Decoder.ProcessLoadedData, h1] at h
  | ok sb =>
    cases h2 : TVMUtil.ApplyTMatrixOffset sb d.tMatrix with
    | error e => simp [Decoder.ProcessLoadedData, h1, h2] at h
    | ok T_hat =>
      refine ⟨sb, T_hat, rfl, h2, ?_⟩
      simp only [Decoder.ProcessLoadedData, h1, h2] at h ⊢
      generalize hd1 : ({ d with
          T_hat := T_hat
          totalFrames := d.bMatrix.cols / 3
          verticesPerFrame := d.decodedReferenceMesh.vertices.length
          decodedVertexBuffer :=
            resize d.decodedVertexBuffer
              (d.bMatrix.cols / 3 * d.decodedReferenceMesh.vertices.length * 3)
          decodedFrames := [] } : Decoder) = d1 at h ⊢
      have hf := cacheFrames_fields (List.range (d.bMatrix.cols / 3)) d1
      have hk := cacheFrames_ok (List.range (d.bMatrix.cols / 3)) d1
      cases hcf : cacheFrames d1 (List.range (d.bMatrix.cols / 3)) with
      | mk d2 res =>
        rw [hcf] at h hf hk
        cases res with
        | error e => simp at h
        | ok u =>
          simp only at h hf hk ⊢
          have hk2 := hk trivial
          subst hd1
          simp only [List.nil_append] at hk2
          refine ⟨by simpa using h.symm, ?_⟩
          rw [hf]
          simp [hk2]

theorem computeAnchorIndices_length (nanToInt : ℤ) (n : ℕ) (a : ℤ) :
    (computeAnchorIndices nanToInt n a).length = a.toNat := by
  simp [computeAnchorIndices]

/-- The decoder a successful `DecodeSequence` leaves, and the solve it went through. -/
theorem DecodeSequence_ok (host : Host) (d : Decoder) (b : Bool)
    (h : (d.DecodeSequence host).2 = .ok b) :
    ∃ X rhs, d.decodedReferenceMesh.vertices.length ≤ d.dHat.rows ∧
      rhs.rows = d.dHat.rows ∧ rhs.cols = d.dHat.cols ∧
      (∀ r c, r < d.dHat.rows → rhs.coeff r c = d.dHat.coeff r c) ∧
      TVMUtil.SolveLeastSquares host.solver
        (TVMUtil.BuildLaplacianMatrix host.weight d.decodedReferenceMesh
          (computeAnchorIndices host.nanToInt d.decodedReferenceMesh.vertices.length
            ((d.dHat.rows : ℤ) - (d.decodedReferenceMesh.vertices.length : ℤ))))
        rhs 500 (1 / 1000000) = .ok X ∧
      d.DecodeSequence host = Decoder.ProcessLoadedData
        { d with
          anchor_indices :=
            computeAnchorIndices host.nanToInt d.decodedReferenceMesh.vertices.length
              ((d.dHat.rows : ℤ) - (d.decodedReferenceMesh.vertices.length : ℤ))
          l_star :=
            TVMUtil.BuildLaplacianMatrix host.weight d.decodedReferenceMesh
              (computeAnchorIndices host.nanToInt d.decodedReferenceMesh.vertices.length
                ((d.dHat.rows : ℤ) - (d.decodedReferenceMesh.vertices.length : ℤ)))
          S_hat := X } := by
  by_cases hn : d.decodedReferenceMesh.vertices.length ≤ d.dHat.rows
  · have ha0 : (0 : ℤ) ≤ (d.dHat.rows : ℤ) - (d.decodedReferenceMesh.vertices.length : ℤ) := by
      omega
    have ha1 : (d.decodedReferenceMesh.vertices.length : ℤ) ≤ (d.dHat.rows : ℤ) := by omega
    have hat : ((d.dHat.rows : ℤ) - (d.decodedReferenceMesh.vertices.length : ℤ)).toNat =
        d.dHat.rows - d.decodedReferenceMesh.vertices.length := by omega
    have hsh := TVMUtil.BuildLaplacianMatrix_shape host.weight d.decodedReferenceMesh
      (computeAnchorIndices host.nanToInt d.decodedReferenceMesh.vertices.length
        ((d.dHat.rows : ℤ) - (d.decodedReferenceMesh.vertices.length : ℤ)))
    rw [computeAnchorIndices_length, hat] at hsh
    have hrows : (TVMUtil.BuildLaplacianMatrix host.weight d.decodedReferenceMesh
      (computeAnchorIndices host.nanToInt d.decodedReferenceMesh.vertices.length
        ((d.dHat.rows : ℤ) - (d.decodedReferenceMesh.vertices.length : ℤ)))).rows =
        d.dHat.rows := by omega
    simp only [Decoder.DecodeSequence, MatrixXd.topRows, MatrixXd.bottomRows,
      MatrixXd.assignTopRows, MatrixXd.assignBottomRows, hrows, ha0, ha1, hat, Nat.cast_nonneg,
      Int.toNat_ofNat, Nat.cast_le, hn, and_self, if_true, true_and, Nat.sub_le,
      Int.sub_le_self] at h ⊢
    generalize hs : TVMUtil.SolveLeastSquares host.solver _ _ 500 (1 / 1000000) = res at h ⊢
    cases res with
    | error e => simp at h
    | ok X =>
      refine ⟨X, _, ?_, ?_, ?_, hs, rfl⟩
      · rfl
      · rfl
      intro r c _
      have hnn : d.dHat.rows - (d.dHat.rows - d.decodedReferenceMesh.vertices.length) =
          d.decodedReferenceMesh.vertices.length := by omega
      simp only [hnn]
      by_cases hr : d.decodedReferenceMesh.vertices.length ≤ r
      · have : d.decodedReferenceMesh.vertices.length +
            (r - d.decodedReferenceMesh.vertices.length) = r := by omega
        simp [hr, this]
      · have : r < d.decodedReferenceMesh.vertices.length := by omega
        simp [hr, this]
  · have : ¬ ((d.decodedReferenceMesh.vertices.length : ℤ) ≤ (d.dHat.rows : ℤ)) := by omega
    simp [Decoder.DecodeSequence, MatrixXd.topRows, this] at h

/-- A successful `DecodeSequence`, end to end: the solve, the product, the offset, and the
decoder left behind. -/
theorem DecodeSequence_decoded (host : Host) (d d' : Decoder) (b : Bool)
    (h : d.DecodeSequence host = (d', .ok b)) :
    ∃ X rhs sb T_hat, d.decodedReferenceMesh.vertices.length ≤ d.dHat.rows ∧
      rhs.rows = d.dHat.rows ∧ rhs.cols = d.dHat.cols ∧
      (∀ r c, r < d.dHat.rows → rhs.coeff r c = d.dHat.coeff r c) ∧
      TVMUtil.SolveLeastSquares host.solver
        (TVMUtil.BuildLaplacianMatrix host.weight d.decodedReferenceMesh
          (computeAnchorIndices host.nanToInt d.decodedReferenceMesh.vertices.length
            ((d.dHat.rows : ℤ) - (d.decodedReferenceMesh.vertices.length : ℤ))))
        rhs 500 (1 / 1000000) = .ok X ∧
      X.mul d.bMatrix = .ok sb ∧
      TVMUtil.ApplyTMatrixOffset sb d.tMatrix = .ok T_hat ∧ b = true ∧
      d' =
        { d with
          anchor_indices :=
            computeAnchorIndices host.nanToInt d.decodedReferenceMesh.vertices.length
              ((d.dHat.rows : ℤ) - (d.decodedReferenceMesh.vertices.length : ℤ))
          l_star :=
            TVMUtil.BuildLaplacianMatrix host.weight d.decodedReferenceMesh
              (computeAnchorIndices host.nanToInt d.decodedReferenceMesh.vertices.length
                ((d.dHat.rows : ℤ) - (d.decodedReferenceMesh.vertices.length : ℤ)))
          S_hat := X
          T_hat := T_hat
          totalFrames := d.bMatrix.cols / 3
          verticesPerFrame := d.decodedReferenceMesh.vertices.length
          decodedVertexBuffer := d'.decodedVertexBuffer
          decodedFrames := (List.range (d.bMatrix.cols / 3)).map fun i =>
            (List.range d.decodedReferenceMesh.vertices.length).map fun v =>
              (⟨T_hat.coeff v (i * 3), T_hat.coeff v (i * 3 + 1),
                T_hat.coeff v (i * 3 + 2)⟩ : Vector3d)
          referenceVertexBuffer :=
            (d.decodedReferenceMesh.vertices.map fun v => [v.x, v.y, v.z]).flatten
          isDecoded := true } := by
  have h2 : (d.DecodeSequence host).2 = .ok b := by rw [h]
  obtain ⟨X, rhs, hn, hr, hc, hco, hs, heq⟩ := DecodeSequence_ok host d b h2
  rw [heq] at h
  obtain ⟨sb, T_hat, hm, ho, hb, hst⟩ := ProcessLoadedData_ok _ b (congrArg Prod.snd h)
  refine ⟨X, rhs, sb, T_hat, hn, hr, hc, hco, hs, hm, ho, hb, ?_⟩
  rw [h] at hst
  simp only at hst
  exact hst

theorem ApplyDisplacementToFrame_ok (d : Decoder) (t : ℤ) (disp : List Vector3d)
    (hI : d.isDecoded = true) (h0 : 0 ≤ t)
    (hd : d.decodedFrames[t.toNat]? = some disp)
    (hl : disp.length = d.decodedReferenceMesh.vertices.length) :
    d.ApplyDisplacementToFrame t =
      (d, .ok ((List.range d.decodedReferenceMesh.vertices.length).map fun i =>
        d.decodedReferenceMesh.vertices.getD i default + disp.getD i default)) := by
  have hlt : t.toNat < d.decodedFrames.length := by
    by_contra hge
    rw [List.getElem?_eq_none (by omega)] at hd
    exact absurd hd (by simp)
  have hnot : ¬ (t < 0 ∨ (d.decodedFrames.length : ℤ) ≤ t) := by omega
  simp [Decoder.ApplyDisplacementToFrame, hI, hnot, hd, hl]

theorem frames_getElem_some (T_hat : MatrixXd) (F n t : ℕ) (ht : t < F) :
    ((List.range F).map fun i => (List.range n).map fun v =>
      (⟨T_hat.coeff v (i * 3), T_hat.coeff v (i * 3 + 1),
        T_hat.coeff v (i * 3 + 2)⟩ : Vector3d))[t]? =
      some ((List.range n).map fun v =>
        (⟨T_hat.coeff v (t * 3), T_hat.coeff v (t * 3 + 1),
          T_hat.coeff v (t * 3 + 2)⟩ : Vector3d)) := by
  simp [List.getElem?_map, List.getElem?_range ht]

/-- C1: in the state a successful `DecodeSequence` leaves, for every frame index `t` with
`0 <= t < GetTotalFrames()`, `ApplyDisplacementToFrame(t)` returns a list of exactly
`GetVertexCount()` points whose `i`-th entry is the `i`-th reference vertex plus the `i`-th
cached displacement of frame `t`, and it leaves the decoder as it was. -/
theorem frame_vertices_are_reference_plus_displacement (host : Host) (d d' : Decoder) (t : ℤ)
    (hdec : d.DecodeSequence host = (d', .ok true))
    (h0 : 0 ≤ t) (ht : t < (d'.GetTotalFrames : ℤ)) :
    ∃ vs disp, d'.ApplyDisplacementToFrame t = (d', .ok vs) ∧
      d'.decodedFrames[t.toNat]? = some disp ∧
      vs.length = d'.GetVertexCount ∧
      ∀ i, i < d'.GetVertexCount →
        ∃ v u, d'.decodedReferenceMesh.vertices[i]? = some v ∧ disp[i]? = some u ∧
          vs[i]? = some (v + u) := by
  obtain ⟨X, rhs, sb, T_hat, -, -, -, -, -, -, -, -, hd'⟩ :=
    DecodeSequence_decoded host d d' true hdec
  have hI : d'.isDecoded = true := by rw [hd']
  have hTF : d'.totalFrames = d.bMatrix.cols / 3 := by rw [hd']
  have hVP : d'.verticesPerFrame = d.decodedReferenceMesh.vertices.length := by rw [hd']
  have hM : d'.decodedReferenceMesh = d.decodedReferenceMesh := by rw [hd']
  have hF : d'.decodedFrames = (List.range (d.bMatrix.cols / 3)).map fun i =>
      (List.range d.decodedReferenceMesh.vertices.length).map fun v =>
        (⟨T_hat.coeff v (i * 3), T_hat.coeff v (i * 3 + 1),
          T_hat.coeff v (i * 3 + 2)⟩ : Vector3d) := by rw [hd']
  simp only [Decoder.GetTotalFrames, Decoder.GetVertexCount, hTF, hVP] at ht ⊢
  have htn : t.toNat < d.bMatrix.cols / 3 := by omega
  have hdisp := frames_getElem_some T_hat (d.bMatrix.cols / 3)
    d.decodedReferenceMesh.vertices.length t.toNat htn
  rw [← hF] at hdisp
  refine ⟨_, _, ApplyDisplacementToFrame_ok d' t _ hI h0 hdisp (by simp [hM]), hdisp,
    by simp [hM], ?_⟩
  intro i hi
  have hiv : i < d.decodedReferenceMesh.vertices.length := hi
  refine ⟨d.decodedReferenceMesh.vertices[i],
    ⟨T_hat.coeff i (t.toNat * 3), T_hat.coeff i (t.toNat * 3 + 1),
      T_hat.coeff i (t.toNat * 3 + 2)⟩, by simp [hM, hiv], ?_, ?_⟩
  · simp [List.getElem?_map, List.getElem?_range hi]
  · simp [hM, List.getElem?_map, List.getElem?_range hi, List.getD_eq_getElem?_getD, hiv]

theorem exampleLoaded_decodes :
    exampleLoaded.DecodeSequence exampleHost = (exampleDecoded, .ok true) := rfl

/-- Witness of C1 on `exampleLoaded`, frame 1. -/
theorem frame_vertices_are_reference_plus_displacement_witness :
    (0 : ℤ) ≤ 1 ∧ (1 : ℤ) < (exampleDecoded.GetTotalFrames : ℤ) ∧
    ∃ vs disp, exampleDecoded.ApplyDisplacementToFrame 1 = (exampleDecoded, .ok vs) ∧
      exampleDecoded.decodedFrames[(1 : ℤ).toNat]? = some disp ∧
      vs.length = exampleDecoded.GetVertexCount ∧
      ∀ i, i < exampleDecoded.GetVertexCount →
        ∃ v u, exampleDecoded.decodedReferenceMesh.vertices[i]? = some v ∧ disp[i]? = some u ∧
          vs[i]? = some (v + u) :=
  ⟨by decide, by decide,
    frame_vertices_are_reference_plus_displacement exampleHost exampleLoaded exampleDecoded 1
      rfl (by decide) (by decide)⟩

/-- C4: after a successful `DecodeSequence` (which changes neither `B` nor the reference mesh),
`GetTotalFrames()` is `cols(B) / 3`, `GetVertexCount()` is the number of reference vertices, and
the cached frame table has `GetTotalFrames()` entries, each of length `GetVertexCount()`. -/
theorem decode_dimensional_closure (host : Host) (d d' : Decoder)
    (hdec : d.DecodeSequence host = (d', .ok true)) :
    d'.bMatrix = d.bMatrix ∧ d'.decodedReferenceMesh = d.decodedReferenceMesh ∧
    d'.GetTotalFrames = d'.bMatrix.cols / 3 ∧
    d'.GetVertexCount = d'.decodedReferenceMesh.vertices.length ∧
    d'.decodedFrames.length = d'.GetTotalFrames ∧
    ∀ frame ∈ d'.decodedFrames, frame.length = d'.GetVertexCount := by
  obtain ⟨X, rhs, sb, T_hat, -, -, -, -, -, -, -, -, hd'⟩ :=
    DecodeSequence_decoded host d d' true hdec
  have hTF : d'.totalFrames = d.bMatrix.cols / 3 := by rw [hd']
  have hVP : d'.verticesPerFrame = d.decodedReferenceMesh.vertices.length := by rw [hd']
  have hM : d'.decodedReferenceMesh = d.decodedReferenceMesh := by rw [hd']
  have hB : d'.bMatrix = d.bMatrix := by rw [hd']
  have hF : d'.decodedFrames = (List.range (d.bMatrix.cols / 3)).map fun i =>
      (List.range d.decodedReferenceMesh.vertices.length).map fun v =>
        (⟨T_hat.coeff v (i * 3), T_hat.coeff v (i * 3 + 1),
          T_hat.coeff v (i * 3 + 2)⟩ : Vector3d) := by rw [hd']
  refine ⟨hB, hM, ?_, ?_, ?_, ?_⟩
  · simp [Decoder.GetTotalFrames, hTF, hB]
  · simp [Decoder.GetVertexCount, hVP, hM]
  · simp [Decoder.GetTotalFrames, hTF, hF]
  · intro frame hf
    rw [hF] at hf
    obtain ⟨i, -, rfl⟩ := List.mem_map.mp hf
    simp [Decoder.GetVertexCount, hVP]

/-- Witness of C4 on `exampleLoaded`. -/
theorem decode_dimensional_closure_witness :
    exampleDecoded.bMatrix = exampleLoaded.bMatrix ∧
    exampleDecoded.decodedReferenceMesh = exampleLoaded.decodedReferenceMesh ∧
    exampleDecoded.GetTotalFrames = exampleDecoded.bMatrix.cols / 3 ∧
    exampleDecoded.GetVertexCount = exampleDecoded.decodedReferenceMesh.vertices.length ∧
    exampleDecoded.decodedFrames.length = exampleDecoded.GetTotalFrames ∧
    ∀ frame ∈ exampleDecoded.decodedFrames, frame.length = exampleDecoded.GetVertexCount :=
  decode_dimensional_closure exampleHost exampleLoaded exampleDecoded exampleLoaded_decodes

theorem ApplyDisplacementToFrame_notReady_iff (e : Decoder) (t : ℤ) :
    (e.ApplyDisplacementToFrame t).2 =
        .error (.runtime_error "Sequence hasn't been loaded yet.") ↔
      e.IsDecoded = false := by
  unfold Decoder.ApplyDisplacementToFrame Decoder.IsDecoded
  cases hI : e.isDecoded with
  | false => simp
  | true =>
    by_cases h1 : t < 0 ∨ (e.decodedFrames.length : ℤ) ≤ t
    · simp [h1]
    · by_cases h2 : e.decodedReferenceMesh.vertices.length =
          (e.decodedFrames[t.toNat]?.getD []).length
      · simp [h1, h2]
      · simp [h1, h2]

/-- C3: `ApplyDisplacementToFrame(t)` throws "Sequence hasn't been loaded yet." exactly when
the decoder is not decoded; in the state a successful `DecodeSequence` leaves it throws
`out_of_range` exactly when `t < 0` or `t >= GetTotalFrames()`, and returns vertices
otherwise. -/
theorem frame_access_errors (host : Host) (d d' : Decoder) (t : ℤ)
    (hdec : d.DecodeSequence host = (d', .ok true)) :
    (∀ e : Decoder,
      (e.ApplyDisplacementToFrame t).2 =
          .error (.runtime_error "Sequence hasn't been loaded yet.") ↔
        e.IsDecoded = false) ∧
    d'.IsDecoded = true ∧
    ((d'.ApplyDisplacementToFrame t).2 =
        .error (.out_of_range "Invalid frame index in ApplyDisplacementToFrame") ↔
      (t < 0 ∨ (d'.GetTotalFrames : ℤ) ≤ t)) ∧
    (¬ (t < 0 ∨ (d'.GetTotalFrames : ℤ) ≤ t) →
      ∃ vs, (d'.ApplyDisplacementToFrame t).2 = .ok vs) := by
  obtain ⟨X, rhs, sb, T_hat, -, -, -, -, -, -, -, -, hd'⟩ :=
    DecodeSequence_decoded host d d' true hdec
  have hI : d'.isDecoded = true := by rw [hd']
  have hTF : d'.totalFrames = d.bMatrix.cols / 3 := by rw [hd']
  have hM : d'.decodedReferenceMesh = d.decodedReferenceMesh := by rw [hd']
  have hF : d'.decodedFrames = (List.range (d.bMatrix.cols / 3)).map fun i =>
      (List.range d.decodedReferenceMesh.vertices.length).map fun v =>
        (⟨T_hat.coeff v (i * 3), T_hat.coeff v (i * 3 + 1),
          T_hat.coeff v (i * 3 + 2)⟩ : Vector3d) := by rw [hd']
  have hlen : d'.decodedFrames.length = d'.totalFrames := by simp [hF, hTF]
  have hok : ¬ (t < 0 ∨ (d'.totalFrames : ℤ) ≤ t) →
      ∃ vs, d'.ApplyDisplacementToFrame t = (d', .ok vs) := by
    intro hnot
    have htn : t.toNat < d.bMatrix.cols / 3 := by omega
    have hdisp := frames_getElem_some T_hat (d.bMatrix.cols / 3)
      d.decodedReferenceMesh.vertices.length t.toNat htn
    rw [← hF] at hdisp
    exact ⟨_, ApplyDisplacementToFrame_ok d' t _ hI (by omega) hdisp (by simp [hM])⟩
  refine ⟨?_, hI, ?_, ?_⟩
  · intro e
    exact ApplyDisplacementToFrame_notReady_iff e t
  · simp only [Decoder.GetTotalFrames]
    constructor
    · intro herr
      by_contra hnot
      obtain ⟨vs, hvs⟩ := hok hnot
      rw [hvs] at herr
      exact absurd herr (by simp)
    · intro hbad
      have hbad2 : t < 0 ∨ (d'.decodedFrames.length : ℤ) ≤ t := by rw [hlen]; exact hbad
      simp [Decoder.ApplyDisplacementToFrame, hI, hbad2]
  · intro hnot
    obtain ⟨vs, hvs⟩ := hok hnot
    exact ⟨vs, by rw [hvs]⟩

/-- Witness of C3 on `exampleLoaded`, frame index 2 (one past the last frame). -/
theorem frame_access_errors_witness :
    (∀ e : Decoder,
      (e.ApplyDisplacementToFrame 2).2 =
          .error (.runtime_error "Sequence hasn't been loaded yet.") ↔
        e.IsDecoded = false) ∧
    exampleDecoded.IsDecoded = true ∧
    ((exampleDecoded.ApplyDisplacementToFrame 2).2 =
        .error (.out_of_range "Invalid frame index in ApplyDisplacementToFrame") ↔
      ((2 : ℤ) < 0 ∨ (exampleDecoded.GetTotalFrames : ℤ) ≤ 2)) ∧
    (¬ ((2 : ℤ) < 0 ∨ (exampleDecoded.GetTotalFrames : ℤ) ≤ 2) →
      ∃ vs, (exampleDecoded.ApplyDisplacementToFrame 2).2 = .ok vs) :=
  frame_access_errors exampleHost exampleLoaded exampleDecoded 2 exampleLoaded_decodes

theorem mul_ok (a b sb : MatrixXd) (h : a.mul b = .ok sb) :
    a.cols = b.rows ∧ sb.rows = a.rows ∧ sb.cols = b.cols := by
  unfold MatrixXd.mul at h
  split at h
  · rename_i hc
    injection h with h
    subst h
    exact ⟨hc, rfl, rfl⟩
  · exact absurd h (by simp)

/-- C2: after a successful `DecodeSequence`, with `sb = S_hat * B`, the cached displacement of
frame `t < F`, vertex `v < n`, component `c < 3` is `sb(v, 3t+c) + T(0, 3t+c)`; and
`ApplyTMatrixOffset(S, T)`, when `rows(T) = 1`, `cols(T) = cols(S)` and `cols(S) mod 3 = 0`,
returns a matrix of the shape of `S` whose entry `(v, j)` is `S(v, j) + T(0, j)`. -/
theorem cached_displacement_is_product_plus_offset (host : Host) (d d' : Decoder)
    (S T : MatrixXd)
    (hdec : d.DecodeSequence host = (d', .ok true))
    (hT : T.rows = 1) (hc : T.cols = S.cols) (h3 : S.cols % 3 = 0) :
    (∃ sb, d'.S_hat.mul d'.bMatrix = .ok sb ∧
      ∀ t v c, t < d'.GetTotalFrames → v < d'.GetVertexCount → c < 3 →
        ∃ disp p, d'.decodedFrames[t]? = some disp ∧ disp[v]? = some p ∧
          p.coeff c = sb.coeff v (3 * t + c) + d'.tMatrix.coeff 0 (3 * t + c)) ∧
    (∃ R, TVMUtil.ApplyTMatrixOffset S T = .ok R ∧ R.rows = S.rows ∧ R.cols = S.cols ∧
      ∀ v j, v < S.rows → j < S.cols → R.coeff v j = S.coeff v j + T.coeff 0 j) := by
  constructor
  · obtain ⟨X, rhs, sb, T_hat, -, -, -, -, hs, hm, ho, -, hd'⟩ :=
      DecodeSequence_decoded host d d' true hdec
    have hTF : d'.totalFrames = d.bMatrix.cols / 3 := by rw [hd']
    have hVP : d'.verticesPerFrame = d.decodedReferenceMesh.vertices.length := by rw [hd']
    have hB : d'.bMatrix = d.bMatrix := by rw [hd']
    have hTm : d'.tMatrix = d.tMatrix := by rw [hd']
    have hS : d'.S_hat = X := by rw [hd']
    have hF : d'.decodedFrames = (List.range (d.bMatrix.cols / 3)).map fun i =>
        (List.range d.decodedReferenceMesh.vertices.length).map fun v =>
          (⟨T_hat.coeff v (i * 3), T_hat.coeff v (i * 3 + 1),
            T_hat.coeff v (i * 3 + 2)⟩ : Vector3d) := by rw [hd']
    obtain ⟨hXr, -, -⟩ := TVMUtil.SolveLeastSquares_ok _ _ _ _ _ _ hs
    rw [(TVMUtil.BuildLaplacianMatrix_shape _ _ _).2] at hXr
    obtain ⟨-, hsbr, hsbc⟩ := mul_ok _ _ _ hm
    obtain ⟨hT1, hTc⟩ := TVMUtil.ApplyTMatrixOffset_eq_ok _ _ _ ho
    obtain ⟨R, hR, -, -, hco⟩ := TVMUtil.ApplyTMatrixOffset_ok sb d.tMatrix hT1 hTc
    rw [ho] at hR
    injection hR with hR
    subst hR
    refine ⟨sb, by rw [hS, hB]; exact hm, ?_⟩
    intro t v c ht hv hc3
    simp only [Decoder.GetTotalFrames, Decoder.GetVertexCount, hTF, hVP] at ht hv
    refine ⟨_, ⟨T_hat.coeff v (t * 3), T_hat.coeff v (t * 3 + 1), T_hat.coeff v (t * 3 + 2)⟩,
      by rw [hF]; exact frames_getElem_some T_hat _ _ t ht,
      by simp [List.getElem?_map, List.getElem?_range hv], ?_⟩
    have hcoeff : ∀ k, k < 3 → T_hat.coeff v (t * 3 + k) =
        sb.coeff v (3 * t + k) + d.tMatrix.coeff 0 (3 * t + k) := by
      intro k hk
      rw [hco]
      have h1 : v < sb.rows := by omega
      have h2 : (t * 3 + k) / 3 < d.tMatrix.cols / 3 := by
        have : (t * 3 + k) / 3 = t := by omega
        rw [this, hTc, hsbc]
        exact ht
      have h4 : t * 3 + k = 3 * t + k := by omega
      rw [if_pos ⟨h1, h2⟩, h4]
    rw [hTm]
    have hcases : c = 0 ∨ c = 1 ∨ c = 2 := by omega
    rcases hcases with rfl | rfl | rfl
    · simpa [Vector3d.coeff] using hcoeff 0 (by omega)
    · simpa [Vector3d.coeff] using hcoeff 1 (by omega)
    · simpa [Vector3d.coeff] using hcoeff 2 (by omega)
  · obtain ⟨R, hR, hr, hcc, hco⟩ := TVMUtil.ApplyTMatrixOffset_ok S T hT hc
    refine ⟨R, hR, hr, hcc, ?_⟩
    intro v j hv hj
    rw [hco]
    have : j / 3 < T.cols / 3 := by omega
    simp [hv, this]

/-- Witness of C2 on `exampleLoaded`, with `S = B` and `T` of the example. -/
theorem cached_displacement_is_product_plus_offset_witness :
    exampleLoaded.tMatrix.rows = 1 ∧ exampleLoaded.tMatrix.cols = exampleLoaded.bMatrix.cols ∧
    exampleLoaded.bMatrix.cols % 3 = 0 ∧
    (∃ sb, exampleDecoded.S_hat.mul exampleDecoded.bMatrix = .ok sb ∧
      ∀ t v c, t < exampleDecoded.GetTotalFrames → v < exampleDecoded.GetVertexCount → c < 3 →
        ∃ disp p, exampleDecoded.decodedFrames[t]? = some disp ∧ disp[v]? = some p ∧
          p.coeff c = sb.coeff v (3 * t + c) + exampleDecoded.tMatrix.coeff 0 (3 * t + c)) ∧
    (∃ R, TVMUtil.ApplyTMatrixOffset exampleLoaded.bMatrix exampleLoaded.tMatrix = .ok R ∧
      R.rows = exampleLoaded.bMatrix.rows ∧ R.cols = exampleLoaded.bMatrix.cols ∧
      ∀ v j, v < exampleLoaded.bMatrix.rows → j < exampleLoaded.bMatrix.cols →
        R.coeff v j = exampleLoaded.bMatrix.coeff v j + exampleLoaded.tMatrix.coeff 0 j) :=
  ⟨rfl, rfl, rfl,
    cached_displacement_is_product_plus_offset exampleHost exampleLoaded exampleDecoded
      exampleLoaded.bMatrix exampleLoaded.tMatrix exampleLoaded_decodes rfl rfl rfl⟩

theorem anchorIndex_of_two_le (nanToInt : ℤ) (n : ℕ) (a : ℤ) (i : ℕ) (hn : 1 ≤ n) (ha : 2 ≤ a) :
    anchorIndex nanToInt n a i = ⌊((i : ℚ) * ((n : ℚ) - 1)) / ((a : ℚ) - 1) + 1 / 2⌋ := by
  have ha1 : ((a : ℚ) - 1) ≠ 0 := by
    have : (2 : ℚ) ≤ (a : ℚ) := by exact_mod_cast ha
    linarith
  have hpos : (0 : ℚ) < (a : ℚ) - 1 := by
    have : (2 : ℚ) ≤ (a : ℚ) := by exact_mod_cast ha
    linarith
  have hn1 : (0 : ℚ) ≤ (n : ℚ) - 1 := by
    have : (1 : ℚ) ≤ (n : ℚ) := by exact_mod_cast hn
    linarith
  have hq : (0 : ℚ) ≤ ((i : ℚ) * ((n : ℚ) - 1)) / ((a : ℚ) - 1) :=
    div_nonneg (mul_nonneg (Nat.cast_nonneg i) hn1) hpos.le
  simp [anchorIndex, divDouble, ha1, std_round, hq]

theorem computeAnchorIndices_getElem (nanToInt : ℤ) (n : ℕ) (a : ℤ) (i : ℕ)
    (hi : i < a.toNat) :
    (computeAnchorIndices nanToInt n a)[i]? = some (anchorIndex nanToInt n a i) := by
  simp [computeAnchorIndices, List.getElem?_map, List.getElem?_range hi]

/-- C6 (anchor index law): for `n >= 1` vertices and `a >= 2` anchors the anchor list has
`a` entries, starts with `0`, ends with `n - 1`, and is non-decreasing. -/
theorem anchor_index_law (nanToInt : ℤ) (n : ℕ) (a : ℤ) (hn : 1 ≤ n) (ha : 2 ≤ a) :
    ((computeAnchorIndices nanToInt n a).length : ℤ) = a ∧
    (computeAnchorIndices nanToInt n a)[0]? = some 0 ∧
    (computeAnchorIndices nanToInt n a)[a.toNat - 1]? = some ((n : ℤ) - 1) ∧
    ∀ i x y, (computeAnchorIndices nanToInt n a)[i]? = some x →
      (computeAnchorIndices nanToInt n a)[i + 1]? = some y → x ≤ y := by
  have hpos : (0 : ℚ) < (a : ℚ) - 1 := by
    have : (2 : ℚ) ≤ (a : ℚ) := by exact_mod_cast ha
    linarith
  have hn1 : (0 : ℚ) ≤ (n : ℚ) - 1 := by
    have : (1 : ℚ) ≤ (n : ℚ) := by exact_mod_cast hn
    linarith
  refine ⟨by rw [computeAnchorIndices_length]; omega, ?_, ?_, ?_⟩
  · rw [computeAnchorIndices_getElem _ _ _ 0 (by omega), anchorIndex_of_two_le _ _ _ _ hn ha]
    norm_num
  · rw [computeAnchorIndices_getElem _ _ _ _ (by omega), anchorIndex_of_two_le _ _ _ _ hn ha]
    have hcast : ((a.toNat - 1 : ℕ) : ℚ) = (a : ℚ) - 1 := by
      have h1 : 1 ≤ a.toNat := by omega
      rw [Nat.cast_sub h1]
      have h2 : ((a.toNat : ℤ) : ℚ) = (a : ℚ) := by
        rw [Int.toNat_of_nonneg (by omega)]
      have h3 : ((a.toNat : ℕ) : ℚ) = ((a.toNat : ℤ) : ℚ) := by push_cast; rfl
      rw [h3, h2]
      norm_num
    rw [hcast, mul_comm, mul_div_assoc, div_self (ne_of_gt hpos), mul_one]
    congr 1
    rw [Int.floor_eq_iff]
    constructor
    · push_cast; linarith
    · push_cast; linarith
  · intro i x y hx hy
    have hi1 : i + 1 < a.toNat := by
      by_contra hge
      rw [List.getElem?_eq_none (by rw [computeAnchorIndices_length]; omega)] at hy
      exact absurd hy (by simp)
    rw [computeAnchorIndices_getElem _ _ _ i (by omega), anchorIndex_of_two_le _ _ _ _ hn ha]
      at hx
    rw [computeAnchorIndices_getElem _ _ _ (i + 1) hi1, anchorIndex_of_two_le _ _ _ _ hn ha]
      at hy
    rw [← Option.some.inj hx, ← Option.some.inj hy]
    apply Int.floor_le_floor
    have : ((i : ℚ) * ((n : ℚ) - 1)) / ((a : ℚ) - 1) ≤
        (((i + 1 : ℕ) : ℚ) * ((n : ℚ) - 1)) / ((a : ℚ) - 1) := by
      apply div_le_div_of_nonneg_right _ hpos.le
      apply mul_le_mul_of_nonneg_right _ hn1
      push_cast; linarith
    linarith

/-- Witness of C6 for ten vertices and four anchors (the list is 0, 3, 6, 9). -/
theorem anchor_index_law_witness :
    1 ≤ 10 ∧ (2 : ℤ) ≤ 4 ∧
    ((computeAnchorIndices (-2147483648) 10 4).length : ℤ) = 4 ∧
    (computeAnchorIndices (-2147483648) 10 4)[0]? = some 0 ∧
    (computeAnchorIndices (-2147483648) 10 4)[(4 : ℤ).toNat - 1]? = some (((10 : ℕ) : ℤ) - 1) ∧
    ∀ i x y, (computeAnchorIndices (-2147483648) 10 4)[i]? = some x →
      (computeAnchorIndices (-2147483648) 10 4)[i + 1]? = some y → x ≤ y :=
  ⟨by decide, by decide, anchor_index_law (-2147483648) 10 4 (by decide) (by decide)⟩

theorem anchor_step (n : ℕ) (a : ℤ) (i j : ℕ) (ha : 2 ≤ a) (han : a ≤ n) (hij : i < j) :
    ⌊((i : ℚ) * ((n : ℚ) - 1)) / ((a : ℚ) - 1) + 1 / 2⌋ <
      ⌊((j : ℚ) * ((n : ℚ) - 1)) / ((a : ℚ) - 1) + 1 / 2⌋ := by
  have hpos : (0 : ℚ) < (a : ℚ) - 1 := by
    have : (2 : ℚ) ≤ (a : ℚ) := by exact_mod_cast ha
    linarith
  have hstep : (1 : ℚ) ≤ ((n : ℚ) - 1) / ((a : ℚ) - 1) := by
    rw [le_div_iff₀ hpos]
    have : (a : ℚ) ≤ (n : ℚ) := by exact_mod_cast han
    linarith
  have hji : (i : ℚ) + 1 ≤ (j : ℚ) := by exact_mod_cast hij
  have hq : ((i : ℚ) * ((n : ℚ) - 1)) / ((a : ℚ) - 1) + 1 ≤
      ((j : ℚ) * ((n : ℚ) - 1)) / ((a : ℚ) - 1) := by
    rw [mul_div_assoc, mul_div_assoc]
    have h0 : (0 : ℚ) ≤ ((n : ℚ) - 1) / ((a : ℚ) - 1) := by linarith
    nlinarith
  have h1 : ⌊((i : ℚ) * ((n : ℚ) - 1)) / ((a : ℚ) - 1) + 1 / 2⌋ + 1 ≤
      ⌊((j : ℚ) * ((n : ℚ) - 1)) / ((a : ℚ) - 1) + 1 / 2⌋ := by
    rw [← Int.floor_add_one]
    apply Int.floor_le_floor
    linarith
  omega

/-- C7: for `2 <= a <= n` the anchor list has `a` entries, every entry is a vertex index in
`0 .. n - 1`, and the entries are pairwise distinct. -/
theorem anchor_indices_distinct_in_range (nanToInt : ℤ) (n : ℕ) (a : ℤ)
    (ha : 2 ≤ a) (han : a ≤ n) :
    ((computeAnchorIndices nanToInt n a).length : ℤ) = a ∧
    (∀ x ∈ computeAnchorIndices nanToInt n a, 0 ≤ x ∧ x ≤ (n : ℤ) - 1) ∧
    (computeAnchorIndices nanToInt n a).Nodup := by
  have hn : 1 ≤ n := by omega
  have hpos : (0 : ℚ) < (a : ℚ) - 1 := by
    have : (2 : ℚ) ≤ (a : ℚ) := by exact_mod_cast ha
    linarith
  have hn1 : (0 : ℚ) ≤ (n : ℚ) - 1 := by
    have : (1 : ℚ) ≤ (n : ℚ) := by exact_mod_cast hn
    linarith
  refine ⟨by rw [computeAnchorIndices_length]; omega, ?_, ?_⟩
  · intro x hx
    obtain ⟨i, hi, rfl⟩ := List.mem_map.mp hx
    have hi' : i < a.toNat := List.mem_range.mp hi
    rw [anchorIndex_of_two_le _ _ _ _ hn ha]
    have hq0 : (0 : ℚ) ≤ ((i : ℚ) * ((n : ℚ) - 1)) / ((a : ℚ) - 1) :=
      div_nonneg (mul_nonneg (Nat.cast_nonneg i) hn1) hpos.le
    have hia : (i : ℚ) ≤ (a : ℚ) - 1 := by
      have h1 : (i : ℤ) ≤ a - 1 := by omega
      have h2 : ((i : ℤ) : ℚ) ≤ ((a - 1 : ℤ) : ℚ) := by exact_mod_cast h1
      push_cast at h2
      exact h2
    have hq1 : ((i : ℚ) * ((n : ℚ) - 1)) / ((a : ℚ) - 1) ≤ (n : ℚ) - 1 := by
      rw [div_le_iff₀ hpos]
      nlinarith
    constructor
    · apply Int.floor_nonneg.mpr
      linarith
    · have : ⌊((i : ℚ) * ((n : ℚ) - 1)) / ((a : ℚ) - 1) + 1 / 2⌋ < (n : ℤ) := by
        rw [Int.floor_lt]
        push_cast
        linarith
      omega
  · unfold computeAnchorIndices
    apply List.Nodup.map_on _ (List.nodup_range _)
    intro i _ j _ hij
    rw [anchorIndex_of_two_le _ _ _ _ hn ha, anchorIndex_of_two_le _ _ _ _ hn ha] at hij
    by_contra hne
    rcases Nat.lt_or_gt_of_ne hne with h | h
    · exact absurd hij (ne_of_lt (anchor_step n a i j ha han h))
    · exact absurd hij.symm (ne_of_lt (anchor_step n a j i ha han h))

/-- Witness of C7 for five vertices and five anchors (the list is 0, 1, 2, 3, 4). -/
theorem anchor_indices_distinct_in_range_witness :
    (2 : ℤ) ≤ 5 ∧ (5 : ℤ) ≤ ((5 : ℕ) : ℤ) ∧
    ((computeAnchorIndices (-2147483648) 5 5).length : ℤ) = 5 ∧
    (∀ x ∈ computeAnchorIndices (-2147483648) 5 5, 0 ≤ x ∧ x ≤ ((5 : ℕ) : ℤ) - 1) ∧
    (computeAnchorIndices (-2147483648) 5 5).Nodup :=
  ⟨by decide, by decide,
    anchor_indices_distinct_in_range (-2147483648) 5 5 (by decide) (by decide)⟩

/-- C8 (code): with one anchor the loop evaluates `round(0 * (n - 1.0) / 0.0)`; the quotient
is not a finite number, so the single entry of the anchor list is whatever the platform
gives for its conversion to `int`, not `0` by any rule of the code. -/
theorem single_anchor_is_converted_nan (nanToInt : ℤ) (n : ℕ) :
    divDouble (((0 : ℕ) : ℚ) * ((n : ℚ) - 1)) (((1 : ℤ) : ℚ) - 1) = none ∧
    computeAnchorIndices nanToInt n 1 = [nanToInt] := by
  constructor
  · simp [divDouble]
  · simp [computeAnchorIndices, List.range_succ, anchorIndex, divDouble]

/-- C9 (code): on `exampleFourColumns`, whose `B` has 4 columns, `DecodeSequence` returns
`true`, marks the decoder decoded and caches one frame. -/
theorem four_columns_decode_succeeds :
    exampleFourColumns.bMatrix.cols % 3 = 1 ∧
    (exampleFourColumns.DecodeSequence exampleHost).2 = .ok true ∧
    (exampleFourColumns.DecodeSequence exampleHost).1.IsDecoded = true ∧
    (exampleFourColumns.DecodeSequence exampleHost).1.GetTotalFrames = 1 ∧
    (exampleFourColumns.DecodeSequence exampleHost).1.decodedFrames.length = 1 :=
  ⟨rfl, rfl, rfl, rfl, rfl⟩

/-- With fewer rows in `D_hat` than vertices the anchor loop of `DecodeSequence` does not run
and the block `dHat.topRows(refCount)` lies outside the matrix: the call ends in Eigen's
range assertion. -/
theorem DecodeSequence_short_dHat (host : Host) (d : Decoder)
    (h : d.dHat.rows < d.decodedReferenceMesh.vertices.length) :
    computeAnchorIndices host.nanToInt d.decodedReferenceMesh.vertices.length
      ((d.dHat.rows : ℤ) - (d.decodedReferenceMesh.vertices.length : ℤ)) = [] ∧
    (d.DecodeSequence host).2 = .error (.eigen_assert "topRows: block outside the matrix") := by
  have hneg : ¬ ((d.decodedReferenceMesh.vertices.length : ℤ) ≤ (d.dHat.rows : ℤ)) := by omega
  have hnat : ((d.dHat.rows : ℤ) - (d.decodedReferenceMesh.vertices.length : ℤ)).toNat = 0 := by
    omega
  have hA : computeAnchorIndices host.nanToInt d.decodedReferenceMesh.vertices.length
      ((d.dHat.rows : ℤ) - (d.decodedReferenceMesh.vertices.length : ℤ)) = [] := by
    simp [computeAnchorIndices, hnat]
  refine ⟨hA, ?_⟩
  simp [Decoder.DecodeSequence, MatrixXd.topRows, hneg]

/-- C10 (code): `exampleShortDHat` has one row of `D_hat` and two vertices, so the anchor
count is -1. `DecodeSequence` makes no test of it: the anchor loop does not run, and
`dHat.topRows(2)` asks for a block outside the one-row matrix. The call ends in Eigen's
range assertion, which is no shape error the caller could handle, and `Clear` is not
reached. -/
theorem short_dHat_reads_block_outside_matrix :
    (exampleShortDHat.dHat.rows : ℤ) -
      (exampleShortDHat.decodedReferenceMesh.vertices.length : ℤ) = -1 ∧
    computeAnchorIndices exampleHost.nanToInt
      exampleShortDHat.decodedReferenceMesh.vertices.length (-1) = [] ∧
    exampleShortDHat.dHat.topRows 2 =
      .error (.eigen_assert "topRows: block outside the matrix") ∧
    (exampleShortDHat.DecodeSequence exampleHost).2 =
      .error (.eigen_assert "topRows: block outside the matrix") ∧
    isStdException (.eigen_assert "topRows: block outside the matrix") = false :=
  ⟨by decide, (DecodeSequence_short_dHat exampleHost exampleShortDHat (by decide)).1, rfl,
    (DecodeSequence_short_dHat exampleHost exampleShortDHat (by decide)).2, rfl⟩

end TVMDecoder

namespace MatrixIO
open Eigen Storage

theorem bufferAt_full (lib : Library) (bytes : List ℕ) (byteCount k : ℕ)
    (hk : 8 * k + 8 ≤ byteCount) (hlen : 8 + 8 * k + 8 ≤ bytes.length) :
    bufferAt lib ((bytes.drop 8).take byteCount) k =
      lib.doubleOfBytes ((bytes.drop (8 + 8 * k)).take 8) := by
  have hchunk : (((bytes.drop 8).take byteCount).drop (8 * k)).take 8 =
      (bytes.drop (8 + 8 * k)).take 8 := by
    rw [List.drop_take, List.drop_drop, List.take_take]
    have h1 : min 8 (byteCount - 8 * k) = 8 := by omega
    rw [h1]
  have hl : ((bytes.drop (8 + 8 * k)).take 8).length = 8 := by
    rw [List.length_take, List.length_drop]
    omega
  unfold bufferAt
  simp only [hchunk]
  have hne : (bytes.drop (8 + 8 * k)).take 8 ≠ [] := by
    intro h0
    rw [h0] at hl
    simp at hl
  rw [if_neg hne, hl]
  simp

/-- C12: for a delta file that holds its 8 header bytes, `LoadDeltaTrajectories` throws
exactly when the header, read as two little-endian signed 32-bit integers `numRows`,
`numCols`, has `numRows <= 0` or `numCols <= 0` or `numCols > 1000` or `numRows > 1000000`;
otherwise it returns a `numRows x numCols` matrix whose entry `(r, c)` is the double stored
in the 8 bytes at offset `8 + 8 (r numCols + c)`, for every such double the file holds. -/
theorem delta_header_check_and_layout (lib : Library) (disk : Disk) (path : String)
    (bytes : List ℕ) (hfile : disk.binary path = some bytes) (hheader : 8 ≤ bytes.length) :
    ((∃ e, LoadDeltaTrajectories lib disk path = .error e) ↔
      (int32OfBytes (bytes.take 4) ≤ 0 ∨ int32OfBytes ((bytes.drop 4).take 4) ≤ 0 ∨
        int32OfBytes ((bytes.drop 4).take 4) > 1000 ∨ int32OfBytes (bytes.take 4) > 1000000)) ∧
    (¬ (int32OfBytes (bytes.take 4) ≤ 0 ∨ int32OfBytes ((bytes.drop 4).take 4) ≤ 0 ∨
        int32OfBytes ((bytes.drop 4).take 4) > 1000 ∨ int32OfBytes (bytes.take 4) > 1000000) →
      ∃ M, LoadDeltaTrajectories lib disk path = .ok M ∧
        (M.rows : ℤ) = int32OfBytes (bytes.take 4) ∧
        (M.cols : ℤ) = int32OfBytes ((bytes.drop 4).take 4) ∧
        ∀ r c, r < M.rows → c < M.cols → 8 + 8 * (r * M.cols + c) + 8 ≤ bytes.length →
          M.coeff r c = lib.doubleOfBytes ((bytes.drop (8 + 8 * (r * M.cols + c))).take 8)) := by
  have h4 : ¬ (bytes.take 4).length < 4 := by
    rw [List.length_take]; omega
  have h8 : ¬ ((bytes.drop 4).take 4).length < 4 := by
    rw [List.length_take, List.length_drop]; omega
  by_cases hbad : int32OfBytes (bytes.take 4) ≤ 0 ∨ int32OfBytes ((bytes.drop 4).take 4) ≤ 0 ∨
        int32OfBytes ((bytes.drop 4).take 4) > 1000 ∨ int32OfBytes (bytes.take 4) > 1000000
  · have hres : LoadDeltaTrajectories lib disk path =
        .error (.runtime_error "Corrupt BIN: invalid dimensions") := by
      simp only [LoadDeltaTrajectories, hfile, if_neg h4, if_pos hbad]
    exact ⟨⟨fun _ => hbad, fun _ => ⟨_, hres⟩⟩, fun hn => absurd hbad hn⟩
  · have hres : LoadDeltaTrajectories lib disk path =
        .ok ⟨(int32OfBytes (bytes.take 4)).toNat, (int32OfBytes ((bytes.drop 4).take 4)).toNat,
          fun r c => bufferAt lib ((bytes.drop 8).take
            ((int32OfBytes (bytes.take 4)).toNat *
              (int32OfBytes ((bytes.drop 4).take 4)).toNat * 8))
            (r * (int32OfBytes ((bytes.drop 4).take 4)).toNat + c)⟩ := by
      simp only [LoadDeltaTrajectories, hfile, if_neg h4, if_neg h8, if_neg hbad]
    push_neg at hbad
    obtain ⟨hr0, hc0, hc1, hr1⟩ := hbad
    refine ⟨⟨fun ⟨e, he⟩ => ?_, fun hb => ?_⟩, fun _ => ⟨_, hres, ?_, ?_, ?_⟩⟩
    · rw [hres] at he
      exact absurd he (by simp)
    · omega
    · simp only; omega
    · simp only; omega
    · intro r c hr hc hlen
      simp only at hr hc hlen ⊢
      apply bufferAt_full lib bytes _ _ _ hlen
      have : (r + 1) * (int32OfBytes ((bytes.drop 4).take 4)).toNat ≤
          (int32OfBytes (bytes.take 4)).toNat * (int32OfBytes ((bytes.drop 4).take 4)).toNat :=
        Nat.mul_le_mul_right _ hr
      nlinarith

end MatrixIO

namespace MatrixIO
open Eigen Storage

/-- Witness of C12 on the delta file of `exampleBadDeltaDisk` (header 1 x 5000). -/
theorem delta_header_check_and_layout_witness :
    Playback.exampleBadDeltaDisk.binary "seq/delta_trajectories.bin" =
      some [1, 0, 0, 0, 136, 19, 0, 0] ∧
    8 ≤ ([1, 0, 0, 0, 136, 19, 0, 0] : List ℕ).length ∧
    ((∃ e, LoadDeltaTrajectories Playback.exampleLibrary Playback.exampleBadDeltaDisk
        "seq/delta_trajectories.bin" = .error e) ↔
      (int32OfBytes (([1, 0, 0, 0, 136, 19, 0, 0] : List ℕ).take 4) ≤ 0 ∨
        int32OfBytes ((([1, 0, 0, 0, 136, 19, 0, 0] : List ℕ).drop 4).take 4) ≤ 0 ∨
        int32OfBytes ((([1, 0, 0, 0, 136, 19, 0, 0] : List ℕ).drop 4).take 4) > 1000 ∨
        int32OfBytes (([1, 0, 0, 0, 136, 19, 0, 0] : List ℕ).take 4) > 1000000)) :=
  ⟨rfl, by decide,
    (delta_header_check_and_layout Playback.exampleLibrary Playback.exampleBadDeltaDisk
      "seq/delta_trajectories.bin" [1, 0, 0, 0, 136, 19, 0, 0] rfl (by decide)).1⟩

end MatrixIO

namespace Playback
open Eigen Storage TVMDecoder

/-- The ways `AdvanceSubSequence` can end. -/
theorem AdvanceSubSequence_cases (m : PlaybackManager) :
    ((¬ ∃ d, findDecoder m.activeDecoders (to_string
        (if m.currentSubSequence + 1 > m.subSequenceCount then 1
          else m.currentSubSequence + 1)) = some d ∧ d.IsDecoded = true) ∧
      m.AdvanceSubSequence = (m, .ok false)) ∨
    ((∃ d, findDecoder m.activeDecoders (to_string
        (if m.currentSubSequence + 1 > m.subSequenceCount then 1
          else m.currentSubSequence + 1)) = some d ∧ d.IsDecoded = true) ∧
      ∃ kept r, m.AdvanceSubSequence =
        ({ m with
            currentSubSequence :=
              if m.currentSubSequence + 1 > m.subSequenceCount then 1
              else m.currentSubSequence + 1
            activeDecoders := kept }, r) ∧
        (r = .ok true ∨ ∃ e, r = .error e)) := by
  unfold PlaybackManager.AdvanceSubSequence
  cases hE : m.activeDecoders.isEmpty with
  | true =>
    left
    have hnil : m.activeDecoders = [] := List.isEmpty_iff.mp hE
    refine ⟨?_, by simp⟩
    rintro ⟨d, hd, -⟩
    simp [findDecoder, hnil] at hd
  | false =>
    simp only [Bool.false_eq_true, if_false]
    cases hF : findDecoder m.activeDecoders (to_string
        (if m.currentSubSequence + 1 > m.subSequenceCount then 1
          else m.currentSubSequence + 1)) with
    | none =>
      left
      exact ⟨by rintro ⟨d, hd, -⟩; exact absurd hd (by simp), rfl⟩
    | some d =>
      cases hD : d.IsDecoded with
      | false =>
        left
        refine ⟨?_, by simp [hD]⟩
        rintro ⟨d', hd', hdec⟩
        have : d' = d := (Option.some.inj hd').symm
        rw [this, hD] at hdec
        exact absurd hdec (by simp)
      | true =>
        right
        refine ⟨⟨d, rfl, hD⟩, ?_⟩
        simp only [hD, Bool.true_eq_false, if_false]
        generalize hs : evictScan _ _ = res
        obtain ⟨kept, r⟩ := res
        cases r with
        | error e => exact ⟨kept, _, rfl, Or.inr ⟨e, rfl⟩⟩
        | ok u => exact ⟨kept, _, rfl, Or.inl rfl⟩

end Playback

namespace Playback
open Eigen Storage TVMDecoder

theorem AdvanceSubSequence_true (m m' : PlaybackManager)
    (h : m.AdvanceSubSequence = (m', .ok true)) :
    m'.currentSubSequence =
        (if m.currentSubSequence + 1 > m.subSequenceCount then 1
          else m.currentSubSequence + 1) ∧
      m'.subSequenceCount = m.subSequenceCount ∧ m'.preLoad = m.preLoad ∧
      ∃ d, findDecoder m.activeDecoders (to_string
        (if m.currentSubSequence + 1 > m.subSequenceCount then 1
          else m.currentSubSequence + 1)) = some d ∧ d.IsDecoded = true := by
  rcases AdvanceSubSequence_cases m with ⟨-, hf⟩ | ⟨hd, kept, r, hr, -⟩
  · rw [hf] at h
    exact absurd (congrArg Prod.snd h) (by simp)
  · rw [hr] at h
    have h1 := congrArg Prod.fst h
    simp only at h1
    rw [← h1]
    exact ⟨rfl, rfl, rfl, hd⟩

theorem AdvanceSubSequence_false (m m' : PlaybackManager)
    (h : m.AdvanceSubSequence = (m', .ok false)) : m' = m := by
  rcases AdvanceSubSequence_cases m with ⟨-, hf⟩ | ⟨-, kept, r, hr, hres⟩
  · rw [hf] at h
    exact (congrArg Prod.fst h).symm
  · rw [hr] at h
    have h2 := congrArg Prod.snd h
    simp only at h2
    rcases hres with rfl | ⟨e, rfl⟩
    · exact absurd h2 (by simp)
    · exact absurd h2 (by simp)

/-- C15: `AdvanceSubSequence` returns false and leaves the manager as it was whenever the
first active decoder named `next` (`currentSubSequence + 1`, wrapped to 1) is missing or not
decoded; and whenever it returns true, an active decoder named `next` is decoded. -/
theorem advance_refused_without_decoded_next (m : PlaybackManager) :
    ((¬ ∃ d, findDecoder m.activeDecoders (to_string
        (if m.currentSubSequence + 1 > m.subSequenceCount then 1
          else m.currentSubSequence + 1)) = some d ∧ d.IsDecoded = true) →
      m.AdvanceSubSequence = (m, .ok false)) ∧
    (∀ m', m.AdvanceSubSequence = (m', .ok true) →
      ∃ d, d ∈ m.activeDecoders ∧
        d.GetName = to_string
          (if m.currentSubSequence + 1 > m.subSequenceCount then 1
            else m.currentSubSequence + 1) ∧
        d.IsDecoded = true) := by
  constructor
  · intro hno
    rcases AdvanceSubSequence_cases m with ⟨-, hf⟩ | ⟨hd, -⟩
    · exact hf
    · exact absurd hd hno
  · intro m' h
    obtain ⟨-, -, -, d, hd, hdec⟩ := AdvanceSubSequence_true m m' h
    unfold findDecoder at hd
    refine ⟨d, List.mem_of_find?_eq_some hd, ?_, hdec⟩
    have := List.find?_some hd
    simpa using this

theorem exampleConstructed_next_missing :
    ¬ ∃ d, findDecoder exampleConstructed.activeDecoders (to_string
        (if exampleConstructed.currentSubSequence + 1 > exampleConstructed.subSequenceCount
          then 1 else exampleConstructed.currentSubSequence + 1)) = some d ∧
        d.IsDecoded = true := by
  rintro ⟨d, hd, -⟩
  have hnone : findDecoder exampleConstructed.activeDecoders (to_string
        (if exampleConstructed.currentSubSequence + 1 > exampleConstructed.subSequenceCount
          then 1 else exampleConstructed.currentSubSequence + 1)) = none := rfl
  rw [hnone] at hd
  exact absurd hd (by simp)

/-- Witness of C15 on `exampleConstructed`, whose only active decoder is number 1, not
decoded, while `next` is 2. -/
theorem advance_refused_without_decoded_next_witness :
    (¬ ∃ d, findDecoder exampleConstructed.activeDecoders (to_string
        (if exampleConstructed.currentSubSequence + 1 > exampleConstructed.subSequenceCount
          then 1 else exampleConstructed.currentSubSequence + 1)) = some d ∧
        d.IsDecoded = true) ∧
    exampleConstructed.AdvanceSubSequence = (exampleConstructed, .ok false) :=
  ⟨exampleConstructed_next_missing,
    (advance_refused_without_decoded_next exampleConstructed).1
      exampleConstructed_next_missing⟩

end Playback

namespace Playback
open Eigen Storage TVMDecoder

theorem LoadSubSequence_fields (w : World) (m : PlaybackManager) (i : ℤ) :
    (m.LoadSubSequence w i).1 =
      { m with activeDecoders := (m.LoadSubSequence w i).1.activeDecoders } := by
  unfold PlaybackManager.LoadSubSequence
  split
  · rfl
  · split
    · rfl
    · rfl

theorem DecodeSubSequence_fields (w : World) (m : PlaybackManager) (i : ℤ) :
    (m.DecodeSubSequence w i).1 =
      { m with activeDecoders := (m.DecodeSubSequence w i).1.activeDecoders } := rfl

theorem fetchFrame_state (m : PlaybackManager) (t : ℤ) : (m.fetchFrame t).1 = m := by
  unfold PlaybackManager.fetchFrame
  split
  · rfl
  · split <;> rfl

/-- A call other than a successful advance changes nothing but the active list. -/
theorem OtherCall_fields (w : World) (m m' : PlaybackManager) (h : OtherCall w m m') :
    m' = { m with activeDecoders := m'.activeDecoders } := by
  cases h with
  | advanceFalse h => rw [AdvanceSubSequence_false m m' h]
  | load i h =>
    have := LoadSubSequence_fields w m i
    rw [h] at this
    exact this
  | decode i h =>
    have := DecodeSubSequence_fields w m i
    rw [h] at this
    exact this
  | fetch t r h =>
    have := fetchFrame_state m t
    rw [h] at this
    simp only at this
    rw [this]

theorem succ_emod (x K : ℤ) (hK : 0 < K) :
    (x + 1) % K = if x % K + 1 = K then 0 else x % K + 1 := by
  have h := Int.emod_add_ediv x K
  have h0 := Int.emod_nonneg x (ne_of_gt hK)
  have h1 := Int.emod_lt_of_pos x hK
  split_ifs with hc
  · have : x + 1 = K * (x / K + 1) := by linarith
    rw [this]
    exact Int.mul_emod_right _ _
  · have : x + 1 = (x % K + 1) + K * (x / K) := by linarith
    rw [this, Int.add_mul_emod_self_left]
    exact Int.emod_eq_of_lt (by omega) (by omega)

/-- After `k` successful advances the cursor has moved `k` places round the ring. -/
theorem Advances_cursor (w : World) (k : ℕ) (m m' : PlaybackManager)
    (h : Advances w m k m') (hK : 0 < m.subSequenceCount) (h1 : 1 ≤ m.currentSubSequence)
    (h2 : m.currentSubSequence ≤ m.subSequenceCount) :
    m'.subSequenceCount = m.subSequenceCount ∧
      m'.currentSubSequence = (m.currentSubSequence - 1 + k) % m.subSequenceCount + 1 := by
  induction h with
  | start =>
    refine ⟨rfl, ?_⟩
    have : (m.currentSubSequence - 1 + ((0 : ℕ) : ℤ)) % m.subSequenceCount =
        m.currentSubSequence - 1 := by
      simp only [Nat.cast_zero, add_zero]
      exact Int.emod_eq_of_lt (by omega) (by omega)
    rw [this]
    ring
  | advance k m1 m2 _ hadv ih =>
    obtain ⟨hc, hcur⟩ := ih
    obtain ⟨hn, hcount, -, -⟩ := AdvanceSubSequence_true m1 m2 hadv
    refine ⟨hcount.trans hc, ?_⟩
    rw [hn, hc, hcur]
    have hs := succ_emod (m.currentSubSequence - 1 + k) m.subSequenceCount hK
    have hlt := Int.emod_lt_of_pos (m.currentSubSequence - 1 + k) hK
    have hcast : m.currentSubSequence - 1 + ((k + 1 : ℕ) : ℤ) =
        m.currentSubSequence - 1 + k + 1 := by push_cast; ring
    rw [hcast, hs]
    split_ifs with ha hb hb
    · rfl
    · omega
    · omega
    · rfl
  | other k m1 m2 _ hother ih =>
    obtain ⟨hc, hcur⟩ := ih
    have hf := OtherCall_fields w m1 m2 hother
    rw [hf]
    exact ⟨hc, hcur⟩

/-- C13 (playback ring): with `K >= 1` subsequences and the cursor at `S`, `1 <= S <= K`, a
successful `AdvanceSubSequence` moves the cursor to `S + 1` if `S < K` and to 1 if `S = K`;
and after any run of calls holding exactly `K` successful advances the cursor is at `S`
again. -/
theorem playback_ring (w : World) (m : PlaybackManager) (K : ℕ) (hK : 1 ≤ K)
    (hcount : m.subSequenceCount = K) (h1 : 1 ≤ m.currentSubSequence)
    (h2 : m.currentSubSequence ≤ K) :
    (∀ m', m.AdvanceSubSequence = (m', .ok true) →
      m'.currentSubSequence =
        if m.currentSubSequence < K then m.currentSubSequence + 1 else 1) ∧
    (∀ m', Advances w m K m' → m'.currentSubSequence = m.currentSubSequence) := by
  constructor
  · intro m' h
    obtain ⟨hn, -, -, -⟩ := AdvanceSubSequence_true m m' h
    rw [hn, hcount]
    split_ifs <;> omega
  · intro m' h
    have hpos : 0 < m.subSequenceCount := by rw [hcount]; exact_mod_cast hK
    obtain ⟨-, hcur⟩ := Advances_cursor w K m m' h hpos h1 (by rw [hcount]; exact h2)
    rw [hcur, hcount, Int.add_emod_self]
    rw [Int.emod_eq_of_lt (by omega) (by omega)]
    ring

theorem exampleSingle_advances :
    Advances exampleEmptyWorld exampleSingle 1 exampleSingle :=
  Advances.advance 0 exampleSingle exampleSingle Advances.start rfl

/-- Witness of C13 on `exampleSingle` (`K = 1`, `S = 1`), which advances onto itself. -/
theorem playback_ring_witness :
    1 ≤ 1 ∧ exampleSingle.subSequenceCount = ((1 : ℕ) : ℤ) ∧
    1 ≤ exampleSingle.currentSubSequence ∧ exampleSingle.currentSubSequence ≤ ((1 : ℕ) : ℤ) ∧
    Advances exampleEmptyWorld exampleSingle 1 exampleSingle ∧
    (∀ m', exampleSingle.AdvanceSubSequence = (m', .ok true) →
      m'.currentSubSequence =
        if exampleSingle.currentSubSequence < ((1 : ℕ) : ℤ) then
          exampleSingle.currentSubSequence + 1 else 1) ∧
    (∀ m', Advances exampleEmptyWorld exampleSingle 1 m' →
      m'.currentSubSequence = exampleSingle.currentSubSequence) :=
  ⟨by decide, rfl, by decide, by decide, exampleSingle_advances,
    playback_ring exampleEmptyWorld exampleSingle 1 (by decide) rfl (by decide) (by decide)⟩

end Playback

namespace Playback
open Eigen Storage TVMDecoder

/-- C14 (code): on `exampleThreeActive` (cursor 1 of 5, `preLoad = 1`, active decoders 2, 3,
4 with 2 decoded) `AdvanceSubSequence` returns true with the cursor at 2 and leaves the
decoders 2 and 4 active: after erasing decoder 3 the scan steps over decoder 4, which is
outside the window. -/
theorem advance_keeps_decoder_outside_window :
    exampleThreeActive.AdvanceSubSequence.2 = .ok true ∧
    exampleThreeActive.AdvanceSubSequence.1.currentSubSequence = 2 ∧
    exampleThreeActive.AdvanceSubSequence.1.preLoad = 1 ∧
    exampleThreeActive.AdvanceSubSequence.1.subSequenceCount = 5 ∧
    (exampleThreeActive.AdvanceSubSequence.1.activeDecoders.map fun d => d.GetName) =
      ["2", "4"] ∧
    stoi "4" = .ok 4 ∧
    shouldKeep exampleThreeActive.AdvanceSubSequence.1 4 = false :=
  ⟨rfl, rfl, rfl, rfl, by decide, rfl, by decide⟩

/-- C16, as stated, fails: with no active decoder `fetchFrame` throws, and with the current
decoder active but not decoded (`exampleConstructed`) it throws as well; neither returns an
empty vector. -/
theorem fetchFrame_throws_when_not_ready :
    (PlaybackManager.new exampleEmptyWorld "root" 0 0).1.activeDecoders.length = 0 ∧
    ((PlaybackManager.new exampleEmptyWorld "root" 0 0).1.fetchFrame 0).2 =
      .error (.runtime_error "No active decoders") ∧
    (exampleConstructed.activeDecoders.map fun d => (d.GetName, d.IsDecoded)) =
      [("1", false)] ∧
    exampleConstructed.currentSubSequence = 1 ∧
    (exampleConstructed.fetchFrame 0).2 =
      .error (.runtime_error "Sequence hasn't been loaded yet.") :=
  ⟨rfl, rfl, by decide, rfl, rfl⟩

/-- C16, amended: `fetchFrame(t)` leaves the manager unchanged; it throws
`runtime_error("No active decoders")` when the active list is empty; with a non-empty list it
returns an empty vector when no active decoder is named `currentSubSequence`, and otherwise
ends exactly as `ApplyDisplacementToFrame(t)` of the first such decoder does, which throws
"Sequence hasn't been loaded yet." when that decoder is not decoded. -/
theorem fetchFrame_outcomes (m : PlaybackManager) (t : ℤ) :
    (m.fetchFrame t).1 = m ∧
    (m.activeDecoders = [] →
      (m.fetchFrame t).2 = .error (.runtime_error "No active decoders")) ∧
    (m.activeDecoders ≠ [] →
      findDecoder m.activeDecoders (to_string m.currentSubSequence) = none →
      (m.fetchFrame t).2 = .ok []) ∧
    (∀ d, m.activeDecoders ≠ [] →
      findDecoder m.activeDecoders (to_string m.currentSubSequence) = some d →
      (m.fetchFrame t).2 = (d.ApplyDisplacementToFrame t).2 ∧
      (d.IsDecoded = false →
        (m.fetchFrame t).2 = .error (.runtime_error "Sequence hasn't been loaded yet."))) := by
  refine ⟨fetchFrame_state m t, ?_, ?_, ?_⟩
  · intro h
    simp [PlaybackManager.fetchFrame, h]
  · intro h hf
    have : m.activeDecoders.isEmpty = false := by
      cases hl : m.activeDecoders with
      | nil => exact absurd hl h
      | cons a l => rfl
    simp [PlaybackManager.fetchFrame, this, hf]
  · intro d h hf
    have : m.activeDecoders.isEmpty = false := by
      cases hl : m.activeDecoders with
      | nil => exact absurd hl h
      | cons a l => rfl
    have hres : (m.fetchFrame t).2 = (d.ApplyDisplacementToFrame t).2 := by
      simp [PlaybackManager.fetchFrame, this, hf]
    refine ⟨hres, fun hd => ?_⟩
    rw [hres]
    exact (ApplyDisplacementToFrame_notReady_iff d t).mpr hd

/-- Witness of the amended C16 on `exampleSingle`, whose current decoder is `exampleDecoded`. -/
theorem fetchFrame_outcomes_witness :
    exampleSingle.activeDecoders ≠ [] ∧
    findDecoder exampleSingle.activeDecoders (to_string exampleSingle.currentSubSequence) =
      some exampleDecoded ∧
    (exampleSingle.fetchFrame 1).1 = exampleSingle ∧
    (exampleSingle.fetchFrame 1).2 = (exampleDecoded.ApplyDisplacementToFrame 1).2 :=
  ⟨by simp [exampleSingle], rfl, (fetchFrame_outcomes exampleSingle 1).1,
    ((fetchFrame_outcomes exampleSingle 1).2.2.2 exampleDecoded (by simp [exampleSingle])
      rfl).1⟩

/-- C19 (code): `exampleConstructed` has two subsequences and decoder 1 active;
`LoadSubSequence(-1)` is not refused, it appends a decoder named -1, and `LoadSubSequence(0)`
appends a decoder named 0. -/
theorem load_accepts_index_below_range :
    exampleConstructed.subSequenceCount = 2 ∧
    (exampleConstructed.activeDecoders.map fun d => d.GetName) = ["1"] ∧
    (exampleConstructed.LoadSubSequence exampleEmptyWorld (-1)).2 = .ok () ∧
    ((exampleConstructed.LoadSubSequence exampleEmptyWorld (-1)).1.activeDecoders.map
      fun d => d.GetName) = ["1", "-1"] ∧
    ((exampleConstructed.LoadSubSequence exampleEmptyWorld 0).1.activeDecoders.map
      fun d => d.GetName) = ["1", "0"] :=
  ⟨rfl, by decide, rfl, by decide, by decide⟩

/-- C20 (code): on `exampleBeyondCount` (one subsequence, an active loaded decoder named 2)
`DecodeSubSequence(2)` is not refused, it decodes that decoder; and on `exampleZeroLoaded`
(one subsequence, an active loaded decoder named 0) `DecodeSubSequence(0)` decodes the
decoder named 0. -/
theorem decode_accepts_index_out_of_range :
    exampleBeyondCount.subSequenceCount = 1 ∧
    (exampleBeyondCount.activeDecoders.map fun d => (d.GetName, d.IsDecoded)) =
      [("2", false)] ∧
    (exampleBeyondCount.DecodeSubSequence exampleEmptyWorld 2).2 = .ok () ∧
    ((exampleBeyondCount.DecodeSubSequence exampleEmptyWorld 2).1.activeDecoders.map
      fun d => (d.GetName, d.IsDecoded)) = [("2", true)] ∧
    exampleZeroLoaded.subSequenceCount = 1 ∧
    (exampleZeroLoaded.activeDecoders.map fun d => (d.GetName, d.IsDecoded, d.dHat.rows)) =
      [("0", false, 101)] ∧
    (exampleZeroLoaded.DecodeSubSequence exampleZeroWorld 0).2 = .ok () ∧
    ((exampleZeroLoaded.DecodeSubSequence exampleZeroWorld 0).1.activeDecoders.map
      fun d => (d.GetName, d.IsDecoded)) = [("0", true)] :=
  ⟨rfl, by decide, rfl, by decide, rfl, by decide, rfl, by decide⟩

end Playback

namespace TVMDecoder
open Eigen Storage

theorem loadBlock_name (lib : Library) (disk : Disk) (d : Decoder) (path : String) :
    (d.loadBlock lib disk path).1.decoderName = d.decoderName := by
  unfold Decoder.loadBlock
  dsimp only
  repeat' split
  all_goals rfl

theorem LoadSequence_state (lib : Library) (disk : Disk) (d : Decoder) (path : String) :
    (d.LoadSequence lib disk path).1 = (d.loadBlock lib disk path).1 := by
  unfold Decoder.LoadSequence
  split
  · next d' e h =>
    rw [h]
    split <;> rfl
  · next d' u h => rw [h]

theorem LoadSequence_name (lib : Library) (disk : Disk) (d : Decoder) (path : String) :
    (d.LoadSequence lib disk path).1.decoderName = d.decoderName := by
  rw [LoadSequence_state, loadBlock_name]

end TVMDecoder

namespace Playback
open Eigen Storage TVMDecoder

theorem new_current (w : World) (path : String) (memLoad decodeLoad : ℤ) (m : PlaybackManager)
    (h : PlaybackManager.new w path memLoad decodeLoad = (m, .ok ())) :
    m.currentSubSequence = 1 := by
  unfold PlaybackManager.new at h
  dsimp only at h
  split at h
  · exact absurd (congrArg Prod.snd h) (by simp)
  · have h1 := congrArg Prod.fst h
    simp only at h1
    rw [← h1]
    split <;> rfl

/-- C17, as stated, fails: `exampleTwoLoads` is reached from the constructor by one
`LoadSubSequence` call and has two active decoders with `preLoad = 1`; and the manager
constructed on a directory without subdirectories has `currentSubSequence = 1` above
`subSequenceCount = 0`. -/
theorem reachable_exceeds_preLoad :
    Reachable exampleEmptyWorld exampleTwoLoads ∧
    exampleTwoLoads.preLoad = 1 ∧
    exampleTwoLoads.activeDecoders.length = 2 ∧
    Reachable ⟨exampleHost, exampleLibrary, exampleBadDeltaDisk⟩
      (PlaybackManager.new ⟨exampleHost, exampleLibrary, exampleBadDeltaDisk⟩ "seq" 1 0).1 ∧
    (PlaybackManager.new ⟨exampleHost, exampleLibrary, exampleBadDeltaDisk⟩
      "seq" 1 0).1.currentSubSequence = 1 ∧
    (PlaybackManager.new ⟨exampleHost, exampleLibrary, exampleBadDeltaDisk⟩
      "seq" 1 0).1.subSequenceCount = 0 :=
  ⟨Reachable.other exampleConstructed exampleTwoLoads
      (Reachable.construct "root" 1 0 exampleConstructed rfl)
      (OtherCall.load exampleConstructed exampleTwoLoads 2 rfl),
    rfl, rfl, Reachable.construct "seq" 1 0 _ rfl, rfl, rfl⟩

/-- C17, amended: in every state reachable from the constructor by `AdvanceSubSequence`,
`LoadSubSequence`, `DecodeSubSequence` and `fetchFrame` calls that return,
`1 ≤ currentSubSequence`, and `currentSubSequence ≤ subSequenceCount` when the sequence has
at least one subsequence. The number of active decoders is not bounded by `preLoad`. -/
theorem reachable_cursor_in_range (w : World) (m : PlaybackManager) (h : Reachable w m) :
    1 ≤ m.currentSubSequence ∧
    (1 ≤ m.subSequenceCount → m.currentSubSequence ≤ m.subSequenceCount) := by
  induction h with
  | construct path memLoad decodeLoad m h =>
    rw [new_current w path memLoad decodeLoad m h]
    exact ⟨le_refl 1, fun h => h⟩
  | advance m m' _ h ih =>
    obtain ⟨hcur, hcount, -, -⟩ := AdvanceSubSequence_true m m' h
    rw [hcur, hcount]
    obtain ⟨ih1, ih2⟩ := ih
    split
    · exact ⟨le_refl 1, fun h => h⟩
    · exact ⟨by omega, fun _ => by omega⟩
  | other m m' _ h ih =>
    have := OtherCall_fields w m m' h
    rw [this]
    exact ih

/-- Witness of the amended C17 on `exampleTwoLoads`. -/
theorem reachable_cursor_in_range_witness :
    Reachable exampleEmptyWorld exampleTwoLoads ∧
    1 ≤ exampleTwoLoads.currentSubSequence ∧
    (1 ≤ exampleTwoLoads.subSequenceCount →
      exampleTwoLoads.currentSubSequence ≤ exampleTwoLoads.subSequenceCount) :=
  ⟨Reachable.other exampleConstructed exampleTwoLoads
      (Reachable.construct "root" 1 0 exampleConstructed rfl)
      (OtherCall.load exampleConstructed exampleTwoLoads 2 rfl),
    reachable_cursor_in_range exampleEmptyWorld exampleTwoLoads
      (Reachable.other exampleConstructed exampleTwoLoads
        (Reachable.construct "root" 1 0 exampleConstructed rfl)
        (OtherCall.load exampleConstructed exampleTwoLoads 2 rfl))⟩

end Playback

namespace Playback
open Eigen Storage TVMDecoder

/-- C18, as stated, fails: on `exampleConstructed` the load of subsequence 2 fails (its
delta file cannot be opened), yet `LoadSubSequence(2)` leaves a decoder named 2 with nothing
loaded in the active list; a later `LoadSubSequence(2)`, on a disk from which subsequence 2
loads, changes nothing. -/
theorem failed_load_leaves_decoder_active :
    ((Decoder.new "2").loadBlock exampleLibrary exampleEmptyDisk "root/subsequence_002").2 =
      .error (.runtime_error "Failed to open binary displacement file.") ∧
    (exampleConstructed.activeDecoders.map fun d => d.GetName) = ["1"] ∧
    (exampleTwoLoads.activeDecoders.map
      fun d => (d.GetName, d.dHat.rows, d.decodedReferenceMesh.vertices.length)) =
      [("1", 0, 0), ("2", 0, 0)] ∧
    ((Decoder.new "2").LoadSequence exampleLibrary exampleSecondDisk
      "root/subsequence_002").1.dHat.rows = 101 ∧
    exampleTwoLoads.LoadSubSequence exampleSecondWorld 2 = (exampleTwoLoads, .ok ()) :=
  ⟨rfl, by decide, by decide, rfl, rfl⟩

/-- C18, amended: for `i ≤ subSequenceCount` with no active decoder named `i`,
`LoadSubSequence(i)` changes only the active list, to which it appends the decoder for `i`
as `LoadSequence` leaves it, whether or not the load succeeded; the decoders active before
keep their places. After that, `LoadSubSequence(i)` changes nothing, whatever the disk
holds. -/
theorem load_appends_decoder_and_is_not_repeated (w : World) (m : PlaybackManager) (i : ℤ)
    (hle : i ≤ m.subSequenceCount)
    (hnew : (m.activeDecoders.any fun d => d.GetName = to_string i) = false) :
    (m.LoadSubSequence w i).1 =
      { m with
        activeDecoders := m.activeDecoders ++
          [((Decoder.new (to_string i)).LoadSequence w.lib w.disk
            (joinPath m.sequenceDirectory (subFolderName i))).1] } ∧
    ∀ w2 : World,
      (m.LoadSubSequence w i).1.LoadSubSequence w2 i = ((m.LoadSubSequence w i).1, .ok ()) := by
  have h1 : (m.LoadSubSequence w i).1 =
      { m with
        activeDecoders := m.activeDecoders ++
          [((Decoder.new (to_string i)).LoadSequence w.lib w.disk
            (joinPath m.sequenceDirectory (subFolderName i))).1] } := by
    unfold PlaybackManager.LoadSubSequence
    rw [if_neg (not_lt.mpr hle), hnew]
    rfl
  refine ⟨h1, fun w2 => ?_⟩
  rw [h1]
  unfold PlaybackManager.LoadSubSequence
  have hname : ((Decoder.new (to_string i)).LoadSequence w.lib w.disk
      (joinPath m.sequenceDirectory (subFolderName i))).1.GetName = to_string i := by
    unfold Decoder.GetName
    rw [LoadSequence_name]
    rfl
  rw [if_neg (not_lt.mpr hle)]
  simp [hname]

/-- Witness of the amended C18 on `exampleConstructed` and subsequence 2. -/
theorem load_appends_decoder_and_is_not_repeated_witness :
    (2 : ℤ) ≤ exampleConstructed.subSequenceCount ∧
    (exampleConstructed.activeDecoders.any fun d => d.GetName = to_string (2 : ℤ)) = false ∧
    (exampleConstructed.LoadSubSequence exampleEmptyWorld 2).1 =
      { exampleConstructed with
        activeDecoders := exampleConstructed.activeDecoders ++
          [((Decoder.new (to_string (2 : ℤ))).LoadSequence exampleEmptyWorld.lib
            exampleEmptyWorld.disk
            (joinPath exampleConstructed.sequenceDirectory (subFolderName 2))).1] } ∧
    ∀ w2 : World,
      (exampleConstructed.LoadSubSequence exampleEmptyWorld 2).1.LoadSubSequence w2 2 =
        ((exampleConstructed.LoadSubSequence exampleEmptyWorld 2).1, .ok ()) :=
  ⟨by decide, rfl,
    load_appends_decoder_and_is_not_repeated exampleEmptyWorld exampleConstructed 2
      (by decide) rfl⟩

end Playback

namespace TVMDecoder
open Eigen Storage Playback

end TVMDecoder
namespace MatrixIO
open Eigen Storage

theorem mapM_stod_ok (lib : Library) (filename : String) (ts : List String)
    (h : ∀ t ∈ ts, ∃ v, lib.stod t = .ok v) :
    (ts.mapM (parseToken lib filename)) =
      .ok (ts.map (tokenValue lib)) := by
  induction ts with
  | nil => rfl
  | cons t ts ih =>
    obtain ⟨v, hv⟩ := h t (List.mem_cons_self _ _)
    rw [List.mapM_cons, ih fun t ht => h t (List.mem_cons_of_mem _ ht)]
    simp only [parseToken, hv, tokenValue, List.map_cons]
    rfl

theorem mapM_stod_length (lib : Library) (filename : String) (ts : List String)
    (row : List ℚ)
    (h : (ts.mapM (parseToken lib filename)) =
      .ok row) : row.length = ts.length := by
  induction ts generalizing row with
  | nil =>
    simp only [List.mapM_nil] at h
    cases h
    rfl
  | cons t ts ih =>
    rw [List.mapM_cons] at h
    cases hs : parseToken lib filename t with
    | error e =>
      rw [hs] at h
      cases h
    | ok v =>
      rw [hs] at h
      generalize hm : (ts.mapM (parseToken lib filename)) = res at h
      cases res with
      | error e => cases h
      | ok row2 =>
        cases h
        simp [ih row2 hm]


theorem loadtxtLine_of_parsed (lib : Library) (filename : String) (rows : List (List ℚ))
    (line : String) (h : ∀ t ∈ rowTokens line, ∃ v, lib.stod t = .ok v) :
    loadtxtLine lib filename rows line =
      if rowTokens line = [] then .ok rows
      else if rows ≠ [] ∧ (rowTokens line).length ≠ (rows.headD []).length then
        .error (.runtime_error ("Inconsistent column count in: " ++ filename))
      else .ok (rows ++ [(rowTokens line).map (tokenValue lib)]) := by
  unfold loadtxtLine
  simp only []
  have := mapM_stod_ok lib filename (rowTokens line) h
  unfold rowTokens at this ⊢
  rw [this]
  simp only [List.map_eq_nil_iff, List.length_map]

theorem loadtxtLine_ok (lib : Library) (filename : String) (rows rows2 : List (List ℚ))
    (line : String) (h : loadtxtLine lib filename rows line = .ok rows2) :
    (rowTokens line = [] ∧ rows2 = rows) ∨
    (rowTokens line ≠ [] ∧ (rows = [] ∨ (rowTokens line).length = (rows.headD []).length) ∧
      ∃ row, row.length = (rowTokens line).length ∧ rows2 = rows ++ [row]) := by
  unfold loadtxtLine at h
  simp only [] at h
  split at h
  · cases h
  · next row hrow =>
    have hlen := mapM_stod_length lib filename _ row hrow
    have hlen2 : row.length = (rowTokens line).length := hlen
    by_cases hr : row = []
    · rw [if_pos hr] at h
      left
      refine ⟨?_, ?_⟩
      · rw [hr] at hlen2
        exact List.length_eq_zero.mp hlen2.symm
      · cases h
        rfl
    · rw [if_neg hr] at h
      right
      have hne : rowTokens line ≠ [] := by
        intro h0
        rw [h0] at hlen2
        exact hr (List.length_eq_zero.mp hlen2)
      split at h
      · cases h
      · next hcond =>
        cases h
        refine ⟨hne, ?_, row, hlen2, rfl⟩
        by_cases hrows : rows = []
        · exact Or.inl hrows
        · right
          rw [← hlen2]
          by_contra hc
          exact hcond ⟨hrows, hc⟩

/-- What a successful run of the line loop of `loadtxt` says about the lines. -/
theorem foldlM_loadtxtLine_ok (lib : Library) (filename : String) (ls : List String) :
    ∀ rows0 rows : List (List ℚ), ls.foldlM (loadtxtLine lib filename) rows0 = .ok rows →
      (rows0 ≠ [] → rows.headD [] = rows0.headD []) ∧
      (∀ l ∈ ls, rowTokens l ≠ [] → (rowTokens l).length = (rows.headD []).length) := by
  induction ls with
  | nil =>
    intro rows0 rows h
    simp only [List.foldlM_nil] at h
    cases h
    exact ⟨fun _ => rfl, fun l hl => absurd hl (List.not_mem_nil l)⟩
  | cons l ls ih =>
    intro rows0 rows h
    rw [List.foldlM_cons] at h
    cases hstep : loadtxtLine lib filename rows0 l with
    | error e =>
      rw [hstep] at h
      cases h
    | ok rows1 =>
      rw [hstep] at h
      obtain ⟨ih1, ih2⟩ := ih rows1 rows h
      rcases loadtxtLine_ok lib filename rows0 rows1 l hstep with
        ⟨hblank, rfl⟩ | ⟨hne, hcount, row, hrow, rfl⟩
      · refine ⟨ih1, ?_⟩
        intro l2 hl2 hne
        rcases List.mem_cons.mp hl2 with rfl | hmem
        · exact absurd hblank hne
        · exact ih2 l2 hmem hne
      · have hhead : rows.headD [] = (rows0 ++ [row]).headD [] := ih1 (by simp)
        refine ⟨?_, ?_⟩
        · intro h0
          rw [hhead]
          cases rows0 with
          | nil => exact absurd rfl h0
          | cons r rs => rfl
        · intro l2 hl2 hne2
          rcases List.mem_cons.mp hl2 with rfl | hmem
          · rw [hhead]
            rcases hcount with rfl | hc
            · simp [hrow]
            · rw [hc]
              cases rows0 with
              | nil => simp [hrow] at hc ⊢; exact hc.symm ▸ rfl
              | cons r rs => rfl
          · exact ih2 l2 hmem hne2

/-- The line loop of `loadtxt` on lines whose tokens all parse and whose non-blank lines have
`c` tokens each. -/
theorem foldlM_loadtxtLine_of_parsed (lib : Library) (filename : String) (c : ℕ)
    (ls : List String) :
    ∀ rows0 : List (List ℚ), (∀ r ∈ rows0, r.length = c) →
      (∀ l ∈ ls, ∀ t ∈ rowTokens l, ∃ v, lib.stod t = .ok v) →
      (∀ l ∈ ls, rowTokens l ≠ [] → (rowTokens l).length = c) →
      ls.foldlM (loadtxtLine lib filename) rows0 =
        .ok (rows0 ++ (ls.filter fun l => rowTokens l ≠ []).map
          fun l => (rowTokens l).map (tokenValue lib)) := by
  induction ls with
  | nil =>
    intro rows0 _ _ _
    simp only [List.foldlM_nil, List.filter_nil, List.map_nil, List.append_nil]
    rfl
  | cons l ls ih =>
    intro rows0 hrows hparse hcount
    rw [List.foldlM_cons, loadtxtLine_of_parsed lib filename rows0 l
      (hparse l (List.mem_cons_self _ _))]
    have hparse2 : ∀ l2 ∈ ls, ∀ t ∈ rowTokens l2, ∃ v, lib.stod t = .ok v :=
      fun l2 h2 => hparse l2 (List.mem_cons_of_mem _ h2)
    have hcount2 : ∀ l2 ∈ ls, rowTokens l2 ≠ [] → (rowTokens l2).length = c :=
      fun l2 h2 => hcount l2 (List.mem_cons_of_mem _ h2)
    by_cases hb : rowTokens l = []
    · rw [if_pos hb]
      have := ih rows0 hrows hparse2 hcount2
      simp only [hb, ne_eq, not_true_eq_false, decide_False, Bool.false_eq_true,
        not_false_eq_true, List.filter_cons_of_neg]
      exact this
    · rw [if_neg hb]
      have hc := hcount l (List.mem_cons_self _ _) hb
      have hcond : ¬ (rows0 ≠ [] ∧ (rowTokens l).length ≠ (rows0.headD []).length) := by
        rintro ⟨hne, hlen⟩
        apply hlen
        cases rows0 with
        | nil => exact absurd rfl hne
        | cons r rs =>
          rw [hc]
          exact (hrows r (List.mem_cons_self _ _)).symm
      rw [if_neg hcond]
      have hrows2 : ∀ r ∈ rows0 ++ [(rowTokens l).map (tokenValue lib)], r.length = c := by
        intro r hr
        rcases List.mem_append.mp hr with h1 | h1
        · exact hrows r h1
        · rw [List.mem_singleton.mp h1, List.length_map, hc]
      have := ih _ hrows2 hparse2 hcount2
      simp only [hb, ne_eq, not_false_eq_true, decide_True, List.filter_cons_of_pos,
        List.map_cons]
      rw [List.append_assoc] at this
      exact this


/-- A token `parseToken` accepts is a token `std::stod` accepts. -/
theorem parseToken_ok (lib : Library) (filename token : String) (v : ℚ)
    (h : parseToken lib filename token = .ok v) : lib.stod token = .ok v := by
  unfold parseToken at h
  split at h
  · next val hval =>
    cases h
    exact hval
  · cases h
  · cases h

theorem mapM_stod_parsed (lib : Library) (filename : String) (ts : List String)
    (row : List ℚ) (h : (ts.mapM (parseToken lib filename)) = .ok row) :
    ∀ t ∈ ts, ∃ v, lib.stod t = .ok v := by
  induction ts generalizing row with
  | nil =>
    intro t ht
    exact absurd ht (List.not_mem_nil t)
  | cons t0 ts ih =>
    rw [List.mapM_cons] at h
    cases hs : parseToken lib filename t0 with
    | error e =>
      rw [hs] at h
      cases h
    | ok v =>
      rw [hs] at h
      generalize hm : (ts.mapM (parseToken lib filename)) = res at h
      cases res with
      | error e => cases h
      | ok row2 =>
        intro t ht
        rcases List.mem_cons.mp ht with rfl | ht2
        · exact ⟨v, parseToken_ok lib filename _ v hs⟩
        · exact ih row2 hm t ht2

/-- A line `loadtxtLine` accepts holds only tokens `std::stod` accepts. -/
theorem loadtxtLine_parsed (lib : Library) (filename : String) (rows rows2 : List (List ℚ))
    (line : String) (h : loadtxtLine lib filename rows line = .ok rows2) :
    ∀ t ∈ rowTokens line, ∃ v, lib.stod t = .ok v := by
  unfold loadtxtLine at h
  simp only [] at h
  unfold rowTokens
  generalize hm : ((tokens (if line.toList.getLast? = some '\r' then
    String.mk line.toList.dropLast else line)).mapM (parseToken lib filename)) = res at h
  cases res with
  | error e => cases h
  | ok row => exact mapM_stod_parsed lib filename _ row hm

/-- A successful run of the line loop of `loadtxt` met only tokens `std::stod` accepts. -/
theorem foldlM_loadtxtLine_parsed (lib : Library) (filename : String) (ls : List String) :
    ∀ rows0 rows : List (List ℚ), ls.foldlM (loadtxtLine lib filename) rows0 = .ok rows →
      ∀ l ∈ ls, ∀ t ∈ rowTokens l, ∃ v, lib.stod t = .ok v := by
  induction ls with
  | nil =>
    intro rows0 rows _ l hl
    exact absurd hl (List.not_mem_nil l)
  | cons l0 ls ih =>
    intro rows0 rows h l hl
    rw [List.foldlM_cons] at h
    cases h0 : loadtxtLine lib filename rows0 l0 with
    | error e =>
      rw [h0] at h
      cases h
    | ok rows1 =>
      rw [h0] at h
      rcases List.mem_cons.mp hl with rfl | hl2
      · exact loadtxtLine_parsed lib filename rows0 rows1 _ h0
      · exact ih rows1 rows h l hl2

theorem rowTokens_append_cr (l : String) : rowTokens (l ++ "\r") = tokens l := by
  unfold rowTokens
  have h : (l ++ "\r").toList = l.toList ++ ['\r'] := by
    simp [String.toList, String.data_append]
  rw [h, if_pos (by simp), List.dropLast_concat]
  rfl

/-- C30, as stated, fails: the two lines of `m.txt` on `exampleLetterDisk` are non-blank and
hold two tokens each, yet `loadtxt` returns no matrix: `std::stod` throws on the token `x`
and the load fails with `Invalid double`. -/
theorem loadtxt_rejects_letter_token :
    exampleLetterDisk.lines "m.txt" = some ["1 2", "3 x"] ∧
    (["1 2", "3 x"].map fun l => (rowTokens l).length) = [2, 2] ∧
    exampleStrictLibrary.stod "x" = .error (.invalid_argument "stod") ∧
    loadtxt exampleStrictLibrary exampleLetterDisk "m.txt" =
      .error (.runtime_error "Invalid double in m.txt: x") :=
  ⟨rfl, by decide, rfl, rfl⟩

/-- C30, amended: for a text file that opens, `loadtxt` fails when two non-blank lines have
different numbers of whitespace-separated tokens, fails (`No data found`) when no line has a
token, and fails when `std::stod` throws on a token of some line; otherwise, that is when
there is a non-blank line, every non-blank line has `c` tokens and `std::stod` accepts each
of them, it returns a matrix with one row per non-blank line, in file order, and `c`
columns, whose entries are the values of the tokens. A carriage return that ends a line is
dropped before the line is split. -/
theorem loadtxt_rows (lib : Library) (disk : Disk) (filename : String) (ls : List String)
    (hfile : disk.lines filename = some ls) :
    ((∃ l1 ∈ ls, ∃ l2 ∈ ls, rowTokens l1 ≠ [] ∧ rowTokens l2 ≠ [] ∧
        (rowTokens l1).length ≠ (rowTokens l2).length) →
      ∃ e, loadtxt lib disk filename = .error e) ∧
    ((∀ l ∈ ls, rowTokens l = []) →
      loadtxt lib disk filename = .error (.runtime_error ("No data found in: " ++ filename))) ∧
    ((∃ l ∈ ls, ∃ t ∈ rowTokens l, ∃ e, lib.stod t = .error e) →
      ∃ e, loadtxt lib disk filename = .error e) ∧
    (∀ c, (∃ l ∈ ls, rowTokens l ≠ []) →
      (∀ l ∈ ls, rowTokens l ≠ [] → (rowTokens l).length = c) →
      (∀ l ∈ ls, ∀ t ∈ rowTokens l, ∃ v, lib.stod t = .ok v) →
      ∃ M, loadtxt lib disk filename = .ok M ∧
        M.rows = (ls.filter fun l => rowTokens l ≠ []).length ∧ M.cols = c ∧
        ∀ r k, r < M.rows → k < c →
          lib.stod ((rowTokens ((ls.filter fun l => rowTokens l ≠ []).getD r "")).getD k "") =
            .ok (M.coeff r k)) ∧
    (∀ l : String, rowTokens (l ++ "\r") = tokens l) := by
  refine ⟨?_, ?_, ?_, ?_, rowTokens_append_cr⟩
  · rintro ⟨l1, h1, l2, h2, hn1, hn2, hne⟩
    unfold loadtxt
    simp only [hfile]
    cases hfold : ls.foldlM (loadtxtLine lib filename) [] with
    | error e => exact ⟨e, rfl⟩
    | ok rows =>
      obtain ⟨-, hc⟩ := foldlM_loadtxtLine_ok lib filename ls [] rows hfold
      exact absurd ((hc l1 h1 hn1).trans (hc l2 h2 hn2).symm) hne
  · intro hblank
    have hfold := foldlM_loadtxtLine_of_parsed lib filename 0 ls []
      (fun r hr => absurd hr (List.not_mem_nil r))
      (fun l hl t ht => by rw [hblank l hl] at ht; exact absurd ht (List.not_mem_nil t))
      (fun l hl hne => absurd (hblank l hl) hne)
    have hfilter : (ls.filter fun l => rowTokens l ≠ []) = [] := by
      rw [List.filter_eq_nil_iff]
      intro l hl
      simp [hblank l hl]
    rw [hfilter] at hfold
    unfold loadtxt
    simp only [hfile, hfold, List.map_nil, List.append_nil, if_true]
  · rintro ⟨l, hl, t, ht, e, he⟩
    unfold loadtxt
    simp only [hfile]
    cases hfold : ls.foldlM (loadtxtLine lib filename) [] with
    | error e2 => exact ⟨e2, rfl⟩
    | ok rows =>
      obtain ⟨v, hv⟩ := foldlM_loadtxtLine_parsed lib filename ls [] rows hfold l hl t ht
      rw [hv] at he
      cases he
  · intro c ⟨l0, hl0, hne0⟩ hcount hparse
    have hfold := foldlM_loadtxtLine_of_parsed lib filename c ls []
      (fun r hr => absurd hr (List.not_mem_nil r)) hparse hcount
    rw [List.nil_append] at hfold
    have hmem0 : l0 ∈ ls.filter fun l => rowTokens l ≠ [] :=
      List.mem_filter.mpr ⟨hl0, by simpa using hne0⟩
    have hne : ((ls.filter fun l => rowTokens l ≠ []).map
        fun l => (rowTokens l).map (tokenValue lib)) ≠ [] := by
      intro h
      rw [List.map_eq_nil_iff] at h
      rw [h] at hmem0
      exact absurd hmem0 (List.not_mem_nil l0)
    refine ⟨⟨(((ls.filter fun l => rowTokens l ≠ []).map
        fun l => (rowTokens l).map (tokenValue lib))).length,
      ((((ls.filter fun l => rowTokens l ≠ []).map
        fun l => (rowTokens l).map (tokenValue lib))).headD []).length,
      fun i j => ((((ls.filter fun l => rowTokens l ≠ []).map
        fun l => (rowTokens l).map (tokenValue lib))).getD i []).getD j 0⟩, ?_, ?_, ?_, ?_⟩
    · unfold loadtxt
      simp only [hfile, hfold, if_neg hne]
    · simp only [List.length_map]
    · simp only
      cases hf : ls.filter fun l => rowTokens l ≠ [] with
      | nil =>
        rw [hf] at hmem0
        exact absurd hmem0 (List.not_mem_nil l0)
      | cons l1 rest =>
        have hl1 : l1 ∈ ls.filter fun l => rowTokens l ≠ [] := by
          rw [hf]
          exact List.mem_cons_self _ _
        obtain ⟨hl1a, hl1b⟩ := List.mem_filter.mp hl1
        simp only [List.map_cons, List.headD_cons, List.length_map]
        exact hcount l1 hl1a (by simpa using hl1b)
    · intro r k hr hk
      simp only [List.length_map] at hr
      simp only
      have hlr : (ls.filter fun l => rowTokens l ≠ []).getD r "" ∈
          ls.filter fun l => rowTokens l ≠ [] := by
        rw [List.getD_eq_getElem _ _ hr]
        exact List.getElem_mem _
      obtain ⟨hlr1, hlr2⟩ := List.mem_filter.mp hlr
      have hlen := hcount _ hlr1 (by simpa using hlr2)
      have hk2 : k < (rowTokens ((ls.filter fun l => rowTokens l ≠ []).getD r "")).length := by
        rw [hlen]
        exact hk
      have htok : (rowTokens ((ls.filter fun l => rowTokens l ≠ []).getD r "")).getD k "" ∈
          rowTokens ((ls.filter fun l => rowTokens l ≠ []).getD r "") := by
        rw [List.getD_eq_getElem _ _ hk2]
        exact List.getElem_mem _
      obtain ⟨v, hv⟩ := hparse _ hlr1 _ htok
      rw [hv]
      congr 1
      have e1 : ((ls.filter fun l => rowTokens l ≠ []).map
          fun l => (rowTokens l).map (tokenValue lib)).getD r [] =
          (rowTokens ((ls.filter fun l => rowTokens l ≠ []).getD r "")).map (tokenValue lib) := by
        rw [List.getD_eq_getElem _ _ (by rw [List.length_map]; exact hr), List.getElem_map,
          List.getD_eq_getElem _ _ hr]
      have e2 : ((rowTokens ((ls.filter fun l => rowTokens l ≠ []).getD r "")).map
          (tokenValue lib)).getD k 0 =
          tokenValue lib
            ((rowTokens ((ls.filter fun l => rowTokens l ≠ []).getD r "")).getD k "") := by
        rw [List.getD_eq_getElem _ _ (by rw [List.length_map]; exact hk2), List.getElem_map,
          List.getD_eq_getElem _ _ hk2]
      rw [e1, e2]
      simp only [tokenValue, hv]

theorem exampleTextDisk_tokens_parse :
    ∀ l ∈ ["1 2\r", "", "3 4"], ∀ t ∈ rowTokens l, ∃ v, exampleStrictLibrary.stod t = .ok v := by
  have h1 : rowTokens "1 2\r" = ["1", "2"] := by decide
  have h2 : rowTokens "" = [] := by decide
  have h3 : rowTokens "3 4" = ["3", "4"] := by decide
  intro l hl t ht
  simp only [List.mem_cons, List.mem_singleton, List.not_mem_nil, or_false] at hl
  rcases hl with rfl | rfl | rfl
  · rw [h1] at ht
    simp only [List.mem_cons, List.mem_singleton, List.not_mem_nil, or_false] at ht
    rcases ht with rfl | rfl <;> exact ⟨_, rfl⟩
  · rw [h2] at ht
    exact absurd ht (List.not_mem_nil t)
  · rw [h3] at ht
    simp only [List.mem_cons, List.mem_singleton, List.not_mem_nil, or_false] at ht
    rcases ht with rfl | rfl <;> exact ⟨_, rfl⟩

/-- Witness of the amended C30 on `m.txt` of `exampleTextDisk`, read with `exampleStod`: a
2 x 2 matrix of the numbers the four tokens stand for. -/
theorem loadtxt_rows_witness :
    exampleTextDisk.lines "m.txt" = some ["1 2\r", "", "3 4"] ∧
    (∃ l ∈ ["1 2\r", "", "3 4"], rowTokens l ≠ []) ∧
    (∀ l ∈ ["1 2\r", "", "3 4"], rowTokens l ≠ [] → (rowTokens l).length = 2) ∧
    (∀ l ∈ ["1 2\r", "", "3 4"], ∀ t ∈ rowTokens l,
      ∃ v, exampleStrictLibrary.stod t = .ok v) ∧
    ∃ M, loadtxt exampleStrictLibrary exampleTextDisk "m.txt" = .ok M ∧
      M.rows = (["1 2\r", "", "3 4"].filter fun l => rowTokens l ≠ []).length ∧ M.cols = 2 ∧
      ∀ r k, r < M.rows → k < 2 →
        exampleStrictLibrary.stod
          ((rowTokens ((["1 2\r", "", "3 4"].filter fun l => rowTokens l ≠ []).getD r "")).getD
            k "") = .ok (M.coeff r k) :=
  ⟨rfl, ⟨"3 4", by decide, by decide⟩, by decide, exampleTextDisk_tokens_parse,
    (loadtxt_rows exampleStrictLibrary exampleTextDisk "m.txt" ["1 2\r", "", "3 4"]
      rfl).2.2.2.1 2 ⟨"3 4", by decide, by decide⟩ (by decide) exampleTextDisk_tokens_parse⟩

end MatrixIO

namespace SimpleMesh
open Eigen

theorem length_insertNeighbor (adj : List (List ℤ)) (i x : ℤ) :
    (insertNeighbor adj i x).length = adj.length := by
  unfold insertNeighbor
  split
  · exact List.length_modify _ _ _
  · rfl

theorem mem_insertNeighbor (adj : List (List ℤ)) (i x : ℤ) (k : ℕ) (y : ℤ) :
    y ∈ (insertNeighbor adj i x).getD k [] ↔
      y ∈ adj.getD k [] ∨ (i = k ∧ k < adj.length ∧ y = x) := by
  unfold insertNeighbor
  by_cases hi : 0 ≤ i
  · rw [if_pos hi, List.getD_eq_getElem?_getD, List.getD_eq_getElem?_getD,
      List.getElem?_modify]
    by_cases hk : k < adj.length
    · rw [List.getElem?_eq_getElem hk]
      simp only [Option.map_eq_map, Option.map_some', Option.getD_some]
      by_cases hik : i.toNat = k
      · have hik2 : i = (k : ℤ) := by omega
        rw [if_pos hik]
        by_cases hx : x ∈ adj[k]
        · rw [if_pos hx]
          constructor
          · exact fun h => Or.inl h
          · rintro (h | ⟨-, -, rfl⟩)
            · exact h
            · exact hx
        · rw [if_neg hx, List.mem_append, List.mem_singleton]
          constructor
          · rintro (h | h)
            · exact Or.inl h
            · exact Or.inr ⟨hik2, hk, h⟩
          · rintro (h | ⟨-, -, h⟩)
            · exact Or.inl h
            · exact Or.inr h
      · rw [if_neg hik]
        constructor
        · exact fun h => Or.inl h
        · rintro (h | ⟨h1, -, -⟩)
          · exact h
          · exact absurd (by omega) hik
    · rw [List.getElem?_eq_none (by omega)]
      simp only [Option.map_eq_map, Option.map_none', Option.getD_none, List.not_mem_nil,
        false_or, false_iff, not_and]
      intro _ h
      exact absurd h hk
  · rw [if_neg hi]
    constructor
    · exact fun h => Or.inl h
    · rintro (h | ⟨h1, -, -⟩)
      · exact h
      · exact absurd (by omega) hi

theorem length_addTriangle (adj : List (List ℤ)) (tri : ℤ × ℤ × ℤ) :
    (addTriangle adj tri).length = adj.length := by
  unfold addTriangle
  simp only [length_insertNeighbor]

theorem mem_addTriangle (adj : List (List ℤ)) (tri : ℤ × ℤ × ℤ) (k : ℕ) (y : ℤ) :
    y ∈ (addTriangle adj tri).getD k [] ↔
      y ∈ adj.getD k [] ∨ (k < adj.length ∧ inserts tri k y) := by
  unfold addTriangle inserts
  simp only [mem_insertNeighbor, length_insertNeighbor]
  tauto

theorem length_foldl_addTriangle (tris : List (ℤ × ℤ × ℤ)) :
    ∀ adj : List (List ℤ), (tris.foldl addTriangle adj).length = adj.length := by
  induction tris with
  | nil => exact fun _ => rfl
  | cons t ts ih =>
    intro adj
    rw [List.foldl_cons, ih, length_addTriangle]

theorem mem_foldl_addTriangle (tris : List (ℤ × ℤ × ℤ)) (k : ℕ) (y : ℤ) :
    ∀ adj : List (List ℤ), y ∈ (tris.foldl addTriangle adj).getD k [] ↔
      y ∈ adj.getD k [] ∨ (k < adj.length ∧ ∃ t ∈ tris, inserts t k y) := by
  induction tris with
  | nil =>
    intro adj
    simp
  | cons t ts ih =>
    intro adj
    rw [List.foldl_cons, ih, mem_addTriangle, length_addTriangle]
    constructor
    · rintro ((h | ⟨hk, h⟩) | ⟨hk, t2, ht2, h⟩)
      · exact Or.inl h
      · exact Or.inr ⟨hk, t, List.mem_cons_self _ _, h⟩
      · exact Or.inr ⟨hk, t2, List.mem_cons_of_mem _ ht2, h⟩
    · rintro (h | ⟨hk, t2, ht2, h⟩)
      · exact Or.inl (Or.inl h)
      · rcases List.mem_cons.mp ht2 with rfl | hmem
        · exact Or.inl (Or.inr ⟨hk, h⟩)
        · exact Or.inr ⟨hk, t2, hmem, h⟩

/-- The neighbours `ComputeAdjacencyList` leaves for vertex `k`. -/
theorem mem_ComputeAdjacencyList (mesh : Mesh) (k : ℕ) (y : ℤ) :
    y ∈ mesh.ComputeAdjacencyList.adjacency_list.getD k [] ↔
      k < mesh.vertices.length ∧ ∃ t ∈ mesh.triangles, inserts t k y := by
  unfold Mesh.ComputeAdjacencyList
  simp only
  rw [mem_foldl_addTriangle, List.length_replicate]
  constructor
  · rintro (h | h)
    · rw [List.getD_eq_getElem?_getD] at h
      by_cases hk : k < mesh.vertices.length
      · rw [List.getElem?_eq_getElem (by simpa using hk)] at h
        simp at h
      · rw [List.getElem?_eq_none (by simpa using hk)] at h
        simp at h
    · exact h
  · exact fun h => Or.inr h

theorem inserts_iff_corners (t : ℤ × ℤ × ℤ) (i j : ℤ)
    (hd : t.1 ≠ t.2.1 ∧ t.2.1 ≠ t.2.2 ∧ t.2.2 ≠ t.1) :
    inserts t i j ↔
      (t.1 = i ∨ t.2.1 = i ∨ t.2.2 = i) ∧ (t.1 = j ∨ t.2.1 = j ∨ t.2.2 = j) ∧ i ≠ j := by
  obtain ⟨h1, h2, h3⟩ := hd
  unfold inserts
  constructor
  · rintro (⟨rfl, rfl | rfl⟩ | ⟨rfl, rfl | rfl⟩ | ⟨rfl, rfl | rfl⟩)
    · exact ⟨Or.inl rfl, Or.inr (Or.inl rfl), h1⟩
    · exact ⟨Or.inl rfl, Or.inr (Or.inr rfl), fun h => h3 h.symm⟩
    · exact ⟨Or.inr (Or.inl rfl), Or.inl rfl, fun h => h1 h.symm⟩
    · exact ⟨Or.inr (Or.inl rfl), Or.inr (Or.inr rfl), h2⟩
    · exact ⟨Or.inr (Or.inr rfl), Or.inl rfl, h3⟩
    · exact ⟨Or.inr (Or.inr rfl), Or.inr (Or.inl rfl), fun h => h2 h.symm⟩
  · rintro ⟨hi, hj, hne⟩
    rcases hi with rfl | rfl | rfl <;> rcases hj with rfl | rfl | rfl
    · exact absurd rfl hne
    · exact Or.inl ⟨rfl, Or.inl rfl⟩
    · exact Or.inl ⟨rfl, Or.inr rfl⟩
    · exact Or.inr (Or.inl ⟨rfl, Or.inl rfl⟩)
    · exact absurd rfl hne
    · exact Or.inr (Or.inl ⟨rfl, Or.inr rfl⟩)
    · exact Or.inr (Or.inr ⟨rfl, Or.inl rfl⟩)
    · exact Or.inr (Or.inr ⟨rfl, Or.inr rfl⟩)
    · exact absurd rfl hne

theorem inserts_symm (t : ℤ × ℤ × ℤ) (i j : ℤ) (h : inserts t i j) : inserts t j i := by
  unfold inserts at h ⊢
  rcases h with ⟨rfl, rfl | rfl⟩ | ⟨rfl, rfl | rfl⟩ | ⟨rfl, rfl | rfl⟩
  · exact Or.inr (Or.inl ⟨rfl, Or.inl rfl⟩)
  · exact Or.inr (Or.inr ⟨rfl, Or.inl rfl⟩)
  · exact Or.inl ⟨rfl, Or.inl rfl⟩
  · exact Or.inr (Or.inr ⟨rfl, Or.inr rfl⟩)
  · exact Or.inl ⟨rfl, Or.inr rfl⟩
  · exact Or.inr (Or.inl ⟨rfl, Or.inr rfl⟩)

/-- C22: for a mesh of `n` vertices whose triangle indices all lie in `[0, n)`, the three of
each triangle pairwise different, after `ComputeAdjacencyList` `j` is in `N(i)` exactly when
some triangle has both `i` and `j` among its corners and `i ≠ j`; `N` is symmetric; and a mesh
with the same number of vertices and the same set of triangles (in any order, with any
repetitions) gets the same neighbours. -/
theorem adjacency_iff_shared_triangle (mesh : Mesh)
    (_hrange : ∀ t ∈ mesh.triangles,
      (0 ≤ t.1 ∧ t.1 < mesh.vertices.length) ∧ (0 ≤ t.2.1 ∧ t.2.1 < mesh.vertices.length) ∧
        (0 ≤ t.2.2 ∧ t.2.2 < mesh.vertices.length))
    (hdistinct : ∀ t ∈ mesh.triangles, t.1 ≠ t.2.1 ∧ t.2.1 ≠ t.2.2 ∧ t.2.2 ≠ t.1) :
    (∀ (i : ℕ) (j : ℤ), i < mesh.vertices.length →
      (j ∈ mesh.ComputeAdjacencyList.adjacency_list.getD i [] ↔
        ∃ t ∈ mesh.triangles, (t.1 = i ∨ t.2.1 = i ∨ t.2.2 = i) ∧
          (t.1 = j ∨ t.2.1 = j ∨ t.2.2 = j) ∧ (i : ℤ) ≠ j)) ∧
    (∀ i j : ℕ, i < mesh.vertices.length → j < mesh.vertices.length →
      ((j : ℤ) ∈ mesh.ComputeAdjacencyList.adjacency_list.getD i [] ↔
        (i : ℤ) ∈ mesh.ComputeAdjacencyList.adjacency_list.getD j [])) ∧
    (∀ mesh2 : Mesh, mesh2.vertices.length = mesh.vertices.length →
      (∀ t, t ∈ mesh2.triangles ↔ t ∈ mesh.triangles) →
      ∀ (i : ℕ) (j : ℤ), j ∈ mesh2.ComputeAdjacencyList.adjacency_list.getD i [] ↔
        j ∈ mesh.ComputeAdjacencyList.adjacency_list.getD i []) := by
  refine ⟨?_, ?_, ?_⟩
  · intro i j hi
    rw [mem_ComputeAdjacencyList]
    constructor
    · rintro ⟨-, t, ht, h⟩
      exact ⟨t, ht, (inserts_iff_corners t i j (hdistinct t ht)).mp h⟩
    · rintro ⟨t, ht, h⟩
      exact ⟨hi, t, ht, (inserts_iff_corners t i j (hdistinct t ht)).mpr h⟩
  · intro i j hi hj
    rw [mem_ComputeAdjacencyList, mem_ComputeAdjacencyList]
    constructor
    · rintro ⟨-, t, ht, h⟩
      exact ⟨hj, t, ht, inserts_symm t i j h⟩
    · rintro ⟨-, t, ht, h⟩
      exact ⟨hi, t, ht, inserts_symm t j i h⟩
  · intro mesh2 hn htri i j
    rw [mem_ComputeAdjacencyList, mem_ComputeAdjacencyList, hn]
    constructor
    · rintro ⟨hi, t, ht, h⟩
      exact ⟨hi, t, (htri t).mp ht, h⟩
    · rintro ⟨hi, t, ht, h⟩
      exact ⟨hi, t, (htri t).mpr ht, h⟩

/-- Witness of C22 on `exampleSquare`: vertex 2 is a neighbour of vertex 0 exactly when 0 is
one of vertex 2. -/
theorem adjacency_iff_shared_triangle_witness :
    (∀ t ∈ exampleSquare.triangles,
      (0 ≤ t.1 ∧ t.1 < exampleSquare.vertices.length) ∧
        (0 ≤ t.2.1 ∧ t.2.1 < exampleSquare.vertices.length) ∧
        (0 ≤ t.2.2 ∧ t.2.2 < exampleSquare.vertices.length)) ∧
    (∀ t ∈ exampleSquare.triangles, t.1 ≠ t.2.1 ∧ t.2.1 ≠ t.2.2 ∧ t.2.2 ≠ t.1) ∧
    (((2 : ℕ) : ℤ) ∈ exampleSquare.ComputeAdjacencyList.adjacency_list.getD 0 [] ↔
      ((0 : ℕ) : ℤ) ∈ exampleSquare.ComputeAdjacencyList.adjacency_list.getD 2 []) :=
  ⟨by decide, by decide,
    (adjacency_iff_shared_triangle exampleSquare (by decide) (by decide)).2.1 0 2
      (by decide) (by decide)⟩

/-- C23, as stated, fails: the triangle indices of `exampleDegenerate` lie in `[0, 2)`, yet
after `ComputeAdjacencyList` vertex 0 is among its own neighbours. -/
theorem degenerate_triangle_self_neighbour :
    (∀ t ∈ exampleDegenerate.triangles,
      (0 ≤ t.1 ∧ t.1 < exampleDegenerate.vertices.length) ∧
        (0 ≤ t.2.1 ∧ t.2.1 < exampleDegenerate.vertices.length) ∧
        (0 ≤ t.2.2 ∧ t.2.2 < exampleDegenerate.vertices.length)) ∧
    exampleDegenerate.ComputeAdjacencyList.adjacency_list = [[0, 1], [0]] ∧
    (0 : ℤ) ∈ exampleDegenerate.ComputeAdjacencyList.adjacency_list.getD 0 [] :=
  ⟨by decide, by decide, by decide⟩

/-- C23, amended: for a mesh of `n` vertices whose triangle indices all lie in `[0, n)`, after
`ComputeAdjacencyList` the adjacency list has `n` entries, every member of `N(i)` lies in
`[0, n)`, and `i` is in `N(i)` exactly when some triangle has `i` at two of its corners. -/
theorem adjacency_entries_in_range (mesh : Mesh)
    (hrange : ∀ t ∈ mesh.triangles,
      (0 ≤ t.1 ∧ t.1 < mesh.vertices.length) ∧ (0 ≤ t.2.1 ∧ t.2.1 < mesh.vertices.length) ∧
        (0 ≤ t.2.2 ∧ t.2.2 < mesh.vertices.length)) :
    mesh.ComputeAdjacencyList.adjacency_list.length = mesh.vertices.length ∧
    ∀ i : ℕ, i < mesh.vertices.length →
      (∀ j ∈ mesh.ComputeAdjacencyList.adjacency_list.getD i [],
        0 ≤ j ∧ j < mesh.vertices.length) ∧
      ((i : ℤ) ∈ mesh.ComputeAdjacencyList.adjacency_list.getD i [] ↔
        ∃ t ∈ mesh.triangles, (t.1 = i ∧ t.2.1 = i) ∨ (t.1 = i ∧ t.2.2 = i) ∨
          (t.2.1 = i ∧ t.2.2 = i)) := by
  refine ⟨?_, fun i hi => ⟨?_, ?_⟩⟩
  · unfold Mesh.ComputeAdjacencyList
    simp only
    rw [length_foldl_addTriangle, List.length_replicate]
  · intro j hj
    rw [mem_ComputeAdjacencyList] at hj
    obtain ⟨-, t, ht, h⟩ := hj
    obtain ⟨h1, h2, h3⟩ := hrange t ht
    unfold inserts at h
    rcases h with ⟨-, rfl | rfl⟩ | ⟨-, rfl | rfl⟩ | ⟨-, rfl | rfl⟩
    · exact h2
    · exact h3
    · exact h1
    · exact h3
    · exact h1
    · exact h2
  · rw [mem_ComputeAdjacencyList]
    constructor
    · rintro ⟨-, t, ht, h⟩
      refine ⟨t, ht, ?_⟩
      unfold inserts at h
      rcases h with ⟨h1, h2 | h2⟩ | ⟨h1, h2 | h2⟩ | ⟨h1, h2 | h2⟩
      · exact Or.inl ⟨h1, h2.symm⟩
      · exact Or.inr (Or.inl ⟨h1, h2.symm⟩)
      · exact Or.inl ⟨h2.symm, h1⟩
      · exact Or.inr (Or.inr ⟨h1, h2.symm⟩)
      · exact Or.inr (Or.inl ⟨h2.symm, h1⟩)
      · exact Or.inr (Or.inr ⟨h2.symm, h1⟩)
    · rintro ⟨t, ht, h⟩
      refine ⟨hi, t, ht, ?_⟩
      unfold inserts
      rcases h with ⟨h1, h2⟩ | ⟨h1, h2⟩ | ⟨h1, h2⟩
      · exact Or.inl ⟨h1, Or.inl h2.symm⟩
      · exact Or.inl ⟨h1, Or.inr h2.symm⟩
      · exact Or.inr (Or.inl ⟨h1, Or.inr h2.symm⟩)

/-- Witness of the amended C23 on `exampleSquare`. -/
theorem adjacency_entries_in_range_witness :
    (∀ t ∈ exampleSquare.triangles,
      (0 ≤ t.1 ∧ t.1 < exampleSquare.vertices.length) ∧
        (0 ≤ t.2.1 ∧ t.2.1 < exampleSquare.vertices.length) ∧
        (0 ≤ t.2.2 ∧ t.2.2 < exampleSquare.vertices.length)) ∧
    exampleSquare.ComputeAdjacencyList.adjacency_list.length =
      exampleSquare.vertices.length :=
  ⟨by decide, (adjacency_entries_in_range exampleSquare (by decide)).1⟩

end SimpleMesh

namespace SimpleMesh
open Eigen

theorem scanVertex_length (threshold : ℚ) (state : List ℤ × List Vector3d) (v : Vector3d) :
    (scanVertex threshold state v).1.length = state.1.length + 1 := by
  unfold scanVertex
  simp only
  split <;> simp

theorem scanVertices_concat (vs : List Vector3d) (v : Vector3d) (threshold : ℚ) :
    scanVertices (vs ++ [v]) threshold =
      scanVertex threshold (scanVertices vs threshold) v := by
  unfold scanVertices
  rw [List.foldl_append]
  rfl

/-- The state of the scan of `RemoveDuplicatedVertices` after the vertices `vs`: every vertex
is mapped to the first unique vertex within the threshold of it, or to itself, appended,
when there is none; every unique vertex is the first vertex mapped to it. -/
theorem scanVertices_spec (threshold : ℚ) (vs : List Vector3d) :
    (scanVertices vs threshold).1.length = vs.length ∧
    (scanVertices vs threshold).2.Sublist vs ∧
    (∀ (i : ℕ) v, vs[i]? = some v → ∃ k : ℕ, ∃ uk,
      (scanVertices vs threshold).1[i]? = some (k : ℤ) ∧
      (scanVertices vs threshold).2[k]? = some uk ∧
      (∀ (k2 : ℕ) u2, k2 < k → (scanVertices vs threshold).2[k2]? = some u2 →
        normBelow v u2 threshold = false) ∧
      (normBelow v uk threshold = true ∨
        (uk = v ∧ ∀ i2 : ℕ, i2 < i → (scanVertices vs threshold).1[i2]? ≠ some (k : ℤ)))) ∧
    (∀ (k : ℕ) uk, (scanVertices vs threshold).2[k]? = some uk → ∃ i0,
      (scanVertices vs threshold).1[i0]? = some (k : ℤ) ∧ vs[i0]? = some uk ∧
      ∀ i2 : ℕ, i2 < i0 → (scanVertices vs threshold).1[i2]? ≠ some (k : ℤ)) := by
  induction vs using List.reverseRecOn with
  | nil =>
    refine ⟨rfl, List.Sublist.refl _, ?_, ?_⟩
    · intro i v h
      simp at h
    · intro k uk h
      simp [scanVertices] at h
  | append_singleton vs v ih =>
    obtain ⟨hlen, hsub, hmap, huniq⟩ := ih
    rw [scanVertices_concat]
    generalize scanVertices vs threshold = st at hlen hsub hmap huniq
    obtain ⟨m, u⟩ := st
    simp only at hlen hsub hmap huniq
    have hbound : ∀ (i2 : ℕ) (k2 : ℤ), m[i2]? = some k2 → k2 < (u.length : ℤ) := by
      intro i2 k2 h2
      have hi2 : i2 < vs.length := by
        rw [← hlen]
        exact (List.getElem?_eq_some.mp h2).1
      obtain ⟨k, uk, hk1, hk2, -, -⟩ := hmap i2 vs[i2] (List.getElem?_eq_getElem hi2)
      rw [h2] at hk1
      have hk3 : k < u.length := (List.getElem?_eq_some.mp hk2).1
      have : k2 = (k : ℤ) := Option.some.inj hk1
      rw [this]
      exact_mod_cast hk3
    unfold scanVertex
    simp only
    by_cases hj : u.findIdx (fun w => normBelow v w threshold) < u.length
    · rw [if_pos hj]
      simp only
      refine ⟨by simp [hlen], hsub.trans (List.sublist_append_left _ _), ?_, ?_⟩
      · intro i w hw
        by_cases hi : i < vs.length
        · rw [List.getElem?_append_left hi] at hw
          obtain ⟨k, uk, h1, h2, h3, h4⟩ := hmap i w hw
          refine ⟨k, uk, ?_, h2, h3, ?_⟩
          · rw [List.getElem?_append_left (by rw [hlen]; exact hi)]
            exact h1
          · rcases h4 with h4 | ⟨h4, h5⟩
            · exact Or.inl h4
            · refine Or.inr ⟨h4, fun i2 hi2 => ?_⟩
              rw [List.getElem?_append_left (by rw [hlen]; omega)]
              exact h5 i2 hi2
        · have hi2 : i = vs.length := by
            have := (List.getElem?_eq_some.mp hw).1
            simp at this
            omega
          subst hi2
          rw [List.getElem?_concat_length] at hw
          have hwv : v = w := Option.some.inj hw
          subst hwv
          refine ⟨u.findIdx (fun w => normBelow v w threshold), u[u.findIdx
            (fun w => normBelow v w threshold)], ?_, List.getElem?_eq_getElem hj, ?_, ?_⟩
          · rw [← hlen, List.getElem?_concat_length]
          · intro k2 u2 hk2 hu2
            have := List.not_of_lt_findIdx hk2
            obtain ⟨hk3, hk4⟩ := List.getElem?_eq_some.mp hu2
            rw [← hk4]
            exact this
          · left
            exact @List.findIdx_getElem _ (fun w => normBelow v w threshold) u hj
      · intro k uk hk
        obtain ⟨i0, h1, h2, h3⟩ := huniq k uk hk
        have hi0 : i0 < vs.length := (List.getElem?_eq_some.mp h2).1
        refine ⟨i0, ?_, ?_, ?_⟩
        · rw [List.getElem?_append_left (by rw [hlen]; exact hi0)]
          exact h1
        · rw [List.getElem?_append_left hi0]
          exact h2
        · intro i2 hi2
          rw [List.getElem?_append_left (by rw [hlen]; omega)]
          exact h3 i2 hi2
    · rw [if_neg hj]
      simp only
      have hnone : ∀ x ∈ u, normBelow v x threshold = false := by
        apply List.findIdx_eq_length.mp
        have := @List.findIdx_le_length _ (fun w => normBelow v w threshold) u
        omega
      refine ⟨by simp [hlen], hsub.append (List.Sublist.refl _), ?_, ?_⟩
      · intro i w hw
        by_cases hi : i < vs.length
        · rw [List.getElem?_append_left hi] at hw
          obtain ⟨k, uk, h1, h2, h3, h4⟩ := hmap i w hw
          have hk : k < u.length := (List.getElem?_eq_some.mp h2).1
          refine ⟨k, uk, ?_, ?_, ?_, ?_⟩
          · rw [List.getElem?_append_left (by rw [hlen]; exact hi)]
            exact h1
          · rw [List.getElem?_append_left hk]
            exact h2
          · intro k2 u2 hk2 hu2
            rw [List.getElem?_append_left (by omega)] at hu2
            exact h3 k2 u2 hk2 hu2
          · rcases h4 with h4 | ⟨h4, h5⟩
            · exact Or.inl h4
            · refine Or.inr ⟨h4, fun i2 hi2 => ?_⟩
              rw [List.getElem?_append_left (by rw [hlen]; omega)]
              exact h5 i2 hi2
        · have hi2 : i = vs.length := by
            have := (List.getElem?_eq_some.mp hw).1
            simp at this
            omega
          subst hi2
          rw [List.getElem?_concat_length] at hw
          have hwv : v = w := Option.some.inj hw
          subst hwv
          refine ⟨u.length, v, ?_, List.getElem?_concat_length _ _, ?_, ?_⟩
          · rw [← hlen, List.getElem?_concat_length]
          · intro k2 u2 hk2 hu2
            rw [List.getElem?_append_left hk2] at hu2
            obtain ⟨hk3, hk4⟩ := List.getElem?_eq_some.mp hu2
            rw [← hk4]
            exact hnone _ (List.getElem_mem _)
          · refine Or.inr ⟨rfl, fun i2 hi2 => ?_⟩
            rw [List.getElem?_append_left (by rw [hlen]; exact hi2)]
            intro h
            have := hbound i2 _ h
            omega
      · intro k uk hk
        by_cases hku : k < u.length
        · rw [List.getElem?_append_left hku] at hk
          obtain ⟨i0, h1, h2, h3⟩ := huniq k uk hk
          have hi0 : i0 < vs.length := (List.getElem?_eq_some.mp h2).1
          refine ⟨i0, ?_, ?_, ?_⟩
          · rw [List.getElem?_append_left (by rw [hlen]; exact hi0)]
            exact h1
          · rw [List.getElem?_append_left hi0]
            exact h2
          · intro i2 hi2
            rw [List.getElem?_append_left (by rw [hlen]; omega)]
            exact h3 i2 hi2
        · have hk2 : k = u.length := by
            have := (List.getElem?_eq_some.mp hk).1
            simp at this
            omega
          subst hk2
          rw [List.getElem?_concat_length] at hk
          have : v = uk := Option.some.inj hk
          subst this
          refine ⟨vs.length, ?_, List.getElem?_concat_length _ _, ?_⟩
          · rw [← hlen, List.getElem?_concat_length]
          · intro i2 hi2
            rw [List.getElem?_append_left (by rw [hlen]; exact hi2)]
            intro h
            have := hbound i2 _ h
            omega

theorem remapIndex_spec (threshold : ℚ) (vs : List Vector3d) (k : ℤ) (v : Vector3d)
    (h0 : 0 ≤ k) (hv : vs[k.toNat]? = some v) :
    ∃ u, 0 ≤ remapIndex (scanVertices vs threshold).1 k ∧
      (scanVertices vs threshold).2[(remapIndex (scanVertices vs threshold).1 k).toNat]? =
        some u ∧
      (u = v ∨ normBelow v u threshold = true) := by
  obtain ⟨-, -, hmap, -⟩ := scanVertices_spec threshold vs
  obtain ⟨j, uk, h1, h2, -, h4⟩ := hmap k.toNat v hv
  have hr : remapIndex (scanVertices vs threshold).1 k = (j : ℤ) := by
    unfold remapIndex
    rw [if_pos h0, List.getD_eq_getElem?_getD, h1]
    rfl
  rw [hr]
  refine ⟨uk, Int.natCast_nonneg j, ?_, ?_⟩
  · rw [Int.toNat_natCast]
    exact h2
  · rcases h4 with h4 | ⟨h4, -⟩
    · exact Or.inr h4
    · exact Or.inl h4

/-- C24, as stated, fails: in `exampleChain` the vertices 1 and 2 are 6 apart, below the
threshold 10, yet `RemoveDuplicatedVertices(10)` maps vertex 1 to output vertex 0 and vertex 2
to output vertex 1: vertex 2 is 12 away from the first vertex, the only one it is compared
with. -/
theorem near_vertices_not_merged :
    normBelow ⟨6, 0, 0⟩ ⟨12, 0, 0⟩ 10 = true ∧
    (scanVertices exampleChain.vertices 10).1 = [0, 0, 1] ∧
    (exampleChain.RemoveDuplicatedVertices 10).vertices = [⟨0, 0, 0⟩, ⟨12, 0, 0⟩] ∧
    (exampleChain.RemoveDuplicatedVertices 10).triangles = [(0, 0, 1)] := by
  have h : scanVertices exampleChain.vertices 10 =
      ([0, 0, 1], [⟨0, 0, 0⟩, ⟨12, 0, 0⟩]) := by
    simp [scanVertices, scanVertex, exampleChain, normBelow, List.findIdx_cons]
    norm_num
  refine ⟨?_, ?_, ?_, ?_⟩
  · simp [normBelow]
    norm_num
  · rw [h]
  · unfold Mesh.RemoveDuplicatedVertices
    simp only [h]
  · unfold Mesh.RemoveDuplicatedVertices
    simp only [h]
    simp [exampleChain, remapIndex]

/-- C24, amended: `RemoveDuplicatedVertices` leaves the unique vertices of its scan, which
maps every input vertex `i` to the first output vertex within the threshold of it, or, when
there is none, to `i` itself, appended to the output. The output vertex `i` is mapped to is
the earliest input vertex mapped to it. -/
theorem vertex_mapped_to_first_near_survivor (mesh : Mesh) (threshold : ℚ) (i : ℕ)
    (v : Vector3d) (hv : mesh.vertices[i]? = some v) :
    (mesh.RemoveDuplicatedVertices threshold).vertices =
      (scanVertices mesh.vertices threshold).2 ∧
    ∃ k : ℕ, ∃ uk,
      (scanVertices mesh.vertices threshold).1[i]? = some (k : ℤ) ∧
      (mesh.RemoveDuplicatedVertices threshold).vertices[k]? = some uk ∧
      (∀ (k2 : ℕ) u2, k2 < k →
        (mesh.RemoveDuplicatedVertices threshold).vertices[k2]? = some u2 →
        normBelow v u2 threshold = false) ∧
      (normBelow v uk threshold = true ∨ uk = v) ∧
      ∃ i0 : ℕ, i0 ≤ i ∧ (scanVertices mesh.vertices threshold).1[i0]? = some (k : ℤ) ∧
        mesh.vertices[i0]? = some uk ∧
        ∀ i2 : ℕ, i2 < i0 → (scanVertices mesh.vertices threshold).1[i2]? ≠ some (k : ℤ) := by
  refine ⟨rfl, ?_⟩
  obtain ⟨-, -, hmap, huniq⟩ := scanVertices_spec threshold mesh.vertices
  obtain ⟨k, uk, h1, h2, h3, h4⟩ := hmap i v hv
  obtain ⟨i0, g1, g2, g3⟩ := huniq k uk h2
  refine ⟨k, uk, h1, h2, h3, ?_, i0, ?_, g1, g2, g3⟩
  · rcases h4 with h4 | ⟨h4, -⟩
    · exact Or.inl h4
    · exact Or.inr h4
  · by_contra hlt
    exact g3 i (by omega) h1

/-- Witness of the amended C24 on vertex 1 of `exampleChain`. -/
theorem vertex_mapped_to_first_near_survivor_witness :
    exampleChain.vertices[1]? = some ⟨6, 0, 0⟩ ∧
    (exampleChain.RemoveDuplicatedVertices 10).vertices =
      (scanVertices exampleChain.vertices 10).2 :=
  ⟨rfl, (vertex_mapped_to_first_near_survivor exampleChain 10 1 ⟨6, 0, 0⟩ rfl).1⟩

/-- C25: `RemoveDuplicatedVertices` leaves a sublist of the input vertices (the survivors in
their input order) and as many triangles as before, and replaces every triangle corner whose
old index `k` is in range by the index of a surviving vertex that is the old vertex `k` or
lies within the threshold of it. -/
theorem dedup_keeps_order_and_remaps (mesh : Mesh) (threshold : ℚ) :
    (mesh.RemoveDuplicatedVertices threshold).vertices.Sublist mesh.vertices ∧
    (mesh.RemoveDuplicatedVertices threshold).triangles.length = mesh.triangles.length ∧
    ∀ (t : ℕ) tri, mesh.triangles[t]? = some tri →
      ∃ tri2, (mesh.RemoveDuplicatedVertices threshold).triangles[t]? = some tri2 ∧
        ∀ c v, c < 3 → 0 ≤ corner tri c → mesh.vertices[(corner tri c).toNat]? = some v →
          ∃ u, 0 ≤ corner tri2 c ∧
            (mesh.RemoveDuplicatedVertices threshold).vertices[(corner tri2 c).toNat]? =
              some u ∧
            (u = v ∨ normBelow v u threshold = true) := by
  refine ⟨(scanVertices_spec threshold mesh.vertices).2.1, ?_, ?_⟩
  · unfold Mesh.RemoveDuplicatedVertices
    simp only [List.length_map]
  · intro t tri ht
    refine ⟨(remapIndex (scanVertices mesh.vertices threshold).1 tri.1,
      remapIndex (scanVertices mesh.vertices threshold).1 tri.2.1,
      remapIndex (scanVertices mesh.vertices threshold).1 tri.2.2), ?_, ?_⟩
    · unfold Mesh.RemoveDuplicatedVertices
      simp only [List.getElem?_map, ht, Option.map_some']
    · intro c v hc h0 hv
      have hcases : c = 0 ∨ c = 1 ∨ c = 2 := by omega
      rcases hcases with rfl | rfl | rfl
      · exact remapIndex_spec threshold mesh.vertices tri.1 v h0 hv
      · exact remapIndex_spec threshold mesh.vertices tri.2.1 v h0 hv
      · exact remapIndex_spec threshold mesh.vertices tri.2.2 v h0 hv

/-- Witness of C25 on `exampleChain` with threshold 10. -/
theorem dedup_keeps_order_and_remaps_witness :
    (exampleChain.RemoveDuplicatedVertices 10).vertices.Sublist exampleChain.vertices ∧
    (exampleChain.RemoveDuplicatedVertices 10).triangles.length =
      exampleChain.triangles.length :=
  ⟨(dedup_keeps_order_and_remaps exampleChain 10).1,
    (dedup_keeps_order_and_remaps exampleChain 10).2.1⟩

end SimpleMesh

namespace SimpleMesh
open Eigen

theorem normBelow_comm (a b : Vector3d) (threshold : ℚ) :
    normBelow a b threshold = normBelow b a threshold := by
  unfold normBelow
  congr 2
  ring_nf

theorem scanVertices_of_separated (threshold : ℚ) (vs : List Vector3d)
    (h : vs.Pairwise fun p q => normBelow p q threshold = false) :
    scanVertices vs threshold = ((List.range vs.length).map fun (i : ℕ) => (i : ℤ), vs) := by
  induction vs using List.reverseRecOn with
  | nil => rfl
  | append_singleton vs v ih =>
    obtain ⟨h1, -, h3⟩ := List.pairwise_append.mp h
    rw [scanVertices_concat, ih h1]
    unfold scanVertex
    simp only
    have hnone : vs.findIdx (fun u => normBelow v u threshold) = vs.length := by
      rw [List.findIdx_eq_length]
      intro x hx
      rw [normBelow_comm]
      exact h3 x hx v (List.mem_singleton_self v)
    rw [hnone, if_neg (lt_irrefl _)]
    simp [List.range_succ]

theorem remapIndex_range (n : ℕ) (k : ℤ) :
    remapIndex ((List.range n).map fun (i : ℕ) => (i : ℤ)) k = k := by
  unfold remapIndex
  split
  · next h0 =>
    rw [List.getD_eq_getElem?_getD]
    by_cases hk : k.toNat < n
    · rw [List.getElem?_map, List.getElem?_range hk]
      simp only [Option.map_some', Option.getD_some]
      omega
    · rw [List.getElem?_eq_none (by simpa using hk)]
      rfl
  · rfl

theorem RemoveDuplicatedVertices_of_separated (mesh : Mesh) (threshold : ℚ)
    (h : mesh.vertices.Pairwise fun p q => normBelow p q threshold = false) :
    (mesh.RemoveDuplicatedVertices threshold).vertices = mesh.vertices ∧
    (mesh.RemoveDuplicatedVertices threshold).triangles = mesh.triangles := by
  unfold Mesh.RemoveDuplicatedVertices
  simp only [scanVertices_of_separated threshold mesh.vertices h, remapIndex_range]
  exact ⟨trivial, List.map_id _⟩

theorem Edge.new_comm (a b : ℤ) : Edge.new a b = Edge.new b a := by
  unfold Edge.new
  rw [min_comm, max_comm]

theorem midpointOf_comm (p q : Vector3d) : midpointOf p q = midpointOf q p := by
  unfold midpointOf
  congr 1 <;> ring

theorem midIndex_comm (s : Subdivision) (a b : ℤ) : midIndex s a b = midIndex s b a := by
  unfold midIndex
  rw [Edge.new_comm]

theorem midpointOf_ends (V : List Vector3d) (a b : ℤ) :
    midpointOf (TVMUtil.vertexAt V (Edge.new a b).v0) (TVMUtil.vertexAt V (Edge.new a b).v1) =
      midpointOf (TVMUtil.vertexAt V a) (TVMUtil.vertexAt V b) := by
  unfold Edge.new
  simp only
  rcases le_total a b with h | h
  · rw [min_eq_left h, max_eq_right h]
  · rw [min_eq_right h, max_eq_left h, midpointOf_comm]

theorem find_append_of_some {α : Type} (p : α → Bool) (l extra : List α) (x : α)
    (h : l.find? p = some x) : (l ++ extra).find? p = some x := by
  rw [List.find?_append, h]
  rfl

theorem vertexAt_of_initial (V W : List Vector3d) (a : ℤ)
    (hpre : ∀ (i : ℕ) v, V[i]? = some v → W[i]? = some v)
    (h0 : 0 ≤ a) (hlt : a < V.length) : TVMUtil.vertexAt W a = TVMUtil.vertexAt V a := by
  unfold TVMUtil.vertexAt
  rw [if_pos h0, if_pos h0]
  have hi : a.toNat < V.length := by omega
  have h1 := hpre a.toNat V[a.toNat] (List.getElem?_eq_getElem hi)
  rw [List.getD_eq_getElem?_getD, List.getD_eq_getElem?_getD, h1,
    List.getElem?_eq_getElem hi]

theorem find_key_some (l : List (Edge × ℤ)) (e : Edge)
    (h : e ∈ l.map Prod.fst) : ∃ m, l.find? (fun it => it.1 = e) = some (e, m) := by
  induction l with
  | nil => simp at h
  | cons x xs ih =>
    by_cases hx : x.1 = e
    · refine ⟨x.2, ?_⟩
      rw [List.find?_cons_of_pos _ (by simpa using hx), ← hx]
    · rw [List.find?_cons_of_neg _ (by simpa using hx)]
      apply ih
      rw [List.map_cons, List.mem_cons] at h
      rcases h with h | h
      · exact absurd h.symm hx
      · exact h

theorem find_key_none (l : List (Edge × ℤ)) (e : Edge)
    (h : l.find? (fun it => it.1 = e) = none) : e ∉ l.map Prod.fst := by
  intro hmem
  obtain ⟨m, hm⟩ := find_key_some l e hmem
  rw [hm] at h
  cases h

/-- One call of `get_midpoint` on consistent locals, for two indices in range. -/
theorem get_midpoint_spec (V : List Vector3d) (s : Subdivision) (a b : ℤ)
    (hs : s.Consistent V) (ha : 0 ≤ a ∧ a < V.length) (hb : 0 ≤ b ∧ b < V.length) :
    (get_midpoint s a b).1.Consistent V ∧
    (get_midpoint s a b).1.new_triangles = s.new_triangles ∧
    (∃ extra, (get_midpoint s a b).1.edge_to_midpoint = s.edge_to_midpoint ++ extra) ∧
    (∀ e, e ∈ (get_midpoint s a b).1.edge_to_midpoint.map Prod.fst ↔
      e ∈ s.edge_to_midpoint.map Prod.fst ∨ e = Edge.new a b) ∧
    (get_midpoint s a b).1.edge_to_midpoint.find? (fun it => it.1 = Edge.new a b) =
      some (Edge.new a b, (get_midpoint s a b).2) := by
  obtain ⟨h1, h2, h3, h4⟩ := hs
  unfold get_midpoint
  simp only
  cases hf : s.edge_to_midpoint.find? (fun it => it.1 = Edge.new a b) with
  | some it =>
    simp only
    have hit : it.1 = Edge.new a b := by simpa using List.find?_some hf
    refine ⟨⟨h1, h2, h3, h4⟩, trivial, ⟨[], (List.append_nil _).symm⟩, ?_, ?_⟩
    · intro e
      constructor
      · exact fun h => Or.inl h
      · rintro (h | rfl)
        · exact h
        · rw [← hit]
          exact List.mem_map_of_mem _ (List.mem_of_find?_eq_some hf)
    · rw [hf, ← hit]
  | none =>
    simp only
    have hnot := find_key_none _ _ hf
    refine ⟨⟨?_, ?_, ?_, ?_⟩, trivial, ⟨_, rfl⟩, ?_, ?_⟩
    · simp only [List.length_append, List.length_singleton, h1]
      omega
    · intro i v hi
      have hlt : i < V.length := (List.getElem?_eq_some.mp hi).1
      rw [List.getElem?_append_left (by omega)]
      exact h2 i v hi
    · intro p e m hp
      by_cases hpl : p < s.edge_to_midpoint.length
      · rw [List.getElem?_append_left hpl] at hp
        obtain ⟨g1, g2⟩ := h3 p e m hp
        refine ⟨g1, ?_⟩
        rw [List.getElem?_append_left (by omega)]
        exact g2
      · have hp2 : p = s.edge_to_midpoint.length := by
          have := (List.getElem?_eq_some.mp hp).1
          simp at this
          omega
        subst hp2
        rw [List.getElem?_concat_length] at hp
        have hp3 := Option.some.inj hp
        have he : e = Edge.new a b := (congrArg Prod.fst hp3).symm
        have hm : m = (s.new_vertices.length : ℤ) := (congrArg Prod.snd hp3).symm
        refine ⟨?_, ?_⟩
        · rw [hm, h1]
        · rw [← h1, List.getElem?_concat_length, he, midpointOf_ends,
            vertexAt_of_initial V s.new_vertices a h2 ha.1 ha.2,
            vertexAt_of_initial V s.new_vertices b h2 hb.1 hb.2]
    · rw [List.map_append, List.nodup_append]
      refine ⟨h4, List.nodup_singleton _, ?_⟩
      intro e he1 he2
      simp only [List.map_cons, List.map_nil, List.mem_singleton] at he2
      rw [he2] at he1
      exact hnot he1
    · intro e
      simp only [List.map_append, List.map_cons, List.map_nil, List.mem_append,
        List.mem_singleton]
    · rw [List.find?_append, hf]
      simp

theorem midIndex_of_find (s : Subdivision) (a b m : ℤ)
    (h : s.edge_to_midpoint.find? (fun it => it.1 = Edge.new a b) = some (Edge.new a b, m)) :
    midIndex s a b = m := by
  unfold midIndex
  rw [h]

theorem midIndex_stable (s s2 : Subdivision) (extra : List (Edge × ℤ))
    (hmap : s2.edge_to_midpoint = s.edge_to_midpoint ++ extra) (a b : ℤ)
    (h : Edge.new a b ∈ s.edge_to_midpoint.map Prod.fst) :
    midIndex s2 a b = midIndex s a b := by
  obtain ⟨m, hm⟩ := find_key_some _ _ h
  rw [midIndex_of_find s a b m hm]
  apply midIndex_of_find
  rw [hmap]
  exact find_append_of_some _ _ _ _ hm

theorem fourTriangles_stable (s s2 : Subdivision) (extra : List (Edge × ℤ))
    (hmap : s2.edge_to_midpoint = s.edge_to_midpoint ++ extra) (tri : ℤ × ℤ × ℤ)
    (h : ∀ e ∈ edgesOf tri, e ∈ s.edge_to_midpoint.map Prod.fst) :
    fourTriangles (midIndex s2) tri = fourTriangles (midIndex s) tri := by
  have h01 := midIndex_stable s s2 extra hmap tri.1 tri.2.1 (h _ (by simp [edgesOf]))
  have h12 := midIndex_stable s s2 extra hmap tri.2.1 tri.2.2 (h _ (by simp [edgesOf]))
  have h20 := midIndex_stable s s2 extra hmap tri.2.2 tri.1 (h _ (by simp [edgesOf]))
  unfold fourTriangles
  rw [h01, h12, h20]

/-- One iteration of the loop of `SubdivideMidpoint`, after the triangles `done`. -/
theorem subdivideTriangle_spec (V : List Vector3d) (s : Subdivision) (tri : ℤ × ℤ × ℤ)
    (done : List (ℤ × ℤ × ℤ)) (hs : s.Consistent V)
    (hk : ∀ e, e ∈ s.edge_to_midpoint.map Prod.fst ↔ e ∈ done.flatMap edgesOf)
    (ht : s.new_triangles = done.flatMap (fourTriangles (midIndex s)))
    (hr : (0 ≤ tri.1 ∧ tri.1 < V.length) ∧ (0 ≤ tri.2.1 ∧ tri.2.1 < V.length) ∧
      (0 ≤ tri.2.2 ∧ tri.2.2 < V.length)) :
    (subdivideTriangle s tri).Consistent V ∧
    (∀ e, e ∈ (subdivideTriangle s tri).edge_to_midpoint.map Prod.fst ↔
      e ∈ (done ++ [tri]).flatMap edgesOf) ∧
    (subdivideTriangle s tri).new_triangles =
      (done ++ [tri]).flatMap (fourTriangles (midIndex (subdivideTriangle s tri))) := by
  obtain ⟨hr0, hr1, hr2⟩ := hr
  obtain ⟨c1, t1, ⟨x1, e1⟩, k1, f1⟩ := get_midpoint_spec V s tri.1 tri.2.1 hs hr0 hr1
  obtain ⟨c2, t2, ⟨x2, e2⟩, k2, f2⟩ :=
    get_midpoint_spec V (get_midpoint s tri.1 tri.2.1).1 tri.2.1 tri.2.2 c1 hr1 hr2
  obtain ⟨c3, t3, ⟨x3, e3⟩, k3, f3⟩ :=
    get_midpoint_spec V (get_midpoint (get_midpoint s tri.1 tri.2.1).1 tri.2.1 tri.2.2).1
      tri.2.2 tri.1 c2 hr2 hr0
  have hmid : midIndex (subdivideTriangle s tri) =
      midIndex (get_midpoint (get_midpoint (get_midpoint s tri.1 tri.2.1).1
        tri.2.1 tri.2.2).1 tri.2.2 tri.1).1 := rfl
  have e13 : (get_midpoint (get_midpoint (get_midpoint s tri.1 tri.2.1).1
      tri.2.1 tri.2.2).1 tri.2.2 tri.1).1.edge_to_midpoint =
      (get_midpoint s tri.1 tri.2.1).1.edge_to_midpoint ++ (x2 ++ x3) := by
    rw [e3, e2, List.append_assoc]
  have e03 : (get_midpoint (get_midpoint (get_midpoint s tri.1 tri.2.1).1
      tri.2.1 tri.2.2).1 tri.2.2 tri.1).1.edge_to_midpoint =
      s.edge_to_midpoint ++ (x1 ++ (x2 ++ x3)) := by
    rw [e13, e1, List.append_assoc]
  have m01 : midIndex (subdivideTriangle s tri) tri.1 tri.2.1 =
      (get_midpoint s tri.1 tri.2.1).2 := by
    rw [hmid]
    apply midIndex_of_find
    rw [e13]
    exact find_append_of_some _ _ _ _ f1
  have m12 : midIndex (subdivideTriangle s tri) tri.2.1 tri.2.2 =
      (get_midpoint (get_midpoint s tri.1 tri.2.1).1 tri.2.1 tri.2.2).2 := by
    rw [hmid]
    apply midIndex_of_find
    rw [e3]
    exact find_append_of_some _ _ _ _ f2
  have m20 : midIndex (subdivideTriangle s tri) tri.2.2 tri.1 =
      (get_midpoint (get_midpoint (get_midpoint s tri.1 tri.2.1).1
        tri.2.1 tri.2.2).1 tri.2.2 tri.1).2 := by
    rw [hmid]
    exact midIndex_of_find _ _ _ _ f3
  refine ⟨c3, ?_, ?_⟩
  · intro e
    show e ∈ (get_midpoint (get_midpoint (get_midpoint s tri.1 tri.2.1).1
      tri.2.1 tri.2.2).1 tri.2.2 tri.1).1.edge_to_midpoint.map Prod.fst ↔ _
    rw [k3, k2, k1, hk, List.flatMap_append, List.mem_append]
    simp only [List.flatMap_cons, List.flatMap_nil, List.append_nil, edgesOf, List.mem_cons,
      List.mem_singleton, List.not_mem_nil, or_false]
    tauto
  · show (get_midpoint (get_midpoint (get_midpoint s tri.1 tri.2.1).1
      tri.2.1 tri.2.2).1 tri.2.2 tri.1).1.new_triangles ++ _ = _
    rw [t3, t2, t1, ht, List.flatMap_append]
    congr 1
    · apply List.flatMap_congr
      intro t htd
      symm
      rw [hmid]
      apply fourTriangles_stable s _ _ e03 t
      intro e he
      rw [hk]
      exact List.mem_flatMap.mpr ⟨t, htd, he⟩
    · simp only [List.flatMap_cons, List.flatMap_nil, List.append_nil, fourTriangles, m01, m12,
        m20]

theorem foldl_subdivideTriangle_spec (V : List Vector3d) (tris : List (ℤ × ℤ × ℤ)) :
    ∀ (s : Subdivision) (done : List (ℤ × ℤ × ℤ)), s.Consistent V →
      (∀ e, e ∈ s.edge_to_midpoint.map Prod.fst ↔ e ∈ done.flatMap edgesOf) →
      s.new_triangles = done.flatMap (fourTriangles (midIndex s)) →
      (∀ t ∈ tris, (0 ≤ t.1 ∧ t.1 < V.length) ∧ (0 ≤ t.2.1 ∧ t.2.1 < V.length) ∧
        (0 ≤ t.2.2 ∧ t.2.2 < V.length)) →
      (tris.foldl subdivideTriangle s).Consistent V ∧
      (∀ e, e ∈ (tris.foldl subdivideTriangle s).edge_to_midpoint.map Prod.fst ↔
        e ∈ (done ++ tris).flatMap edgesOf) ∧
      (tris.foldl subdivideTriangle s).new_triangles =
        (done ++ tris).flatMap (fourTriangles (midIndex (tris.foldl subdivideTriangle s))) := by
  induction tris with
  | nil =>
    intro s done hs hk ht _
    simp only [List.foldl_nil, List.append_nil]
    exact ⟨hs, hk, ht⟩
  | cons t ts ih =>
    intro s done hs hk ht hr
    obtain ⟨c, k, n⟩ := subdivideTriangle_spec V s t done hs hk ht (hr t (List.mem_cons_self _ _))
    have := ih (subdivideTriangle s t) (done ++ [t]) c k n
      (fun t2 h2 => hr t2 (List.mem_cons_of_mem _ h2))
    rw [List.append_assoc, List.singleton_append] at this
    exact this

/-- The locals of `SubdivideMidpoint` when its loop ends, for a mesh whose triangle indices
are in range. -/
theorem subdivideTriangles_spec (mesh : Mesh)
    (hrange : ∀ t ∈ mesh.triangles,
      (0 ≤ t.1 ∧ t.1 < mesh.vertices.length) ∧ (0 ≤ t.2.1 ∧ t.2.1 < mesh.vertices.length) ∧
        (0 ≤ t.2.2 ∧ t.2.2 < mesh.vertices.length)) :
    (subdivideTriangles mesh).Consistent mesh.vertices ∧
    (∀ e, e ∈ (subdivideTriangles mesh).edge_to_midpoint.map Prod.fst ↔
      e ∈ mesh.triangles.flatMap edgesOf) ∧
    (subdivideTriangles mesh).new_triangles =
      mesh.triangles.flatMap (fourTriangles (midIndex (subdivideTriangles mesh))) := by
  have h := foldl_subdivideTriangle_spec mesh.vertices mesh.triangles
    ⟨[], mesh.vertices, []⟩ []
    ⟨by simp, fun i v h => h, fun p e m h => by simp at h, by simp⟩
    (fun e => by simp) rfl hrange
  rw [List.nil_append] at h
  exact h

theorem length_flatMap_fourTriangles (mid : ℤ → ℤ → ℤ) (tris : List (ℤ × ℤ × ℤ)) :
    (tris.flatMap (fourTriangles mid)).length = 4 * tris.length := by
  induction tris with
  | nil => rfl
  | cons t ts ih =>
    rw [List.flatMap_cons, List.length_append, ih, List.length_cons]
    simp only [fourTriangles, List.length_cons, List.length_nil]
    omega

/-- The vertex a map entry points to: the midpoint of the two ends. -/
theorem midIndex_vertex (V : List Vector3d) (s : Subdivision) (a b : ℤ)
    (hs : s.Consistent V) (h : Edge.new a b ∈ s.edge_to_midpoint.map Prod.fst) :
    0 ≤ midIndex s a b ∧
    s.new_vertices[(midIndex s a b).toNat]? =
      some (midpointOf (TVMUtil.vertexAt V a) (TVMUtil.vertexAt V b)) := by
  obtain ⟨-, -, h3, -⟩ := hs
  obtain ⟨m, hm⟩ := find_key_some _ _ h
  rw [midIndex_of_find s a b m hm]
  obtain ⟨p, hp⟩ := List.getElem?_of_mem (List.mem_of_find?_eq_some hm)
  obtain ⟨g1, g2⟩ := h3 p _ m hp
  rw [g1]
  refine ⟨Int.natCast_nonneg _, ?_⟩
  rw [Int.toNat_natCast, g2, midpointOf_ends]

theorem exampleTriangle_new_vertices :
    (subdivideTriangles exampleTriangle).new_vertices =
      [⟨0, 0, 0⟩, ⟨2, 0, 0⟩, ⟨0, 2, 0⟩, ⟨1, 0, 0⟩, ⟨1, 1, 0⟩, ⟨0, 1, 0⟩] := by
  simp [subdivideTriangles, subdivideTriangle, get_midpoint, exampleTriangle, Edge.new,
    TVMUtil.vertexAt, midpointOf]

theorem exampleTriangle_separated :
    (subdivideTriangles exampleTriangle).new_vertices.Pairwise
      fun p q => normBelow p q defaultThreshold = false := by
  rw [exampleTriangle_new_vertices]
  simp [normBelow, defaultThreshold]
  rw [abs_of_pos (by norm_num)]
  norm_num

/-- C26: for a mesh whose triangle indices are in range and whose vertices, midpoints
included, are pairwise not within the threshold of `RemoveDuplicatedVertices`,
`SubdivideMidpoint` leaves four triangles for each triangle: `(v0, v1, v2)` is replaced, in
order, by `(v0, m01, m20)`, `(v1, m12, m01)`, `(v2, m20, m12)`, `(m01, m12, m20)`, where the
index `m_ab` is the same for `a, b` and `b, a` and for every triangle, and is the index of
the vertex `0.5 * (V_a + V_b)`; the vertices of the mesh keep their indices. -/
theorem subdivide_replaces_each_triangle (mesh : Mesh)
    (hrange : ∀ t ∈ mesh.triangles,
      (0 ≤ t.1 ∧ t.1 < mesh.vertices.length) ∧ (0 ≤ t.2.1 ∧ t.2.1 < mesh.vertices.length) ∧
        (0 ≤ t.2.2 ∧ t.2.2 < mesh.vertices.length))
    (hsep : (subdivideTriangles mesh).new_vertices.Pairwise
      fun p q => normBelow p q defaultThreshold = false) :
    mesh.SubdivideMidpoint.triangles.length = 4 * mesh.triangles.length ∧
    (mesh.SubdivideMidpoint.triangles = mesh.triangles.flatMap fun t =>
      [(t.1, midIndex (subdivideTriangles mesh) t.1 t.2.1,
          midIndex (subdivideTriangles mesh) t.2.2 t.1),
        (t.2.1, midIndex (subdivideTriangles mesh) t.2.1 t.2.2,
          midIndex (subdivideTriangles mesh) t.1 t.2.1),
        (t.2.2, midIndex (subdivideTriangles mesh) t.2.2 t.1,
          midIndex (subdivideTriangles mesh) t.2.1 t.2.2),
        (midIndex (subdivideTriangles mesh) t.1 t.2.1,
          midIndex (subdivideTriangles mesh) t.2.1 t.2.2,
          midIndex (subdivideTriangles mesh) t.2.2 t.1)]) ∧
    (∀ a b, midIndex (subdivideTriangles mesh) a b = midIndex (subdivideTriangles mesh) b a) ∧
    (∀ t ∈ mesh.triangles, ∀ e ∈ [(t.1, t.2.1), (t.2.1, t.2.2), (t.2.2, t.1)],
      0 ≤ midIndex (subdivideTriangles mesh) e.1 e.2 ∧
      mesh.SubdivideMidpoint.vertices[(midIndex (subdivideTriangles mesh) e.1 e.2).toNat]? =
        some (midpointOf (TVMUtil.vertexAt mesh.vertices e.1)
          (TVMUtil.vertexAt mesh.vertices e.2))) ∧
    (∀ (i : ℕ) v, mesh.vertices[i]? = some v → mesh.SubdivideMidpoint.vertices[i]? = some v) := by
  obtain ⟨hc, hk, ht⟩ := subdivideTriangles_spec mesh hrange
  obtain ⟨hv, htri⟩ := RemoveDuplicatedVertices_of_separated
    { mesh with
      vertices := (subdivideTriangles mesh).new_vertices
      triangles := (subdivideTriangles mesh).new_triangles } defaultThreshold hsep
  have hv2 : mesh.SubdivideMidpoint.vertices = (subdivideTriangles mesh).new_vertices := hv
  have ht2 : mesh.SubdivideMidpoint.triangles = (subdivideTriangles mesh).new_triangles := htri
  rw [hv2, ht2, ht]
  refine ⟨length_flatMap_fourTriangles _ _, rfl, midIndex_comm _, ?_, hc.2.1⟩
  intro t htm e he
  apply midIndex_vertex mesh.vertices _ e.1 e.2 hc
  rw [hk]
  refine List.mem_flatMap.mpr ⟨t, htm, ?_⟩
  simp only [List.mem_cons, List.mem_singleton, List.not_mem_nil, or_false] at he
  rcases he with rfl | rfl | rfl <;> simp [edgesOf]

/-- Witness of C26 on `exampleTriangle`. -/
theorem subdivide_replaces_each_triangle_witness :
    (∀ t ∈ exampleTriangle.triangles,
      (0 ≤ t.1 ∧ t.1 < exampleTriangle.vertices.length) ∧
        (0 ≤ t.2.1 ∧ t.2.1 < exampleTriangle.vertices.length) ∧
        (0 ≤ t.2.2 ∧ t.2.2 < exampleTriangle.vertices.length)) ∧
    ((subdivideTriangles exampleTriangle).new_vertices.Pairwise
      fun p q => normBelow p q defaultThreshold = false) ∧
    exampleTriangle.SubdivideMidpoint.triangles.length = 4 * exampleTriangle.triangles.length :=
  ⟨by decide, exampleTriangle_separated,
    (subdivide_replaces_each_triangle exampleTriangle (by decide) exampleTriangle_separated).1⟩

end SimpleMesh

namespace Storage

theorem digitChar_spec (k : ℕ) (hk : k < 10) :
    (Nat.digitChar k).isDigit = true ∧ ((Nat.digitChar k).toNat : ℤ) - 48 = k := by
  interval_cases k <;> exact ⟨rfl, rfl⟩

theorem toDigitsCore_spec (fuel : ℕ) : ∀ (n : ℕ) (ds : List Char), n < fuel →
    ∃ L : List Char, Nat.toDigitsCore 10 fuel n ds = L ++ ds ∧ L ≠ [] ∧
      (∀ c ∈ L, c.isDigit = true) ∧
      L.foldl (fun acc d => 10 * acc + ((d.toNat : ℤ) - 48)) 0 = n := by
  induction fuel with
  | zero => intro n ds h; omega
  | succ fuel ih =>
    intro n ds h
    unfold Nat.toDigitsCore
    simp only
    obtain ⟨hd1, hd2⟩ := digitChar_spec (n % 10) (Nat.mod_lt _ (by decide))
    by_cases h0 : n / 10 = 0
    · rw [if_pos h0]
      refine ⟨[Nat.digitChar (n % 10)], rfl, by simp, ?_, ?_⟩
      · intro c hc
        rw [List.mem_singleton.mp hc]
        exact hd1
      · simp only [List.foldl_cons, List.foldl_nil, hd2]
        omega
    · rw [if_neg h0]
      obtain ⟨L, hL, hne, hdig, hval⟩ := ih (n / 10) (Nat.digitChar (n % 10) :: ds) (by omega)
      refine ⟨L ++ [Nat.digitChar (n % 10)], ?_, by simp, ?_, ?_⟩
      · rw [hL, List.append_assoc, List.singleton_append]
      · intro c hc
        rcases List.mem_append.mp hc with h1 | h1
        · exact hdig c h1
        · rw [List.mem_singleton.mp h1]
          exact hd1
      · rw [List.foldl_append, hval]
        simp only [List.foldl_cons, List.foldl_nil, hd2]
        omega

theorem toDigits_spec (n : ℕ) :
    Nat.toDigits 10 n ≠ [] ∧ (∀ c ∈ Nat.toDigits 10 n, c.isDigit = true) ∧
      (Nat.toDigits 10 n).foldl (fun acc d => 10 * acc + ((d.toNat : ℤ) - 48)) 0 = n := by
  obtain ⟨L, hL, hne, hdig, hval⟩ := toDigitsCore_spec (n + 1) n [] (by omega)
  unfold Nat.toDigits
  rw [hL, List.append_nil]
  exact ⟨hne, hdig, hval⟩

theorem to_string_natCast (n : ℕ) : (to_string (n : ℤ)).toList = Nat.toDigits 10 n := rfl

theorem to_string_injective (i j : ℕ) (h : to_string (i : ℤ) = to_string (j : ℤ)) : i = j := by
  have h2 := congrArg String.toList h
  rw [to_string_natCast, to_string_natCast] at h2
  have hi := (toDigits_spec i).2.2
  have hj := (toDigits_spec j).2.2
  rw [h2, hj] at hi
  exact_mod_cast hi.symm

end Storage

namespace SimpleMeshIO
open Eigen Storage

/-- C28 (code): on the face line `f 1/1 2/2 3/3` of `exampleSlashDisk` the two readers
disagree. `LoadTriangleIndicesFlat` yields 0, 1, 2; `ReadOBJ` appends the triangle
`(0, -1, u - 1)`, `u` being the value of the unassigned `v3`: the extraction of `v2` stops at
the `/`, stores 0 and fails the stream. -/
theorem slash_tokens_read_differently (lib : Library) :
    (ReadOBJ lib exampleSlashDisk "m.obj" SimpleMesh.Mesh.empty).2 = true ∧
    (ReadOBJ lib exampleSlashDisk "m.obj" SimpleMesh.Mesh.empty).1.triangles =
      [(0, -1, lib.indeterminate - 1)] ∧
    LoadTriangleIndicesFlat exampleSlashDisk "m.obj" = .ok [0, 1, 2] :=
  ⟨rfl, rfl, rfl⟩

theorem isDigit_not_isspace (c : Char) (h : c.isDigit = true) : isspace c = false := by
  unfold Char.isDigit at h
  unfold isspace
  simp only [Bool.and_eq_true, decide_eq_true_eq] at h
  obtain ⟨h1, h2⟩ := h
  have h3 : 48 ≤ c.toNat := h1
  have hne : c ≠ ' ' := by
    rintro rfl
    exact absurd h3 (by decide)
  simp only [hne, decide_False, Bool.false_or, Bool.or_eq_false_iff, decide_eq_false_iff_not]
  omega

theorem isDigit_not_sign (c : Char) (h : c.isDigit = true) : ¬ (c = '-' ∨ c = '+') := by
  rintro (rfl | rfl) <;> exact absurd h (by decide)

theorem takeWhile_digits (D R : List Char) (hD : ∀ c ∈ D, c.isDigit = true)
    (hR : ∀ c ∈ R.head?, c.isDigit = false) :
    (D ++ R).takeWhile Char.isDigit = D ∧ (D ++ R).dropWhile Char.isDigit = R := by
  induction D with
  | nil =>
    cases R with
    | nil => exact ⟨rfl, rfl⟩
    | cons r rs =>
      have hr := hR r (by simp)
      simp [List.takeWhile_cons, List.dropWhile_cons, hr]
  | cons d ds ih =>
    have hd := hD d (List.mem_cons_self _ _)
    obtain ⟨i1, i2⟩ := ih fun c hc => hD c (List.mem_cons_of_mem _ hc)
    simp only [List.cons_append, List.takeWhile_cons, List.dropWhile_cons, hd, if_true]
    exact ⟨by rw [i1], i2⟩

/-- The extraction of an `int` from a stream that stands before blanks and the decimal
digits of `n`. -/
theorem extractInt_toDigits (n : ℕ) (R : List Char) (v : ℤ) (hn : (n : ℤ) ≤ 2147483647)
    (hR : ∀ c ∈ R.head?, c.isDigit = false) :
    extractInt ⟨' ' :: (Nat.toDigits 10 n ++ R), false⟩ v = (⟨R, false⟩, (n : ℤ)) := by
  obtain ⟨hne, hdig, hval⟩ := toDigits_spec n
  obtain ⟨hta, hdr⟩ := takeWhile_digits (Nat.toDigits 10 n) R hdig hR
  unfold extractInt
  simp only [Bool.false_eq_true, if_false]
  cases hD : Nat.toDigits 10 n with
  | nil => exact absurd hD hne
  | cons d ds =>
    have hd : d.isDigit = true := hdig d (by rw [hD]; exact List.mem_cons_self _ _)
    have hsp : isspace d = false := isDigit_not_isspace d hd
    have hdrop : (' ' :: (d :: ds ++ R)).dropWhile isspace = d :: (ds ++ R) := by
      rw [List.dropWhile_cons_of_pos (by decide)]
      exact List.dropWhile_cons_of_neg (by simp [hsp])
    rw [hdrop]
    simp only
    rw [if_neg (isDigit_not_sign d hd)]
    rw [hD] at hta hdr hval
    simp only [List.cons_append] at hta hdr
    rw [hta, hdr, if_neg (by simp), hval]
    have hd2 : d ≠ '-' := fun h => isDigit_not_sign d hd (Or.inl h)
    rw [if_neg hd2, if_neg (by omega), if_neg (by omega)]

theorem faceLine_toList (tri : ℤ × ℤ × ℤ) (n1 n2 n3 : ℕ) (h1 : tri.1 + 1 = n1)
    (h2 : tri.2.1 + 1 = n2) (h3 : tri.2.2 + 1 = n3) :
    (faceLine tri).toList =
      'f' :: ' ' :: (Nat.toDigits 10 n1 ++ ' ' :: (Nat.toDigits 10 n2 ++
        ' ' :: (Nat.toDigits 10 n3 ++ []))) := by
  unfold faceLine
  rw [h1, h2, h3]
  simp only [String.toList, String.data_append]
  have e1 : (to_string (n1 : ℤ)).data = Nat.toDigits 10 n1 := rfl
  have e2 : (to_string (n2 : ℤ)).data = Nat.toDigits 10 n2 := rfl
  have e3 : (to_string (n3 : ℤ)).data = Nat.toDigits 10 n3 := rfl
  rw [e1, e2, e3]
  simp

theorem extractFace_faceLine (lib : Library) (tri : ℤ × ℤ × ℤ)
    (h1 : 0 ≤ tri.1 ∧ tri.1 < 2147483647) (h2 : 0 ≤ tri.2.1 ∧ tri.2.1 < 2147483647)
    (h3 : 0 ≤ tri.2.2 ∧ tri.2.2 < 2147483647) :
    extractFace lib (faceLine tri) = (tri.1 + 1, tri.2.1 + 1, tri.2.2 + 1) := by
  obtain ⟨n1, hn1⟩ := Int.eq_ofNat_of_zero_le (show 0 ≤ tri.1 + 1 by omega)
  obtain ⟨n2, hn2⟩ := Int.eq_ofNat_of_zero_le (show 0 ≤ tri.2.1 + 1 by omega)
  obtain ⟨n3, hn3⟩ := Int.eq_ofNat_of_zero_le (show 0 ≤ tri.2.2 + 1 by omega)
  unfold extractFace
  simp only
  rw [faceLine_toList tri n1 n2 n3 hn1 hn2 hn3]
  have hc : extractChar ⟨'f' :: ' ' :: (Nat.toDigits 10 n1 ++ ' ' :: (Nat.toDigits 10 n2 ++
      ' ' :: (Nat.toDigits 10 n3 ++ []))), false⟩ =
      ⟨' ' :: (Nat.toDigits 10 n1 ++ ' ' :: (Nat.toDigits 10 n2 ++
        ' ' :: (Nat.toDigits 10 n3 ++ []))), false⟩ := by
    unfold extractChar
    simp only [Bool.false_eq_true, if_false]
    rw [List.dropWhile_cons_of_neg (by decide)]
  rw [hc, extractInt_toDigits n1 _ _ (by omega) (by simp),
    extractInt_toDigits n2 _ _ (by omega) (by simp),
    extractInt_toDigits n3 _ _ (by omega) (by simp), hn1, hn2, hn3]

theorem readLine_vertexLine (lib : Library) (mesh : SimpleMesh.Mesh) (v : Vector3d) :
    readLine lib mesh (vertexLine lib v) =
      { mesh with vertices := mesh.vertices ++ [lib.extractVertex (vertexLine lib v)] } := by
  have h : (vertexLine lib v).toList.take 2 = ['v', ' '] := by
    unfold vertexLine
    simp only [String.toList, String.data_append]
    rfl
  unfold readLine
  rw [if_pos h]

theorem readLine_faceLine (lib : Library) (mesh : SimpleMesh.Mesh) (tri : ℤ × ℤ × ℤ)
    (h1 : 0 ≤ tri.1 ∧ tri.1 < 2147483647) (h2 : 0 ≤ tri.2.1 ∧ tri.2.1 < 2147483647)
    (h3 : 0 ≤ tri.2.2 ∧ tri.2.2 < 2147483647) :
    readLine lib mesh (faceLine tri) = { mesh with triangles := mesh.triangles ++ [tri] } := by
  have h : (faceLine tri).toList.take 2 = ['f', ' '] := by
    unfold faceLine
    simp only [String.toList, String.data_append]
    rfl
  unfold readLine
  rw [if_neg (by rw [h]; decide), if_pos h]
  simp only [extractFace_faceLine lib tri h1 h2 h3, add_sub_cancel_right]

theorem foldl_readLine_vertexLines (lib : Library) (vs : List Vector3d) :
    ∀ mesh : SimpleMesh.Mesh,
      (vs.map (vertexLine lib)).foldl (readLine lib) mesh =
        { mesh with
          vertices := mesh.vertices ++ vs.map fun v => lib.extractVertex (vertexLine lib v) } := by
  induction vs with
  | nil =>
    intro mesh
    simp
  | cons v vs ih =>
    intro mesh
    rw [List.map_cons, List.foldl_cons, readLine_vertexLine, ih]
    simp

theorem foldl_readLine_faceLines (lib : Library) (ts : List (ℤ × ℤ × ℤ))
    (h : ∀ t ∈ ts, (0 ≤ t.1 ∧ t.1 < 2147483647) ∧ (0 ≤ t.2.1 ∧ t.2.1 < 2147483647) ∧
      (0 ≤ t.2.2 ∧ t.2.2 < 2147483647)) :
    ∀ mesh : SimpleMesh.Mesh,
      (ts.map faceLine).foldl (readLine lib) mesh =
        { mesh with triangles := mesh.triangles ++ ts } := by
  induction ts with
  | nil =>
    intro mesh
    simp
  | cons t ts ih =>
    intro mesh
    obtain ⟨h1, h2, h3⟩ := h t (List.mem_cons_self _ _)
    rw [List.map_cons, List.foldl_cons, readLine_faceLine lib mesh t h1 h2 h3,
      ih fun t2 ht2 => h t2 (List.mem_cons_of_mem _ ht2)]
    simp

/-- C29: for a mesh whose triangle indices are non-negative (and below the largest `int`),
`ReadOBJ` into an empty mesh, from the file `WriteOBJ` has written, succeeds and yields as
many vertices as the mesh has and exactly its triangle list. -/
theorem obj_round_trip_topology (lib : Library) (disk : Disk) (filename : String)
    (mesh : SimpleMesh.Mesh)
    (hidx : ∀ t ∈ mesh.triangles, (0 ≤ t.1 ∧ t.1 < 2147483647) ∧
      (0 ≤ t.2.1 ∧ t.2.1 < 2147483647) ∧ (0 ≤ t.2.2 ∧ t.2.2 < 2147483647)) :
    (WriteOBJ lib disk true filename mesh).2 = true ∧
    (ReadOBJ lib (WriteOBJ lib disk true filename mesh).1 filename SimpleMesh.Mesh.empty).2 =
      true ∧
    (ReadOBJ lib (WriteOBJ lib disk true filename mesh).1 filename
      SimpleMesh.Mesh.empty).1.vertices.length = mesh.vertices.length ∧
    (ReadOBJ lib (WriteOBJ lib disk true filename mesh).1 filename
      SimpleMesh.Mesh.empty).1.triangles = mesh.triangles := by
  have hl : (WriteOBJ lib disk true filename mesh).1.lines filename =
      some (mesh.vertices.map (vertexLine lib) ++ mesh.triangles.map faceLine) := by
    simp [WriteOBJ]
  unfold ReadOBJ
  rw [hl]
  simp only
  rw [List.foldl_append, foldl_readLine_vertexLines, foldl_readLine_faceLines lib _ hidx]
  refine ⟨rfl, trivial, ?_, ?_⟩
  · simp [SimpleMesh.Mesh.empty]
  · simp [SimpleMesh.Mesh.empty]

/-- Witness of C29 on `exampleSquare`. -/
theorem obj_round_trip_topology_witness :
    (∀ t ∈ SimpleMesh.exampleSquare.triangles, (0 ≤ t.1 ∧ t.1 < 2147483647) ∧
      (0 ≤ t.2.1 ∧ t.2.1 < 2147483647) ∧ (0 ≤ t.2.2 ∧ t.2.2 < 2147483647)) ∧
    ( ReadOBJ Playback.exampleLibrary
      (WriteOBJ Playback.exampleLibrary Playback.exampleEmptyDisk true "out.obj"
        SimpleMesh.exampleSquare).1 "out.obj" SimpleMesh.Mesh.empty).1.triangles =
      SimpleMesh.exampleSquare.triangles :=
  ⟨by decide,
    (obj_round_trip_topology Playback.exampleLibrary Playback.exampleEmptyDisk "out.obj"
      SimpleMesh.exampleSquare (by decide)).2.2.2⟩

end SimpleMeshIO

namespace TVMDecoder
open Eigen Storage

theorem loadBlock_isDecoded (lib : Library) (disk : Disk) (d : Decoder) (path : String) :
    (d.loadBlock lib disk path).1.isDecoded = d.isDecoded := by
  unfold Decoder.loadBlock
  dsimp only
  repeat' split
  all_goals rfl

theorem LoadSequence_isDecoded (lib : Library) (disk : Disk) (d : Decoder) (path : String) :
    (d.LoadSequence lib disk path).1.isDecoded = d.isDecoded := by
  rw [LoadSequence_state, loadBlock_isDecoded]

theorem DecodeSequence_name_decoded (host : Host) (d : Decoder)
    (h : (d.DecodeSequence host).2 = .ok true) :
    (d.DecodeSequence host).1.decoderName = d.decoderName ∧
      (d.DecodeSequence host).1.isDecoded = true := by
  have h2 : d.DecodeSequence host = ((d.DecodeSequence host).1, .ok true) := by
    rw [← h]
  obtain ⟨X, rhs, sb, T_hat, -, -, -, -, -, -, -, -, hd⟩ :=
    DecodeSequence_decoded host d _ true h2
  rw [hd]
  exact ⟨rfl, rfl⟩

end TVMDecoder

namespace Playback
open Eigen Storage TVMDecoder

theorem preloaded_name (w : World) (path : String) (decodeLoad i : ℤ)
    (hdecode : i ≤ decodeLoad →
      ((((Decoder.new (to_string i)).LoadSequence w.lib w.disk
        (joinPath path (subFolderName i))).1).DecodeSequence w.host).2 = .ok true) :
    (preloaded w path decodeLoad i).GetName = to_string i ∧
      ((preloaded w path decodeLoad i).IsDecoded = true ↔ i ≤ decodeLoad) := by
  unfold preloaded Decoder.GetName Decoder.IsDecoded
  simp only
  by_cases h : i ≤ decodeLoad
  · obtain ⟨h1, h2⟩ := DecodeSequence_name_decoded w.host _ (hdecode h)
    rw [if_pos h, h1, h2, LoadSequence_name]
    exact ⟨rfl, fun _ => h, fun _ => rfl⟩
  · rw [if_neg h, LoadSequence_name, LoadSequence_isDecoded]
    refine ⟨rfl, fun h2 => ?_, fun h2 => absurd h2 h⟩
    exact absurd h2 (by simp [Decoder.new])

theorem decodeFirst_last (host : Host) (name : String) (l : List Decoder) (d : Decoder)
    (hl : ∀ x ∈ l, x.GetName ≠ name) (hd : d.GetName = name)
    (hok : (d.DecodeSequence host).2 = .ok true) :
    decodeFirst host name (l ++ [d]) = (l ++ [(d.DecodeSequence host).1], .ok ()) := by
  induction l with
  | nil =>
    simp only [List.nil_append, decodeFirst, hd, if_true]
    have h2 : d.DecodeSequence host = ((d.DecodeSequence host).1, .ok true) := by
      rw [← hok]
    rw [h2]
  | cons x xs ih =>
    have hx : x.GetName ≠ name := hl x (List.mem_cons_self _ _)
    have := ih fun y hy => hl y (List.mem_cons_of_mem _ hy)
    rw [List.cons_append]
    unfold decodeFirst
    rw [if_neg hx, this]
    rfl

theorem LoadSubSequence_new (w : World) (m : PlaybackManager) (i : ℤ)
    (hle : i ≤ m.subSequenceCount)
    (hnew : ∀ x ∈ m.activeDecoders, x.GetName ≠ to_string i) :
    m.LoadSubSequence w i =
      ({ m with
          activeDecoders := m.activeDecoders ++
            [((Decoder.new (to_string i)).LoadSequence w.lib w.disk
              (joinPath m.sequenceDirectory (subFolderName i))).1] },
        ((Decoder.new (to_string i)).LoadSequence w.lib w.disk
          (joinPath m.sequenceDirectory (subFolderName i))).2) := by
  have hany : (m.activeDecoders.any fun d => d.GetName = to_string i) = false := by
    rw [List.any_eq_false]
    intro x hx
    simpa using hnew x hx
  unfold PlaybackManager.LoadSubSequence
  rw [if_neg (not_lt.mpr hle), hany]
  rfl

theorem to_string_succ_ne (k a : ℕ) (h : k < a) :
    to_string ((k : ℤ) + 1) ≠ to_string ((a : ℤ) + 1) := by
  intro he
  have h1 : ((k : ℤ) + 1) = ((k + 1 : ℕ) : ℤ) := by push_cast; rfl
  have h2 : ((a : ℤ) + 1) = ((a + 1 : ℕ) : ℤ) := by push_cast; rfl
  rw [h1, h2] at he
  have := to_string_injective _ _ he
  omega

/-- The loop of the constructor from index `a + 1` on, `r` more indices to go, when the
decoders of the indices up to `a` are active. -/
theorem constructLoop_spec (w : World) (path : String) (decodeLoad K : ℤ) (N : ℕ)
    (hN : (N : ℤ) ≤ K)
    (hload : ∀ i : ℤ, 1 ≤ i → i ≤ N →
      ((Decoder.new (to_string i)).LoadSequence w.lib w.disk
        (joinPath path (subFolderName i))).2 = .ok ())
    (hdecode : ∀ i : ℤ, 1 ≤ i → i ≤ N → i ≤ decodeLoad →
      ((((Decoder.new (to_string i)).LoadSequence w.lib w.disk
        (joinPath path (subFolderName i))).1).DecodeSequence w.host).2 = .ok true) :
    ∀ (r a : ℕ) (m : PlaybackManager), a + r ≤ N → m.sequenceDirectory = path →
      m.subSequenceCount = K →
      m.activeDecoders =
        (List.range a).map (fun k : ℕ => preloaded w path decodeLoad ((k : ℤ) + 1)) →
      constructLoop w decodeLoad m ((List.range' a r).map fun k : ℕ => (k : ℤ) + 1) =
        ({ m with
            activeDecoders :=
              (List.range (a + r)).map fun k : ℕ => preloaded w path decodeLoad ((k : ℤ) + 1) },
          .ok ()) := by
  intro r
  induction r with
  | zero =>
    intro a m _ _ _ hact
    simp only [List.range'_zero, List.map_nil, constructLoop, Nat.add_zero]
    rw [← hact]
  | succ r ih =>
    intro a m har hdir hcount hact
    have hi1 : (1 : ℤ) ≤ (a : ℤ) + 1 := by omega
    have hi2 : (a : ℤ) + 1 ≤ N := by omega
    have hnew : ∀ x ∈ m.activeDecoders, x.GetName ≠ to_string ((a : ℤ) + 1) := by
      intro x hx
      rw [hact, List.mem_map] at hx
      obtain ⟨k, hk, rfl⟩ := hx
      have hka : k < a := List.mem_range.mp hk
      rw [(preloaded_name w path decodeLoad ((k : ℤ) + 1)
        (hdecode _ (by omega) (by omega))).1]
      exact to_string_succ_ne k a hka
    have hL := LoadSubSequence_new w m ((a : ℤ) + 1) (by rw [hcount]; omega) hnew
    rw [hdir, hload _ hi1 hi2] at hL
    rw [List.range'_succ, List.map_cons]
    unfold constructLoop
    rw [hL]
    simp only
    have hfinal : ∀ m2 : PlaybackManager, m2 = { m with
        activeDecoders := m.activeDecoders ++ [preloaded w path decodeLoad ((a : ℤ) + 1)] } →
        constructLoop w decodeLoad m2 ((List.range' (a + 1) r).map fun k : ℕ => (k : ℤ) + 1) =
          ({ m with
              activeDecoders := (List.range (a + (r + 1))).map
                fun k : ℕ => preloaded w path decodeLoad ((k : ℤ) + 1) }, .ok ()) := by
      intro m2 hm2
      have := ih (a + 1) m2 (by omega) (by rw [hm2]; exact hdir) (by rw [hm2]; exact hcount)
        (by rw [hm2, List.range_succ, List.map_append, hact]; rfl)
      rw [this, hm2]
      have e : a + 1 + r = a + (r + 1) := by omega
      rw [e]
    by_cases hd : (a : ℤ) + 1 ≤ decodeLoad
    · rw [if_pos hd]
      have hok := hdecode _ hi1 hi2 hd
      have hdf := decodeFirst_last w.host (to_string ((a : ℤ) + 1)) m.activeDecoders _ hnew
        (LoadSequence_name w.lib w.disk (Decoder.new (to_string ((a : ℤ) + 1)))
          (joinPath path (subFolderName ((a : ℤ) + 1)))) hok
      unfold PlaybackManager.DecodeSubSequence
      simp only [hdf]
      apply hfinal
      unfold preloaded
      simp only [if_pos hd, hdir]
    · rw [if_neg hd]
      apply hfinal
      unfold preloaded
      simp only [if_neg hd, hdir]

/-- C21: when, for each index `i` from 1 to `min(memLoad, K)`, `LoadSequence` on the folder
of `i` returns and, for `i <= decodeLoad`, `DecodeSequence` succeeds, the constructor leaves
the decoders named 1, ..., `min(memLoad, K)` active in this order, the decoder of index `i`
decoded exactly when `i <= min(decodeLoad, memLoad, K)`, `currentSubSequence = 1` and
`preLoad = memLoad`; `K` is the number of subdirectories of the sequence directory. -/
theorem constructor_preloads (w : World) (path : String) (memLoad decodeLoad : ℤ)
    (hload : ∀ i : ℤ, 1 ≤ i → i ≤ memLoad → i ≤ w.disk.subdirectories path →
      ((Decoder.new (to_string i)).LoadSequence w.lib w.disk
        (joinPath path (subFolderName i))).2 = .ok ())
    (hdecode : ∀ i : ℤ, 1 ≤ i → i ≤ memLoad → i ≤ w.disk.subdirectories path →
      i ≤ decodeLoad →
      ((((Decoder.new (to_string i)).LoadSequence w.lib w.disk
        (joinPath path (subFolderName i))).1).DecodeSequence w.host).2 = .ok true) :
    (PlaybackManager.new w path memLoad decodeLoad).2 = .ok () ∧
    ((PlaybackManager.new w path memLoad decodeLoad).1.activeDecoders.map fun d => d.GetName) =
      (List.range (min memLoad (w.disk.subdirectories path)).toNat).map
        (fun k : ℕ => to_string ((k : ℤ) + 1)) ∧
    (∀ (k : ℕ) d, (PlaybackManager.new w path memLoad decodeLoad).1.activeDecoders[k]? = some d →
      (d.IsDecoded = true ↔
        (k : ℤ) + 1 ≤ min decodeLoad (min memLoad (w.disk.subdirectories path)))) ∧
    (PlaybackManager.new w path memLoad decodeLoad).1.currentSubSequence = 1 ∧
    (PlaybackManager.new w path memLoad decodeLoad).1.preLoad = memLoad := by
  have hN : (((min memLoad (w.disk.subdirectories path : ℤ)).toNat : ℕ) : ℤ) ≤
      (w.disk.subdirectories path : ℤ) := by omega
  have hload2 : ∀ i : ℤ, 1 ≤ i → i ≤ ((min memLoad (w.disk.subdirectories path : ℤ)).toNat : ℕ) →
      ((Decoder.new (to_string i)).LoadSequence w.lib w.disk
        (joinPath path (subFolderName i))).2 = .ok () :=
    fun i h1 h2 => hload i h1 (by omega) (by omega)
  have hdecode2 : ∀ i : ℤ, 1 ≤ i →
      i ≤ ((min memLoad (w.disk.subdirectories path : ℤ)).toNat : ℕ) → i ≤ decodeLoad →
      ((((Decoder.new (to_string i)).LoadSequence w.lib w.disk
        (joinPath path (subFolderName i))).1).DecodeSequence w.host).2 = .ok true :=
    fun i h1 h2 h3 => hdecode i h1 (by omega) (by omega) h3
  have hloop := constructLoop_spec w path decodeLoad (w.disk.subdirectories path)
    (min memLoad (w.disk.subdirectories path : ℤ)).toNat hN hload2 hdecode2
    (min memLoad (w.disk.subdirectories path : ℤ)).toNat 0
    ⟨path, [], 0, w.disk.subdirectories path, 0, 0⟩ (by omega) rfl rfl rfl
  rw [← List.range_eq_range', Nat.zero_add] at hloop
  have hact : (PlaybackManager.new w path memLoad decodeLoad).1.activeDecoders =
      (List.range (min memLoad (w.disk.subdirectories path : ℤ)).toNat).map
        fun k : ℕ => preloaded w path decodeLoad ((k : ℤ) + 1) := by
    unfold PlaybackManager.new
    simp only [hloop]
    split <;> rfl
  refine ⟨?_, ?_, ?_, ?_, ?_⟩
  · unfold PlaybackManager.new
    simp only [hloop]
  · rw [hact, List.map_map]
    apply List.map_congr_left
    intro k hk
    have hk2 := List.mem_range.mp hk
    exact (preloaded_name w path decodeLoad ((k : ℤ) + 1)
      fun h => hdecode2 _ (by omega) (by omega) h).1
  · intro k d hd
    rw [hact, List.getElem?_map] at hd
    have hk : k < (min memLoad (w.disk.subdirectories path : ℤ)).toNat := by
      by_contra hge
      rw [List.getElem?_eq_none (by rw [List.length_range]; omega)] at hd
      simp at hd
    rw [List.getElem?_range hk] at hd
    simp only [Option.map_some', Option.some.injEq] at hd
    rw [← hd, (preloaded_name w path decodeLoad ((k : ℤ) + 1)
      fun h => hdecode2 _ (by omega) (by omega) h).2]
    omega
  · unfold PlaybackManager.new
    simp only [hloop]
    split <;> rfl
  · unfold PlaybackManager.new
    simp only [hloop]

/-- Witness of C21 on `exampleFirstWorld` with `memLoad = 1`, `decodeLoad = 1`: decoder 1 is
active and decoded. -/
theorem constructor_preloads_witness :
    (∀ i : ℤ, 1 ≤ i → i ≤ 1 → i ≤ exampleFirstWorld.disk.subdirectories "root" →
      ((Decoder.new (to_string i)).LoadSequence exampleFirstWorld.lib exampleFirstWorld.disk
        (joinPath "root" (subFolderName i))).2 = .ok ()) ∧
    (∀ i : ℤ, 1 ≤ i → i ≤ 1 → i ≤ exampleFirstWorld.disk.subdirectories "root" → i ≤ 1 →
      ((((Decoder.new (to_string i)).LoadSequence exampleFirstWorld.lib
        exampleFirstWorld.disk (joinPath "root" (subFolderName i))).1).DecodeSequence
          exampleFirstWorld.host).2 = .ok true) ∧
    ((PlaybackManager.new exampleFirstWorld "root" 1 1).1.activeDecoders.map
      fun d => d.GetName) =
      (List.range (min 1 (exampleFirstWorld.disk.subdirectories "root" : ℤ)).toNat).map
        (fun k : ℕ => to_string ((k : ℤ) + 1)) :=
  ⟨fun i h1 h2 _ => by
      have h : i = 1 := by omega
      subst h
      rfl,
    fun i h1 h2 _ _ => by
      have h : i = 1 := by omega
      subst h
      rfl,
    (constructor_preloads exampleFirstWorld "root" 1 1
      (fun i h1 h2 _ => by
        have h : i = 1 := by omega
        subst h
        rfl)
      (fun i h1 h2 _ _ => by
        have h : i = 1 := by omega
        subst h
        rfl)).2.1⟩

end Playback

namespace TVMDecoder
open Eigen

/-- C31: from any state `Clear` leaves the Empty state: every buffer and the three mesh
containers empty, every matrix of shape 0 x 0, both counts 0, not decoded; it keeps the
decoder name, and `Clear` applied twice leaves what `Clear` applied once leaves. -/
theorem clear_gives_empty_state (d : Decoder) :
    d.Clear.IsEmpty ∧ d.Clear.decoderName = d.decoderName ∧ d.Clear.Clear = d.Clear ∧
    d.Clear = Decoder.new d.decoderName ∧
    (d.Clear.decodedFrames = [] ∧ d.Clear.decodedVertexBuffer = [] ∧
      d.Clear.referenceVertexBuffer = [] ∧ d.Clear.triangleIndicesFlat = [] ∧
      d.Clear.anchor_indices = []) ∧
    (d.Clear.dHat = MatrixXd.empty ∧ d.Clear.bMatrix = MatrixXd.empty ∧
      d.Clear.tMatrix = MatrixXd.empty ∧ d.Clear.S_hat = MatrixXd.empty ∧
      d.Clear.T_hat = MatrixXd.empty ∧ d.Clear.tMean = MatrixXd.empty ∧
      d.Clear.l_star = SparseMatrix.empty) ∧
    (d.Clear.decodedReferenceMesh.vertices = [] ∧ d.Clear.decodedReferenceMesh.triangles = [] ∧
      d.Clear.decodedReferenceMesh.adjacency_list = []) ∧
    d.Clear.totalFrames = 0 ∧ d.Clear.verticesPerFrame = 0 ∧ d.Clear.isDecoded = false :=
  ⟨rfl, rfl, rfl, rfl, ⟨rfl, rfl, rfl, rfl, rfl⟩, ⟨rfl, rfl, rfl, rfl, rfl, rfl, rfl⟩,
    ⟨rfl, rfl, rfl⟩, rfl, rfl, rfl⟩

end TVMDecoder

namespace TVMUtil
open Eigen

/-- The coefficient `setFromTriplets` gives at `(r, c)` when index `i` of a list without
repetition contributes, if `P i`, the one triplet `(i, col i, val i)`. -/
theorem sum_filterMap_triplets (P : ℕ → Prop) [DecidablePred P] (col : ℕ → ℤ) (val : ℕ → ℚ)
    (r c : ℕ) (l : List ℕ) (hl : l.Nodup) :
    (((l.filterMap fun i => if P i then some (⟨i, col i, val i⟩ : Triplet) else none).filter
      fun t => t.row = (r : ℤ) ∧ t.col = (c : ℤ)).map Triplet.value).sum =
      if r ∈ l ∧ P r ∧ col r = c then val r else 0 := by
  induction l with
  | nil => simp
  | cons a l ih =>
    obtain ⟨ha, hl2⟩ := List.nodup_cons.mp hl
    have ih2 := ih hl2
    simp only [List.filterMap_cons]
    by_cases hP : P a
    · simp only [hP, if_true, List.filter_cons]
      by_cases hrc : (a : ℤ) = (r : ℤ) ∧ col a = (c : ℤ)
      · have har : a = r := by exact_mod_cast hrc.1
        subst har
        simp only [hrc, and_self, decide_True, if_true, List.map_cons, List.sum_cons, ih2]
        simp [ha, hP]
      · simp only [hrc, decide_False, Bool.false_eq_true, if_false, ih2]
        by_cases hcond : r ∈ l ∧ P r ∧ col r = (c : ℤ)
        · rw [if_pos hcond, if_pos ⟨List.mem_cons_of_mem _ hcond.1, hcond.2⟩]
        · rw [if_neg hcond, if_neg]
          rintro ⟨hm, hPr, hcr⟩
          rcases List.mem_cons.mp hm with rfl | hm2
          · exact hrc ⟨rfl, hcr⟩
          · exact hcond ⟨hm2, hPr, hcr⟩
    · simp only [hP, if_false, ih2]
      by_cases hcond : r ∈ l ∧ P r ∧ col r = (c : ℤ)
      · rw [if_pos hcond, if_pos ⟨List.mem_cons_of_mem _ hcond.1, hcond.2⟩]
      · rw [if_neg hcond, if_neg]
        rintro ⟨hm, hPr, hcr⟩
        rcases List.mem_cons.mp hm with rfl | hm2
        · exact hP hPr
        · exact hcond ⟨hm2, hPr, hcr⟩

theorem sum_range_single (n i : ℕ) (f : ℕ → ℚ) :
    ((List.range n).map fun k => if i = k then f k else 0).sum = if i < n then f i else 0 := by
  induction n with
  | zero => simp
  | succ n ih =>
    rw [List.range_succ, List.map_append, List.sum_append, ih]
    simp only [List.map_cons, List.map_nil, List.sum_cons, List.sum_nil, add_zero]
    by_cases h1 : i < n
    · rw [if_pos h1, if_neg (by omega), if_pos (by omega), add_zero]
    · rw [if_neg h1, zero_add]
      by_cases h2 : i = n
      · rw [if_pos h2, if_pos (by omega), h2]
      · rw [if_neg h2, if_neg (by omega)]

/-- The first `n` rows of the matrix `BuildLaplacianMatrix` returns: `I - D_inv * W`, where
`D_inv` has `1 / rowSum` on the diagonal of the rows whose sum exceeds the threshold. -/
theorem BuildLaplacianMatrix_coeff_top
    (weight : Vector3d → Vector3d → Vector3d → Vector3d → Option ℚ)
    (mesh : SimpleMesh.Mesh) (anchorIndices : List ℤ) (r c : ℕ)
    (hr : r < mesh.vertices.length) :
    (BuildLaplacianMatrix weight mesh anchorIndices).coeff r c =
      (if r = c then 1 else 0) -
        (if ((List.range mesh.vertices.length).map fun j =>
              (ComputeMeanValueWeights weight mesh.vertices mesh.adjacency_list).coeff r j).sum >
            rowSumThreshold then
          1 / ((List.range mesh.vertices.length).map fun j =>
            (ComputeMeanValueWeights weight mesh.vertices mesh.adjacency_list).coeff r j).sum
        else 0) *
          (ComputeMeanValueWeights weight mesh.vertices mesh.adjacency_list).coeff r c := by
  have hW : (ComputeMeanValueWeights weight mesh.vertices mesh.adjacency_list).cols =
      mesh.vertices.length := rfl
  have hD := fun k : ℕ => sum_filterMap_triplets
    (fun i => ((List.range mesh.vertices.length).map fun j =>
      (ComputeMeanValueWeights weight mesh.vertices mesh.adjacency_list).coeff i j).sum >
        rowSumThreshold)
    (fun i => (i : ℤ))
    (fun i => 1 / ((List.range mesh.vertices.length).map fun j =>
      (ComputeMeanValueWeights weight mesh.vertices mesh.adjacency_list).coeff i j).sum)
    r k (List.range mesh.vertices.length) (List.nodup_range _)
  unfold BuildLaplacianMatrix
  simp only [SparseMatrix.sub, SparseMatrix.mul, SparseMatrix.identity,
    SparseMatrix.setFromTriplets, mul_one, if_pos hr]
  congr 1
  simp only [hD, List.mem_range, hr, true_and, Nat.cast_inj]
  have := sum_range_single mesh.vertices.length r fun k =>
    (if ((List.range mesh.vertices.length).map fun j =>
          (ComputeMeanValueWeights weight mesh.vertices mesh.adjacency_list).coeff r j).sum >
        rowSumThreshold then
      1 / ((List.range mesh.vertices.length).map fun j =>
        (ComputeMeanValueWeights weight mesh.vertices mesh.adjacency_list).coeff r j).sum
    else 0) * (ComputeMeanValueWeights weight mesh.vertices mesh.adjacency_list).coeff k c
  rw [if_pos hr] at this
  rw [← this]
  congr 1
  apply List.map_congr_left
  intro k _
  by_cases hk : r = k
  · simp [hk]
  · simp [hk]

theorem sum_range_sub (n : ℕ) (f g : ℕ → ℚ) :
    ((List.range n).map fun j => f j - g j).sum =
      ((List.range n).map f).sum - ((List.range n).map g).sum := by
  induction n with
  | zero => simp
  | succ n ih =>
    simp [List.range_succ, ih]
    ring

/-- The rows of the matrix `BuildLaplacianMatrix` returns below the first `n`: row `n + i`
holds a 1 at column `anchorIndices[i]` when that index is in range, and nothing else. -/
theorem BuildLaplacianMatrix_coeff_bottom
    (weight : Vector3d → Vector3d → Vector3d → Vector3d → Option ℚ)
    (mesh : SimpleMesh.Mesh) (anchorIndices : List ℤ) (i c : ℕ)
    (hi : i < anchorIndices.length) :
    (BuildLaplacianMatrix weight mesh anchorIndices).coeff (mesh.vertices.length + i) c =
      if (0 ≤ anchorIndices.getD i 0 ∧ anchorIndices.getD i 0 < mesh.vertices.length) ∧
          anchorIndices.getD i 0 = (c : ℤ) then 1
      else 0 := by
  have hA := sum_filterMap_triplets
    (fun i => 0 ≤ anchorIndices.getD i 0 ∧ anchorIndices.getD i 0 < mesh.vertices.length)
    (fun i => anchorIndices.getD i 0) (fun _ => 1) i c
    (List.range anchorIndices.length) (List.nodup_range _)
  unfold BuildLaplacianMatrix
  simp only [SparseMatrix.sub, SparseMatrix.mul, SparseMatrix.identity,
    SparseMatrix.setFromTriplets, if_neg (Nat.not_lt.mpr (Nat.le_add_right _ _)),
    Nat.add_sub_cancel_left]
  rw [hA]
  simp only [List.mem_range, hi, true_and]

/-- C32, as stated, fails: the one vertex of `exampleIsolated` has no neighbour, its weight
row-sum is 0, and row 0 of the matrix `BuildLaplacianMatrix` returns holds a 1 on the
diagonal: it is no zero row. -/
theorem isolated_vertex_row_not_zero :
    ((List.range exampleIsolated.vertices.length).map fun j =>
      (ComputeMeanValueWeights exampleWeight exampleIsolated.vertices
        exampleIsolated.adjacency_list).coeff 0 j).sum = 0 ∧
    (0 : ℚ) ≤ rowSumThreshold ∧
    (BuildLaplacianMatrix exampleWeight exampleIsolated []).coeff 0 0 = 1 := by
  have hsum : ((List.range exampleIsolated.vertices.length).map fun j =>
      (ComputeMeanValueWeights exampleWeight exampleIsolated.vertices
        exampleIsolated.adjacency_list).coeff 0 j).sum = 0 := by
    simp [ComputeMeanValueWeights, exampleIsolated, SparseMatrix.setFromTriplets]
  refine ⟨hsum, by unfold rowSumThreshold; positivity, ?_⟩
  have hthr : ¬ (0 : ℚ) > rowSumThreshold := by
    unfold rowSumThreshold
    norm_num
  rw [BuildLaplacianMatrix_coeff_top exampleWeight exampleIsolated [] 0 0 (by decide), hsum]
  simp [hthr]

/-- C32, amended: a row `i < n` whose weight row-sum does not exceed `1e-8f` is, in the
matrix `BuildLaplacianMatrix` returns, the row `i` of the identity: 1 on the diagonal and 0
elsewhere (`D_inv` has no entry in that row, so `I - D_inv * W` keeps the row of `I`). -/
theorem vanishing_row_is_identity_row
    (weight : Vector3d → Vector3d → Vector3d → Vector3d → Option ℚ)
    (mesh : SimpleMesh.Mesh) (anchorIndices : List ℤ) (i : ℕ)
    (hi : i < mesh.vertices.length)
    (hsum : ((List.range mesh.vertices.length).map fun j =>
      (ComputeMeanValueWeights weight mesh.vertices mesh.adjacency_list).coeff i j).sum ≤
        rowSumThreshold) :
    ∀ c, (BuildLaplacianMatrix weight mesh anchorIndices).coeff i c = if i = c then 1 else 0 := by
  intro c
  rw [BuildLaplacianMatrix_coeff_top weight mesh anchorIndices i c hi, if_neg (not_lt.mpr hsum),
    zero_mul, sub_zero]

theorem exampleIsolated_rowSum :
    ((List.range exampleIsolated.vertices.length).map fun j =>
      (ComputeMeanValueWeights exampleWeight exampleIsolated.vertices
        exampleIsolated.adjacency_list).coeff 0 j).sum ≤ rowSumThreshold := by
  have hsum : ((List.range exampleIsolated.vertices.length).map fun j =>
      (ComputeMeanValueWeights exampleWeight exampleIsolated.vertices
        exampleIsolated.adjacency_list).coeff 0 j).sum = 0 := by
    simp [ComputeMeanValueWeights, exampleIsolated, SparseMatrix.setFromTriplets]
  rw [hsum]
  unfold rowSumThreshold
  positivity

/-- Witness of the amended C32 on the vertex of `exampleIsolated`. -/
theorem vanishing_row_is_identity_row_witness :
    0 < exampleIsolated.vertices.length ∧
    ((List.range exampleIsolated.vertices.length).map fun j =>
      (ComputeMeanValueWeights exampleWeight exampleIsolated.vertices
        exampleIsolated.adjacency_list).coeff 0 j).sum ≤ rowSumThreshold ∧
    ∀ c, (BuildLaplacianMatrix exampleWeight exampleIsolated []).coeff 0 c =
      if 0 = c then 1 else 0 :=
  ⟨by decide, exampleIsolated_rowSum,
    vanishing_row_is_identity_row exampleWeight exampleIsolated [] 0 (by decide)
      exampleIsolated_rowSum⟩

/-- C33: `BuildLaplacianMatrix` returns a matrix with `n + a` rows and `n` columns; its
first `n` rows are `L = I - D_inv * W`, with `D_inv` holding `1 / rowSum` on the diagonal of
the rows whose weight row-sum exceeds `1e-8f`; and row `n + i`, for `i < a` with
`0 <= A[i] < n`, holds 1 at column `A[i]` and 0 at every other column. -/
theorem laplacian_stacks_anchor_rows
    (weight : Vector3d → Vector3d → Vector3d → Vector3d → Option ℚ)
    (mesh : SimpleMesh.Mesh) (anchorIndices : List ℤ) :
    (BuildLaplacianMatrix weight mesh anchorIndices).rows =
      mesh.vertices.length + anchorIndices.length ∧
    (BuildLaplacianMatrix weight mesh anchorIndices).cols = mesh.vertices.length ∧
    (∀ r c, r < mesh.vertices.length →
      (BuildLaplacianMatrix weight mesh anchorIndices).coeff r c =
        (if r = c then 1 else 0) -
          (if ((List.range mesh.vertices.length).map fun j =>
                (ComputeMeanValueWeights weight mesh.vertices mesh.adjacency_list).coeff r j).sum >
              rowSumThreshold then
            1 / ((List.range mesh.vertices.length).map fun j =>
              (ComputeMeanValueWeights weight mesh.vertices mesh.adjacency_list).coeff r j).sum
          else 0) *
            (ComputeMeanValueWeights weight mesh.vertices mesh.adjacency_list).coeff r c) ∧
    (∀ (i c : ℕ) (idx : ℤ), anchorIndices[i]? = some idx → 0 ≤ idx →
      idx < mesh.vertices.length →
      (BuildLaplacianMatrix weight mesh anchorIndices).coeff (mesh.vertices.length + i) c =
        if idx = (c : ℤ) then 1 else 0) := by
  obtain ⟨h1, h2⟩ := BuildLaplacianMatrix_shape weight mesh anchorIndices
  refine ⟨h1, h2, fun r c hr => BuildLaplacianMatrix_coeff_top weight mesh anchorIndices r c hr,
    ?_⟩
  intro i c idx hidx h0 hlt
  obtain ⟨hi, hget⟩ := List.getElem?_eq_some.mp hidx
  have hD : anchorIndices.getD i 0 = idx := by
    rw [List.getD_eq_getElem _ _ hi, hget]
  rw [BuildLaplacianMatrix_coeff_bottom weight mesh anchorIndices i c hi, hD]
  simp only [h0, hlt, and_self, true_and]

/-- Witness of C33 on `exampleRing` with the anchor list `[2]`: row 3 holds its 1 at
column 2. -/
theorem laplacian_stacks_anchor_rows_witness :
    ([2] : List ℤ)[0]? = some 2 ∧ (0 : ℤ) ≤ 2 ∧ (2 : ℤ) < exampleRing.vertices.length ∧
    (BuildLaplacianMatrix exampleWeight exampleRing [2]).coeff
      (exampleRing.vertices.length + 0) 2 = if (2 : ℤ) = ((2 : ℕ) : ℤ) then 1 else 0 :=
  ⟨rfl, by decide, by decide,
    (laplacian_stacks_anchor_rows exampleWeight exampleRing [2]).2.2.2 0 2 2 rfl (by decide)
      (by decide)⟩

/-- C38: over exact arithmetic, every row `i < n` of the matrix `BuildLaplacianMatrix`
returns whose weight row-sum exceeds `1e-8f` sums to zero over the `n` columns, and so
does its product with any constant vector. -/
theorem normalised_row_sums_to_zero
    (weight : Vector3d → Vector3d → Vector3d → Vector3d → Option ℚ)
    (mesh : SimpleMesh.Mesh) (anchorIndices : List ℤ) (i : ℕ)
    (hi : i < mesh.vertices.length)
    (hsum : ((List.range mesh.vertices.length).map fun j =>
      (ComputeMeanValueWeights weight mesh.vertices mesh.adjacency_list).coeff i j).sum >
        rowSumThreshold) :
    ((List.range mesh.vertices.length).map fun j =>
      (BuildLaplacianMatrix weight mesh anchorIndices).coeff i j).sum = 0 ∧
    ∀ x : ℚ, ((List.range mesh.vertices.length).map fun j =>
      (BuildLaplacianMatrix weight mesh anchorIndices).coeff i j * x).sum = 0 := by
  have hpos : (0 : ℚ) < rowSumThreshold := by
    unfold rowSumThreshold
    positivity
  have hne : ((List.range mesh.vertices.length).map fun j =>
      (ComputeMeanValueWeights weight mesh.vertices mesh.adjacency_list).coeff i j).sum ≠ 0 :=
    ne_of_gt (lt_trans hpos hsum)
  have hrow : ((List.range mesh.vertices.length).map fun j =>
      (BuildLaplacianMatrix weight mesh anchorIndices).coeff i j).sum = 0 := by
    have hco : ∀ j, (BuildLaplacianMatrix weight mesh anchorIndices).coeff i j =
        (if i = j then (1 : ℚ) else 0) -
          1 / ((List.range mesh.vertices.length).map fun j =>
            (ComputeMeanValueWeights weight mesh.vertices mesh.adjacency_list).coeff i j).sum *
          (ComputeMeanValueWeights weight mesh.vertices mesh.adjacency_list).coeff i j := by
      intro j
      rw [BuildLaplacianMatrix_coeff_top weight mesh anchorIndices i j hi, if_pos hsum]
    simp only [hco]
    rw [sum_range_sub, List.sum_map_mul_left]
    have h1 := sum_range_single mesh.vertices.length i fun _ => (1 : ℚ)
    rw [if_pos hi] at h1
    rw [h1, one_div, inv_mul_cancel₀ hne, sub_self]
  refine ⟨hrow, fun x => ?_⟩
  rw [List.sum_map_mul_right, hrow, zero_mul]

theorem exampleRing_rowSum :
    ((List.range exampleRing.vertices.length).map fun j =>
      (ComputeMeanValueWeights exampleWeight exampleRing.vertices
        exampleRing.adjacency_list).coeff 0 j).sum > rowSumThreshold := by
  have hsum : ((List.range exampleRing.vertices.length).map fun j =>
      (ComputeMeanValueWeights exampleWeight exampleRing.vertices
        exampleRing.adjacency_list).coeff 0 j).sum = 2 := by
    simp [ComputeMeanValueWeights, exampleRing, exampleWeight, SparseMatrix.setFromTriplets,
      List.range_succ, List.filter_cons]
    norm_num
  rw [hsum]
  unfold rowSumThreshold
  norm_num

/-- Witness of C38 on row 0 of `exampleRing`, whose weight row-sum is 2. -/
theorem normalised_row_sums_to_zero_witness :
    0 < exampleRing.vertices.length ∧
    ((List.range exampleRing.vertices.length).map fun j =>
      (ComputeMeanValueWeights exampleWeight exampleRing.vertices
        exampleRing.adjacency_list).coeff 0 j).sum > rowSumThreshold ∧
    ((List.range exampleRing.vertices.length).map fun j =>
      (BuildLaplacianMatrix exampleWeight exampleRing []).coeff 0 j).sum = 0 :=
  ⟨by decide, exampleRing_rowSum,
    (normalised_row_sums_to_zero exampleWeight exampleRing [] 0 (by decide)
      exampleRing_rowSum).1⟩

end TVMUtil

namespace Playback
open Eigen Storage TVMDecoder SimpleMeshIO

/-- C34 (code): on `exampleLastEvicted` (cursor 1 of 5, `preLoad = 1`, active decoders 1, 2,
3 with 2 decoded) `AdvanceSubSequence` moves the cursor to 2, erases decoder 1, steps over
decoder 2, erases decoder 3, the last element, and then increments the end iterator. -/
theorem advance_increments_end_iterator :
    (exampleLastEvicted.activeDecoders.map fun d => (d.GetName, d.IsDecoded)) =
      [("1", false), ("2", true), ("3", false)] ∧
    exampleLastEvicted.AdvanceSubSequence.2 =
      .error (.undefined "increment of the end iterator") ∧
    exampleLastEvicted.AdvanceSubSequence.1.currentSubSequence = 2 ∧
    (exampleLastEvicted.AdvanceSubSequence.1.activeDecoders.map fun d => d.GetName) = ["2"] :=
  ⟨by decide, rfl, rfl, by decide⟩

theorem stoi_to_string (n : ℕ) (hn : (n : ℤ) ≤ 2147483647) :
    stoi (to_string (n : ℤ)) = .ok (n : ℤ) := by
  obtain ⟨hne, hdig, hval⟩ := toDigits_spec n
  obtain ⟨hta, -⟩ := takeWhile_digits (Nat.toDigits 10 n) [] hdig (by simp)
  rw [List.append_nil] at hta
  unfold stoi
  rw [to_string_natCast]
  cases hD : Nat.toDigits 10 n with
  | nil => exact absurd hD hne
  | cons d ds =>
    have hd : d.isDigit = true := hdig d (by rw [hD]; exact List.mem_cons_self _ _)
    have hsp : isspace d = false := isDigit_not_isspace d hd
    have hsign := isDigit_not_sign d hd
    have hdrop : (d :: ds).dropWhile isspace = d :: ds :=
      List.dropWhile_cons_of_neg (by simp [hsp])
    rw [hD] at hta hval
    simp only [hdrop, List.head?_cons, Option.some.injEq]
    have h1 : ¬ (d = '-' ∨ d = '+') := hsign
    have h2 : ¬ d = '-' := fun h => hsign (Or.inl h)
    rw [if_neg h1, hta, if_neg (by simp), hval]
    simp only [h2, if_false]
    rw [if_neg (by omega)]

/-- A scan of `AdvanceSubSequence` that ends normally keeps the first decoder of a name whose
number is inside the window. -/
theorem evictScan_keeps (m : PlaybackManager) (name : String) (n : ℤ)
    (hstoi : stoi name = .ok n) (hkeep : shouldKeep m n = true) :
    ∀ (l kept : List Decoder) (d : Decoder), evictScan m l = (kept, .ok ()) →
      findDecoder l name = some d → findDecoder kept name = some d := by
  intro l
  induction l using evictScan.induct m with
  | case1 =>
    intro kept d _ hf
    simp [findDecoder] at hf
  | case2 d0 e he =>
    intro kept d h _
    rw [evictScan, he] at h
    cases h
  | case3 d0 k hk hkp =>
    intro kept d h hf
    rw [evictScan, hk] at h
    simp only [hkp, if_true] at h
    cases h
    exact hf
  | case4 d0 k hk hkp =>
    intro kept d h _
    rw [evictScan, hk] at h
    simp only [hkp, if_false] at h
    cases h
  | case5 d0 nx rest e he =>
    intro kept d h _
    rw [evictScan, he] at h
    cases h
  | case6 d0 nx rest k hk hkp ih =>
    intro kept d h hf
    rw [evictScan, hk] at h
    simp only [hkp, if_true] at h
    have h1 : kept = d0 :: (evictScan m (nx :: rest)).1 := (congrArg Prod.fst h).symm
    have h2 : (evictScan m (nx :: rest)).2 = .ok () := congrArg Prod.snd h
    rw [h1]
    unfold findDecoder at hf ⊢
    by_cases hn : d0.GetName = name
    · rw [List.find?_cons_of_pos _ (by simpa using hn)] at hf ⊢
      exact hf
    · rw [List.find?_cons_of_neg _ (by simpa using hn)] at hf ⊢
      exact ih _ d (Prod.ext rfl h2) hf
  | case7 d0 nx rest k hk hkp ih =>
    intro kept d h hf
    rw [evictScan, hk] at h
    simp only [hkp, if_false] at h
    have h1 : kept = nx :: (evictScan m rest).1 := (congrArg Prod.fst h).symm
    have h2 : (evictScan m rest).2 = .ok () := congrArg Prod.snd h
    have hn0 : d0.GetName ≠ name := by
      intro hn
      rw [hn, hstoi] at hk
      have : n = k := Except.ok.inj hk
      rw [← this, hkeep] at hkp
      exact absurd rfl hkp
    rw [h1]
    unfold findDecoder at hf ⊢
    rw [List.find?_cons_of_neg _ (by simpa using hn0)] at hf
    by_cases hn : nx.GetName = name
    · rw [List.find?_cons_of_pos _ (by simpa using hn)] at hf ⊢
      exact hf
    · rw [List.find?_cons_of_neg _ (by simpa using hn)] at hf ⊢
      exact ih _ d (Prod.ext rfl h2) hf

/-- What a successful `AdvanceSubSequence` did: the cursor moved to `next` and the scan of
the active list ended normally. -/
theorem AdvanceSubSequence_true_scan (m m2 : PlaybackManager)
    (h : m.AdvanceSubSequence = (m2, .ok true)) :
    ∃ d, findDecoder m.activeDecoders (to_string
        (if m.currentSubSequence + 1 > m.subSequenceCount then 1
          else m.currentSubSequence + 1)) = some d ∧ d.IsDecoded = true ∧
      (evictScan { m with currentSubSequence :=
          if m.currentSubSequence + 1 > m.subSequenceCount then 1
          else m.currentSubSequence + 1 } m.activeDecoders).2 = .ok () ∧
      m2 = { m with
        currentSubSequence :=
          if m.currentSubSequence + 1 > m.subSequenceCount then 1
          else m.currentSubSequence + 1
        activeDecoders := (evictScan { m with currentSubSequence :=
          if m.currentSubSequence + 1 > m.subSequenceCount then 1
          else m.currentSubSequence + 1 } m.activeDecoders).1 } := by
  unfold PlaybackManager.AdvanceSubSequence at h
  cases hE : m.activeDecoders.isEmpty with
  | true =>
    rw [hE] at h
    simp only [if_true] at h
    exact absurd (congrArg Prod.snd h) (by simp)
  | false =>
    rw [hE] at h
    simp only [Bool.false_eq_true, if_false] at h
    cases hF : findDecoder m.activeDecoders (to_string
        (if m.currentSubSequence + 1 > m.subSequenceCount then 1
          else m.currentSubSequence + 1)) with
    | none =>
      rw [hF] at h
      exact absurd (congrArg Prod.snd h) (by simp)
    | some d =>
      rw [hF] at h
      simp only at h
      cases hD : d.IsDecoded with
      | false =>
        rw [hD] at h
        simp only [if_true] at h
        exact absurd (congrArg Prod.snd h) (by simp)
      | true =>
        rw [hD] at h
        simp only [Bool.true_eq_false, if_false] at h
        refine ⟨d, rfl, hD, ?_⟩
        generalize hs : evictScan { m with currentSubSequence :=
          if m.currentSubSequence + 1 > m.subSequenceCount then 1
          else m.currentSubSequence + 1 } m.activeDecoders = res at h ⊢
        obtain ⟨kept, r⟩ := res
        cases r with
        | error e =>
          simp only at h
          exact absurd (congrArg Prod.snd h) (by simp)
        | ok u =>
          simp only at h
          exact ⟨rfl, (congrArg Prod.fst h).symm⟩

theorem shouldKeep_next (m : PlaybackManager)
    (hc0 : 0 ≤ m.subSequenceCount) (hpre : 1 ≤ m.preLoad) :
    shouldKeep { m with currentSubSequence :=
        if m.currentSubSequence + 1 > m.subSequenceCount then 1
        else m.currentSubSequence + 1 }
      (if m.currentSubSequence + 1 > m.subSequenceCount then 1
        else m.currentSubSequence + 1) = true := by
  unfold shouldKeep
  rw [List.any_eq_true]
  refine ⟨0, List.mem_range.mpr (by show 0 < m.preLoad.toNat; omega), ?_⟩
  simp only [Nat.cast_zero, add_zero, decide_eq_true_eq]
  split_ifs <;> omega

/-- C36: in a manager state with `currentSubSequence >= 0`, `subSequenceCount` a
non-negative `int` and `preLoad >= 1`, after `AdvanceSubSequence` has returned true the first
active decoder named `currentSubSequence` exists, is the decoder the call found decoded, and
`fetchFrame` ends as `ApplyDisplacementToFrame` on it does. -/
theorem advance_keeps_current_decoder (m m2 : PlaybackManager)
    (hcur : 0 ≤ m.currentSubSequence) (hc0 : 0 ≤ m.subSequenceCount)
    (hc1 : m.subSequenceCount ≤ 2147483647) (hpre : 1 ≤ m.preLoad)
    (h : m.AdvanceSubSequence = (m2, .ok true)) :
    ∃ d, findDecoder m2.activeDecoders (to_string m2.currentSubSequence) = some d ∧
      d ∈ m2.activeDecoders ∧ d.GetName = to_string m2.currentSubSequence ∧
      d.IsDecoded = true ∧
      findDecoder m.activeDecoders (to_string m2.currentSubSequence) = some d ∧
      ∀ t, (m2.fetchFrame t).2 = (d.ApplyDisplacementToFrame t).2 := by
  obtain ⟨d, hf, hd, hscan, hm2⟩ := AdvanceSubSequence_true_scan m m2 h
  have hnext0 : 0 ≤ (if m.currentSubSequence + 1 > m.subSequenceCount then 1
      else m.currentSubSequence + 1) := by split_ifs <;> omega
  have hnext1 : (if m.currentSubSequence + 1 > m.subSequenceCount then 1
      else m.currentSubSequence + 1) ≤ 2147483647 := by split_ifs <;> omega
  obtain ⟨n, hn⟩ := Int.eq_ofNat_of_zero_le hnext0
  have hstoi : stoi (to_string (if m.currentSubSequence + 1 > m.subSequenceCount then 1
      else m.currentSubSequence + 1)) = .ok (if m.currentSubSequence + 1 > m.subSequenceCount
        then 1 else m.currentSubSequence + 1) := by
    rw [hn]
    exact stoi_to_string n (by rw [← hn]; exact hnext1)
  have hkept := evictScan_keeps _ _ _ hstoi (shouldKeep_next m hc0 hpre) m.activeDecoders
    _ d (Prod.ext rfl hscan) hf
  have hcur2 : m2.currentSubSequence = (if m.currentSubSequence + 1 > m.subSequenceCount then 1
      else m.currentSubSequence + 1) := by rw [hm2]
  have hact2 : m2.activeDecoders = (evictScan { m with currentSubSequence :=
      if m.currentSubSequence + 1 > m.subSequenceCount then 1
      else m.currentSubSequence + 1 } m.activeDecoders).1 := by rw [hm2]
  rw [hcur2, hact2]
  have hfind := hkept
  unfold findDecoder at hfind
  have hname : d.GetName = to_string (if m.currentSubSequence + 1 > m.subSequenceCount then 1
      else m.currentSubSequence + 1) := by simpa using List.find?_some hfind
  have hmem := List.mem_of_find?_eq_some hfind
  refine ⟨d, hkept, hmem, hname, hd, hf, fun t => ?_⟩
  have hne : ∀ l : List Decoder, d ∈ l → l.isEmpty = false := by
    intro l hl
    cases l with
    | nil => exact absurd hl (List.not_mem_nil d)
    | cons a l => rfl
  unfold PlaybackManager.fetchFrame
  rw [hact2, hne _ hmem, hcur2, hkept]
  rfl

/-- Witness of C36 on `exampleThreeActive`, which advances to subsequence 2. -/
theorem advance_keeps_current_decoder_witness :
    0 ≤ exampleThreeActive.currentSubSequence ∧ 0 ≤ exampleThreeActive.subSequenceCount ∧
    exampleThreeActive.subSequenceCount ≤ 2147483647 ∧ 1 ≤ exampleThreeActive.preLoad ∧
    exampleThreeActive.AdvanceSubSequence =
      (exampleThreeActive.AdvanceSubSequence.1, .ok true) ∧
    ∃ d, findDecoder exampleThreeActive.AdvanceSubSequence.1.activeDecoders
        (to_string exampleThreeActive.AdvanceSubSequence.1.currentSubSequence) = some d ∧
      d ∈ exampleThreeActive.AdvanceSubSequence.1.activeDecoders ∧
      d.GetName = to_string exampleThreeActive.AdvanceSubSequence.1.currentSubSequence ∧
      d.IsDecoded = true ∧
      findDecoder exampleThreeActive.activeDecoders
        (to_string exampleThreeActive.AdvanceSubSequence.1.currentSubSequence) = some d ∧
      ∀ t, (exampleThreeActive.AdvanceSubSequence.1.fetchFrame t).2 =
        (d.ApplyDisplacementToFrame t).2 :=
  ⟨by decide, by decide, by decide, by decide, rfl,
    advance_keeps_current_decoder exampleThreeActive exampleThreeActive.AdvanceSubSequence.1
      (by decide) (by decide) (by decide) (by decide) rfl⟩

end Playback
namespace Playback

open Eigen Storage TVMDecoder

/-- C35 (code): the delta file of `exampleSmallDeltaDisk` passes the header check of
`LoadDeltaTrajectories` and is loaded as a 2 x 3 matrix, yet `LoadSequence` then reads
`dHat(100, 0)`, an entry outside the matrix: the Eigen assertion fires and leaves the call,
because the handler catches only `std::exception`. -/
theorem load_sequence_reads_row_100_of_small_matrix :
    (∃ D, MatrixIO.LoadDeltaTrajectories exampleLibrary exampleSmallDeltaDisk
        "seq/delta_trajectories.bin" = .ok D ∧ D.rows = 2 ∧ D.cols = 3 ∧
      D.at 0 0 = .ok 0 ∧ D.at 0 1 = .ok 0 ∧ D.at 0 2 = .ok 0 ∧
      D.at 100 0 = .error (.eigen_assert "operator(): index outside the matrix") ∧
      debugReads D = .error (.eigen_assert "operator(): index outside the matrix")) ∧
    ((Decoder.new "1").LoadSequence exampleLibrary exampleSmallDeltaDisk "seq").2 =
      .error (.eigen_assert "operator(): index outside the matrix") ∧
    ((Decoder.new "1").LoadSequence exampleLibrary exampleSmallDeltaDisk "seq").1.dHat.rows = 2 ∧
    ((Decoder.new "1").LoadSequence exampleLibrary exampleSmallDeltaDisk "seq").1.dHat.cols = 3 :=
  ⟨⟨_, rfl, rfl, rfl, rfl, rfl, rfl, rfl, rfl⟩, rfl, rfl, rfl⟩

end Playback
namespace SimpleMesh
open Eigen

/-- The unique vertices the scan of `RemoveDuplicatedVertices` collects are pairwise not
within the threshold of each other. -/
theorem scanVertices_separated (threshold : ℚ) (vs : List Vector3d) :
    (scanVertices vs threshold).2.Pairwise fun p q => normBelow p q threshold = false := by
  induction vs using List.reverseRecOn with
  | nil => exact List.Pairwise.nil
  | append_singleton vs v ih =>
    rw [scanVertices_concat]
    unfold scanVertex
    simp only
    split
    · exact ih
    · next hj =>
      have hlen : (scanVertices vs threshold).2.findIdx (fun u => normBelow v u threshold) =
          (scanVertices vs threshold).2.length :=
        le_antisymm (List.findIdx_le_length _) (not_lt.mp hj)
      rw [List.findIdx_eq_length] at hlen
      refine List.pairwise_append.mpr ⟨ih, List.pairwise_singleton _ _, ?_⟩
      intro x hx y hy
      rw [List.mem_singleton.mp hy, normBelow_comm]
      simpa using hlen x hx

/-- An index inside the vertex list is remapped to an index inside the unique vertices. -/
theorem remapIndex_lt (threshold : ℚ) (vs : List Vector3d) (k : ℤ)
    (h : 0 ≤ k ∧ k < vs.length) :
    0 ≤ remapIndex (scanVertices vs threshold).1 k ∧
    remapIndex (scanVertices vs threshold).1 k < (scanVertices vs threshold).2.length := by
  have hk : k.toNat < vs.length := by omega
  obtain ⟨u, h0, hu, -⟩ := remapIndex_spec threshold vs k vs[k.toNat] h.1
    (List.getElem?_eq_getElem hk)
  refine ⟨h0, ?_⟩
  have hlt := (List.getElem?_eq_some_iff.mp hu).1
  omega

/-- The triangles `RemoveDuplicatedVertices` leaves index its unique vertices, when the
triangles it was given index the vertices. -/
theorem RemoveDuplicatedVertices_range (mesh : Mesh) (threshold : ℚ)
    (hrange : ∀ t ∈ mesh.triangles,
      (0 ≤ t.1 ∧ t.1 < mesh.vertices.length) ∧ (0 ≤ t.2.1 ∧ t.2.1 < mesh.vertices.length) ∧
        (0 ≤ t.2.2 ∧ t.2.2 < mesh.vertices.length)) :
    ∀ t ∈ (mesh.RemoveDuplicatedVertices threshold).triangles,
      (0 ≤ t.1 ∧ t.1 < (mesh.RemoveDuplicatedVertices threshold).vertices.length) ∧
      (0 ≤ t.2.1 ∧ t.2.1 < (mesh.RemoveDuplicatedVertices threshold).vertices.length) ∧
      (0 ≤ t.2.2 ∧ t.2.2 < (mesh.RemoveDuplicatedVertices threshold).vertices.length) := by
  intro t ht
  unfold Mesh.RemoveDuplicatedVertices at ht ⊢
  simp only [List.mem_map] at ht ⊢
  obtain ⟨tri, htri, rfl⟩ := ht
  obtain ⟨h0, h1, h2⟩ := hrange tri htri
  exact ⟨remapIndex_lt threshold mesh.vertices tri.1 h0,
    remapIndex_lt threshold mesh.vertices tri.2.1 h1,
    remapIndex_lt threshold mesh.vertices tri.2.2 h2⟩

/-- C37: for a mesh whose triangle indices are in range, the vertices
`RemoveDuplicatedVertices(ε)` leaves are pairwise not within `ε` of each other, its triangles
index them, and a second `RemoveDuplicatedVertices(ε)` changes neither the vertex list nor
any triangle: the mesh stays as the first application left it. -/
theorem dedup_twice_is_dedup_once (mesh : Mesh) (threshold : ℚ)
    (hrange : ∀ t ∈ mesh.triangles,
      (0 ≤ t.1 ∧ t.1 < mesh.vertices.length) ∧ (0 ≤ t.2.1 ∧ t.2.1 < mesh.vertices.length) ∧
        (0 ≤ t.2.2 ∧ t.2.2 < mesh.vertices.length)) :
    ((mesh.RemoveDuplicatedVertices threshold).vertices.Pairwise
      fun p q => normBelow p q threshold = false) ∧
    (∀ t ∈ (mesh.RemoveDuplicatedVertices threshold).triangles,
      (0 ≤ t.1 ∧ t.1 < (mesh.RemoveDuplicatedVertices threshold).vertices.length) ∧
      (0 ≤ t.2.1 ∧ t.2.1 < (mesh.RemoveDuplicatedVertices threshold).vertices.length) ∧
      (0 ≤ t.2.2 ∧ t.2.2 < (mesh.RemoveDuplicatedVertices threshold).vertices.length)) ∧
    ((mesh.RemoveDuplicatedVertices threshold).RemoveDuplicatedVertices threshold).vertices =
      (mesh.RemoveDuplicatedVertices threshold).vertices ∧
    ((mesh.RemoveDuplicatedVertices threshold).RemoveDuplicatedVertices threshold).triangles =
      (mesh.RemoveDuplicatedVertices threshold).triangles ∧
    (mesh.RemoveDuplicatedVertices threshold).RemoveDuplicatedVertices threshold =
      mesh.RemoveDuplicatedVertices threshold := by
  have hsep : (mesh.RemoveDuplicatedVertices threshold).vertices.Pairwise
      fun p q => normBelow p q threshold = false := scanVertices_separated threshold mesh.vertices
  obtain ⟨hv, ht⟩ := RemoveDuplicatedVertices_of_separated
    (mesh.RemoveDuplicatedVertices threshold) threshold hsep
  refine ⟨hsep, RemoveDuplicatedVertices_range mesh threshold hrange, hv, ht, ?_⟩
  generalize mesh.RemoveDuplicatedVertices threshold = m2 at hv ht
  have hv2 : (scanVertices m2.vertices threshold).2 = m2.vertices := hv
  have ht2 : (m2.triangles.map fun tri =>
      (remapIndex (scanVertices m2.vertices threshold).1 tri.1,
        remapIndex (scanVertices m2.vertices threshold).1 tri.2.1,
        remapIndex (scanVertices m2.vertices threshold).1 tri.2.2)) = m2.triangles := ht
  unfold Mesh.RemoveDuplicatedVertices
  simp only [hv2, ht2]

/-- Witness of C37 on `exampleChain` with threshold 10, where the first application merges
two vertices. -/
theorem dedup_twice_is_dedup_once_witness :
    (∀ t ∈ exampleChain.triangles,
      (0 ≤ t.1 ∧ t.1 < exampleChain.vertices.length) ∧
        (0 ≤ t.2.1 ∧ t.2.1 < exampleChain.vertices.length) ∧
        (0 ≤ t.2.2 ∧ t.2.2 < exampleChain.vertices.length)) ∧
    (exampleChain.RemoveDuplicatedVertices 10).RemoveDuplicatedVertices 10 =
      exampleChain.RemoveDuplicatedVertices 10 :=
  ⟨by decide, (dedup_twice_is_dedup_once exampleChain 10 (by decide)).2.2.2.2⟩

end SimpleMesh
namespace SimpleMesh
open Eigen

/-- Consistent locals hold every vertex of the mesh: `new_vertices` is no shorter. -/
theorem Consistent.length_le (V : List Vector3d) (s : Subdivision) (hs : s.Consistent V) :
    V.length ≤ s.new_vertices.length := by
  rw [hs.1]
  exact Nat.le_add_right _ _

/-- The triangles the loop of `SubdivideMidpoint` emits index `new_vertices`. -/
theorem subdivideTriangles_range (mesh : Mesh)
    (hrange : ∀ t ∈ mesh.triangles,
      (0 ≤ t.1 ∧ t.1 < mesh.vertices.length) ∧ (0 ≤ t.2.1 ∧ t.2.1 < mesh.vertices.length) ∧
        (0 ≤ t.2.2 ∧ t.2.2 < mesh.vertices.length)) :
    ∀ t ∈ (subdivideTriangles mesh).new_triangles,
      (0 ≤ t.1 ∧ t.1 < (subdivideTriangles mesh).new_vertices.length) ∧
      (0 ≤ t.2.1 ∧ t.2.1 < (subdivideTriangles mesh).new_vertices.length) ∧
      (0 ≤ t.2.2 ∧ t.2.2 < (subdivideTriangles mesh).new_vertices.length) := by
  obtain ⟨hc, hk, ht⟩ := subdivideTriangles_spec mesh hrange
  have hle := Consistent.length_le mesh.vertices _ hc
  have hmid : ∀ tri ∈ mesh.triangles, ∀ a b, Edge.new a b ∈ edgesOf tri →
      0 ≤ midIndex (subdivideTriangles mesh) a b ∧
      midIndex (subdivideTriangles mesh) a b < (subdivideTriangles mesh).new_vertices.length := by
    intro tri htri a b hab
    obtain ⟨h0, hv⟩ := midIndex_vertex mesh.vertices (subdivideTriangles mesh) a b hc
      ((hk _).mpr (List.mem_flatMap.mpr ⟨tri, htri, hab⟩))
    have hlt := (List.getElem?_eq_some_iff.mp hv).1
    exact ⟨h0, by omega⟩
  intro t htm
  rw [ht] at htm
  obtain ⟨tri, htri, hmem⟩ := List.mem_flatMap.mp htm
  obtain ⟨⟨a0, a1⟩, ⟨b0, b1⟩, ⟨c0, c1⟩⟩ := hrange tri htri
  have m01 := hmid tri htri tri.1 tri.2.1 (by simp [edgesOf])
  have m12 := hmid tri htri tri.2.1 tri.2.2 (by simp [edgesOf])
  have m20 := hmid tri htri tri.2.2 tri.1 (by simp [edgesOf])
  have ha : tri.1 < (subdivideTriangles mesh).new_vertices.length := by omega
  have hb : tri.2.1 < (subdivideTriangles mesh).new_vertices.length := by omega
  have hc2 : tri.2.2 < (subdivideTriangles mesh).new_vertices.length := by omega
  simp only [fourTriangles, List.mem_cons, List.mem_singleton, List.not_mem_nil,
    or_false] at hmem
  rcases hmem with rfl | rfl | rfl | rfl
  · exact ⟨⟨a0, ha⟩, m01, m20⟩
  · exact ⟨⟨b0, hb⟩, m12, m01⟩
  · exact ⟨⟨c0, hc2⟩, m20, m12⟩
  · exact ⟨m01, m12, m20⟩

/-- C39: for a mesh whose triangle indices are all in `[0, |V|)`: at every triangle of the
loop of `SubdivideMidpoint`, the three corners index `new_vertices` as it stands at each of
the three calls of `get_midpoint`, so `new_vertices[a]` and `new_vertices[b]` are in bounds;
every index of `new_triangles` indexes `new_vertices` when the loop ends, so the reads
`old_to_new[tri[k]]` of the final `RemoveDuplicatedVertices` are in bounds; and every
triangle index of the mesh `SubdivideMidpoint` leaves is in `[0, |V2|)` for its vertex list
`V2`. -/
theorem subdivide_keeps_indices_in_bounds (mesh : Mesh)
    (hrange : ∀ t ∈ mesh.triangles,
      (0 ≤ t.1 ∧ t.1 < mesh.vertices.length) ∧ (0 ≤ t.2.1 ∧ t.2.1 < mesh.vertices.length) ∧
        (0 ≤ t.2.2 ∧ t.2.2 < mesh.vertices.length)) :
    (∀ (done : List (ℤ × ℤ × ℤ)) (tri : ℤ × ℤ × ℤ) (rest : List (ℤ × ℤ × ℤ)),
      mesh.triangles = done ++ tri :: rest →
      ∀ s : Subdivision,
        s ∈ [done.foldl subdivideTriangle ⟨[], mesh.vertices, []⟩,
          (get_midpoint (done.foldl subdivideTriangle ⟨[], mesh.vertices, []⟩) tri.1 tri.2.1).1,
          (get_midpoint (get_midpoint (done.foldl subdivideTriangle ⟨[], mesh.vertices, []⟩)
            tri.1 tri.2.1).1 tri.2.1 tri.2.2).1] →
        (0 ≤ tri.1 ∧ tri.1 < s.new_vertices.length) ∧
        (0 ≤ tri.2.1 ∧ tri.2.1 < s.new_vertices.length) ∧
        (0 ≤ tri.2.2 ∧ tri.2.2 < s.new_vertices.length)) ∧
    (∀ t ∈ (subdivideTriangles mesh).new_triangles,
      (0 ≤ t.1 ∧ t.1 < (subdivideTriangles mesh).new_vertices.length) ∧
      (0 ≤ t.2.1 ∧ t.2.1 < (subdivideTriangles mesh).new_vertices.length) ∧
      (0 ≤ t.2.2 ∧ t.2.2 < (subdivideTriangles mesh).new_vertices.length)) ∧
    (∀ t ∈ mesh.SubdivideMidpoint.triangles,
      (0 ≤ t.1 ∧ t.1 < mesh.SubdivideMidpoint.vertices.length) ∧
      (0 ≤ t.2.1 ∧ t.2.1 < mesh.SubdivideMidpoint.vertices.length) ∧
      (0 ≤ t.2.2 ∧ t.2.2 < mesh.SubdivideMidpoint.vertices.length)) := by
  refine ⟨?_, subdivideTriangles_range mesh hrange, ?_⟩
  · intro done tri rest hsplit s hs
    have hdone : ∀ t ∈ done,
        (0 ≤ t.1 ∧ t.1 < mesh.vertices.length) ∧ (0 ≤ t.2.1 ∧ t.2.1 < mesh.vertices.length) ∧
          (0 ≤ t.2.2 ∧ t.2.2 < mesh.vertices.length) := by
      intro t ht
      exact hrange t (by rw [hsplit]; exact List.mem_append_left _ ht)
    obtain ⟨⟨a0, a1⟩, ⟨b0, b1⟩, ⟨c0, c1⟩⟩ :=
      hrange tri (by rw [hsplit]; exact List.mem_append_right _ (List.mem_cons_self _ _))
    obtain ⟨k0, -, -⟩ := foldl_subdivideTriangle_spec mesh.vertices done
      ⟨[], mesh.vertices, []⟩ []
      ⟨by simp, fun i v h => h, fun p e m h => by simp at h, by simp⟩
      (fun e => by simp) rfl hdone
    obtain ⟨k1, -⟩ := get_midpoint_spec mesh.vertices _ tri.1 tri.2.1 k0 ⟨a0, a1⟩ ⟨b0, b1⟩
    obtain ⟨k2, -⟩ := get_midpoint_spec mesh.vertices _ tri.2.1 tri.2.2 k1 ⟨b0, b1⟩ ⟨c0, c1⟩
    have hcons : s.Consistent mesh.vertices := by
      simp only [List.mem_cons, List.mem_singleton, List.not_mem_nil, or_false] at hs
      rcases hs with rfl | rfl | rfl
      · exact k0
      · exact k1
      · exact k2
    have hle := Consistent.length_le mesh.vertices s hcons
    exact ⟨⟨a0, by omega⟩, ⟨b0, by omega⟩, ⟨c0, by omega⟩⟩
  · exact RemoveDuplicatedVertices_range
      { mesh with
        vertices := (subdivideTriangles mesh).new_vertices
        triangles := (subdivideTriangles mesh).new_triangles } defaultThreshold
      (subdivideTriangles_range mesh hrange)

/-- Witness of C39 on `exampleTriangle`. -/
theorem subdivide_keeps_indices_in_bounds_witness :
    (∀ t ∈ exampleTriangle.triangles,
      (0 ≤ t.1 ∧ t.1 < exampleTriangle.vertices.length) ∧
        (0 ≤ t.2.1 ∧ t.2.1 < exampleTriangle.vertices.length) ∧
        (0 ≤ t.2.2 ∧ t.2.2 < exampleTriangle.vertices.length)) ∧
    ∀ t ∈ exampleTriangle.SubdivideMidpoint.triangles,
      (0 ≤ t.1 ∧ t.1 < exampleTriangle.SubdivideMidpoint.vertices.length) ∧
      (0 ≤ t.2.1 ∧ t.2.1 < exampleTriangle.SubdivideMidpoint.vertices.length) ∧
      (0 ≤ t.2.2 ∧ t.2.2 < exampleTriangle.SubdivideMidpoint.vertices.length) :=
  ⟨by decide, (subdivide_keeps_indices_in_bounds exampleTriangle (by decide)).2.2⟩

end SimpleMesh
